import Mathlib

/-!
# map-sort: a shallow embedding of `map_sort.h`

The engine `MapSort<Type, NumIntervals>` of `src/map_sort.h` is embedded as
explicit state passing.  The embedding is of the OpenMP build with `assert`
enabled, on an LP64 platform: `int` is a 32-bit two's complement integer and
`size_t` a 64-bit unsigned integer.

* A failed `assert`, a division by zero and an access outside an allocated
  buffer end the run with a `Fault`.
* The range tables `pos_bgn_` and `pos_end_` hold `int` values: what is stored
  in them is reduced by `toInt`, what is read back as `size_t` by `toSize`.
  The same holds for the `int` bucket id `k`.
* The element type is any type `α` with a comparison `lt` (the C++
  `operator<`); `std::sort` is a parameter `stdSort`, constrained in the
  theorems by the contract the C++ standard gives it (`SortContract`).
* `libstdcxx.sort` is `std::sort` as libstdc++ implements it, for runs that are
  evaluated with the sort of the library.
* `rand()` is a parameter `rand : Nat → Nat`, the successive values drawn
  during one call of `Sort`.
* A parallel region runs its block once for every thread id
  `0, ..., num_threads_ - 1`, in ascending order.
* `K` is the template parameter `NumIntervals`.
* `Scatter.log` is `Scatter` with a record of its writes, the pairs of a source index
  and the scratch index it is moved to; its engine is that of `Scatter`.
* `Sort` is a reserved word of Lean: the method and the free function are `sort`.
-/

namespace map_sort

/-! ## Machine integers and memory -/

/-- The ways a run stops without returning. -/
inductive Fault where
  | assertion
  | divisionByZero
  | outOfBounds
  deriving DecidableEq

/-- Conversion to `int`: reduction modulo `2^32` into `[-2^31, 2^31)`. -/
def toInt (v : Int) : Int := (v + 2147483648) % 4294967296 - 2147483648

/-- Conversion to `size_t`: reduction modulo `2^64`. -/
def toSize (v : Int) : Nat := (v % 18446744073709551616).toNat

/-- Read `a[i]`. -/
def load {β : Type} (a : List β) (i : Nat) : Except Fault β :=
  match a[i]? with
  | some v => .ok v
  | none => .error .outOfBounds

/-- Write `a[i] = v`. -/
def store {β : Type} (a : List β) (i : Nat) (v : β) : Except Fault (List β) :=
  if i < a.length then .ok (a.set i v) else .error .outOfBounds

/-- Read `a[k]` for an `int` index `k`. -/
def loadI {β : Type} (a : List β) (k : Int) : Except Fault β :=
  if k < 0 then .error .outOfBounds else load a k.toNat

/-- Write `a[k] = v` for an `int` index `k`. -/
def storeI {β : Type} (a : List β) (k : Int) (v : β) : Except Fault (List β) :=
  if k < 0 then .error .outOfBounds else store a k.toNat v

/-- The loop `for (i = lo; i < lo + cnt; ++i) body`, on a state `σ`. -/
def forLoop {σ : Type} (body : Nat → σ → Except Fault σ) : Nat → Nat → σ → Except Fault σ
  | _, 0, s => .ok s
  | lo, cnt + 1, s =>
    match body lo s with
    | .ok s' => forLoop body (lo + 1) cnt s'
    | .error e => .error e

/-! ## `std::lower_bound` -/

/-- The search loop of `std::lower_bound`: `first` and `len` as in the library,
`fuel` bounds the number of halvings. -/
def lower_bound.go {α : Type} (lt : α → α → Bool) (a : List α) (val : α) :
    Nat → Nat → Nat → Nat
  | 0, first, _ => first
  | fuel + 1, first, len =>
    if len = 0 then first
    else
      let half := len / 2
      let middle := first + half
      match a[middle]? with
      | none => first
      | some v =>
        if lt v val then lower_bound.go lt a val fuel (middle + 1) (len - half - 1)
        else lower_bound.go lt a val fuel first half

/-- Binary search `std::lower_bound(a, a + a.length, val) - a`. -/
def lower_bound {α : Type} (lt : α → α → Bool) (a : List α) (val : α) : Nat :=
  lower_bound.go lt a val a.length 0 a.length

/-! ## The OpenMP runtime -/

/-- The OpenMP runtime: the number of threads of the next parallel region. -/
structure Omp where
  nthreads : Int
  deriving DecidableEq

namespace utility

/-- Function `omp_get_max_threads()`. -/
def GetMaxThreads (omp : Omp) : Int := omp.nthreads

/-- Function `omp_set_num_threads(num_threads)`. -/
def SetNumThreads (_omp : Omp) (num_threads : Int) : Omp := { nthreads := num_threads }

end utility

/-! ## The engine -/

/-- The members of `MapSort<Type, NumIntervals>`; a null pointer is an empty buffer. -/
structure MapSort (α : Type) where
  max_elems_ : Nat
  max_threads_ : Int
  tmp_ : List α
  rng_ : List Nat
  piv_ : List α
  pos_ : List Nat
  histo_ : List (List Nat)
  num_threads_ : Int
  pos_bgn_ : List Int
  pos_end_ : List Int
  deriving DecidableEq

namespace MapSort

variable {α : Type}

/-- The constructor: capacities 0, every pointer null; `piv_` and `pos_` are
arrays inside the object, of `K - 1` and `K + 1` entries. -/
def new [Inhabited α] (K : Nat) : MapSort α :=
  { max_elems_ := 0, max_threads_ := 0, tmp_ := [], rng_ := [],
    piv_ := List.replicate (K - 1) default, pos_ := List.replicate (K + 1) 0,
    histo_ := [], num_threads_ := 0, pos_bgn_ := [], pos_end_ := [] }

/-- Method `DeleteAll`. -/
def DeleteAll (e : MapSort α) : MapSort α :=
  { e with tmp_ := [], rng_ := [], histo_ := [], pos_bgn_ := [], pos_end_ := [],
           max_elems_ := 0, max_threads_ := 0 }

/-- Method `Init(max_elems, max_threads)`. -/
def Init [Inhabited α] (K : Nat) (omp : Omp) (e : MapSort α) (max_elems : Nat)
    (max_threads : Int) : Except Fault (MapSort α) :=
  let e := DeleteAll e
  let e := { e with max_elems_ := max_elems }
  let max_threads := if max_threads = -1 then utility.GetMaxThreads omp else max_threads
  if 1 ≤ max_threads then
    .ok { e with
      max_threads_ := max_threads
      tmp_ := List.replicate max_elems default
      rng_ := List.replicate max_elems 0
      histo_ := List.replicate max_threads.toNat (List.replicate K 0)
      pos_bgn_ := List.replicate max_threads.toNat 0
      pos_end_ := List.replicate max_threads.toNat 0 }
  else .error .assertion

/-- One iteration of the loop of `ComputeRanges`. -/
def ComputeRanges.body (num_elems : Nat) (i : Nat) (e : MapSort α) :
    Except Fault (MapSort α) := do
  let b ← load e.pos_bgn_ i
  let t := ((num_elems + 18446744073709551616 - toSize b) % 18446744073709551616)
            / toSize (e.num_threads_ - i)
  let v := toInt (((toSize b + t) % 18446744073709551616 : Nat) : Int)
  let pos_end ← store e.pos_end_ i v
  let pos_bgn ← store e.pos_bgn_ (i + 1) v
  pure { e with pos_end_ := pos_end, pos_bgn_ := pos_bgn }

/-- Method `ComputeRanges(num_elems)`. -/
def ComputeRanges (num_elems : Nat) (e : MapSort α) : Except Fault (MapSort α) := do
  let pos_bgn ← store e.pos_bgn_ 0 0
  let e := { e with pos_bgn_ := pos_bgn }
  let e ← forLoop (ComputeRanges.body num_elems) 0 (e.num_threads_ - 1).toNat e
  let pos_end ← storeI e.pos_end_ (e.num_threads_ - 1) (toInt num_elems)
  pure { e with pos_end_ := pos_end }

/-- Pivot selection, one iteration: `piv_[i] = src[rand() % num_elems]`. -/
def ComputeHistogram.pivot (rand : Nat → Nat) (src : List α) (num_elems : Nat) (i : Nat)
    (e : MapSort α) : Except Fault (MapSort α) :=
  if num_elems = 0 then .error .divisionByZero
  else do
    let x ← load src (rand i % num_elems)
    let piv ← store e.piv_ i x
    pure { e with piv_ := piv }

/-- Local histogram, one iteration of thread `my_id`:
`k = lower_bound(piv_, piv_ + kNumPivots, src[i]) - piv_; rng_[i] = k; ++my_histo[k]`. -/
def ComputeHistogram.count (lt : α → α → Bool) (src : List α) (my_id : Nat) (i : Nat)
    (e : MapSort α) : Except Fault (MapSort α) := do
  let x ← load src i
  let k := toInt (lower_bound lt e.piv_ x)
  let rng ← store e.rng_ i (toSize k)
  let my_histo ← load e.histo_ my_id
  let c ← loadI my_histo k
  let my_histo ← storeI my_histo k (c + 1)
  pure { e with rng_ := rng, histo_ := e.histo_.set my_id my_histo }

/-- Local histogram: the block of the parallel region, run by thread `my_id`. -/
def ComputeHistogram.block (K : Nat) (lt : α → α → Bool) (src : List α) (my_id : Nat)
    (e : MapSort α) : Except Fault (MapSort α) := do
  let my_bgn := toSize (← load e.pos_bgn_ my_id)
  let my_end := toSize (← load e.pos_end_ my_id)
  let histo ← store e.histo_ my_id (List.replicate K 0)
  let e := { e with histo_ := histo }
  forLoop (ComputeHistogram.count lt src my_id) my_bgn (my_end - my_bgn) e

/-- Global histogram, inner loop body:
`t = s + histo_[j][i]; histo_[j][i] = s; s = t`. -/
def ComputeHistogram.inner (i : Nat) (j : Nat) (st : MapSort α × Nat) :
    Except Fault (MapSort α × Nat) := do
  let row ← load st.1.histo_ j
  let c ← load row i
  let t := st.2 + c
  let row ← store row i st.2
  pure ({ st.1 with histo_ := st.1.histo_.set j row }, t)

/-- Global histogram, outer loop body: `pos_[i] = s;` then the inner loop. -/
def ComputeHistogram.outer (i : Nat) (st : MapSort α × Nat) :
    Except Fault (MapSort α × Nat) := do
  let pos ← store st.1.pos_ i st.2
  let e := { st.1 with pos_ := pos }
  forLoop (ComputeHistogram.inner i) 0 e.num_threads_.toNat (e, st.2)

/-- Method `ComputeHistogram(src, num_elems)`. -/
def ComputeHistogram (K : Nat) (lt : α → α → Bool) (stdSort : List α → List α)
    (rand : Nat → Nat) (src : List α) (num_elems : Nat) (e : MapSort α) :
    Except Fault (MapSort α) := do
  let e ← forLoop (ComputeHistogram.pivot rand src num_elems) 0 (K - 1) e
  let e := { e with piv_ := stdSort e.piv_ }
  let e ← forLoop (ComputeHistogram.block K lt src) 0 e.num_threads_.toNat e
  let st ← forLoop ComputeHistogram.outer 0 K (e, 0)
  let pos ← store st.1.pos_ K num_elems
  pure { st.1 with pos_ := pos }

/-- Scatter, one iteration of thread `my_id`:
`k = rng_[i]; tmp_[my_histo[k]++] = src[i]`. -/
def Scatter.move (src : List α) (my_id : Nat) (i : Nat) (e : MapSort α) :
    Except Fault (MapSort α) := do
  let k := toInt (← load e.rng_ i)
  let my_histo ← load e.histo_ my_id
  let c ← loadI my_histo k
  let x ← load src i
  let tmp ← store e.tmp_ c x
  let my_histo ← storeI my_histo k (c + 1)
  pure { e with tmp_ := tmp, histo_ := e.histo_.set my_id my_histo }

/-- Scatter: the block of the parallel region, run by thread `my_id`. -/
def Scatter.block (src : List α) (my_id : Nat) (e : MapSort α) :
    Except Fault (MapSort α) := do
  let my_bgn := toSize (← load e.pos_bgn_ my_id)
  let my_end := toSize (← load e.pos_end_ my_id)
  let _ ← load e.histo_ my_id
  forLoop (Scatter.move src my_id) my_bgn (my_end - my_bgn) e

/-- Method `Scatter(src)`. -/
def Scatter (src : List α) (e : MapSort α) : Except Fault (MapSort α) :=
  forLoop (Scatter.block src) 0 e.num_threads_.toNat e

/-- The scratch index one iteration of `Scatter` writes to: `my_histo[k]` for
`k = rng_[i]`, as read before the increment. -/
def Scatter.target (my_id : Nat) (i : Nat) (e : MapSort α) : Except Fault Nat := do
  let k := toInt (← load e.rng_ i)
  let my_histo ← load e.histo_ my_id
  loadI my_histo k

/-- One iteration of `Scatter` with a record of its write: the pair of the source index
and the scratch index is appended to the record; the engine is that of `Scatter.move`. -/
def Scatter.moveLog (src : List α) (my_id : Nat) (i : Nat)
    (st : MapSort α × List (Nat × Nat)) : Except Fault (MapSort α × List (Nat × Nat)) := do
  let c ← Scatter.target my_id i st.1
  let e ← Scatter.move src my_id i st.1
  pure (e, st.2 ++ [(i, c)])

/-- The block of `Scatter` run by thread `my_id`, with the record of its writes. -/
def Scatter.blockLog (src : List α) (my_id : Nat) (st : MapSort α × List (Nat × Nat)) :
    Except Fault (MapSort α × List (Nat × Nat)) := do
  let my_bgn := toSize (← load st.1.pos_bgn_ my_id)
  let my_end := toSize (← load st.1.pos_end_ my_id)
  let _ ← load st.1.histo_ my_id
  forLoop (Scatter.moveLog src my_id) my_bgn (my_end - my_bgn) st

/-- Method `Scatter(src)` with the record of all its writes, in the order of the run. -/
def Scatter.log (src : List α) (e : MapSort α) :
    Except Fault (MapSort α × List (Nat × Nat)) :=
  forLoop (Scatter.blockLog src) 0 e.num_threads_.toNat (e, [])

/-- Call `std::sort(a + lo, a + hi)`. -/
def sortRange (stdSort : List α → List α) (a : List α) (lo hi : Nat) :
    Except Fault (List α) :=
  if lo ≤ hi ∧ hi ≤ a.length then
    .ok (a.take lo ++ stdSort ((a.drop lo).take (hi - lo)) ++ a.drop hi)
  else .error .outOfBounds

/-- One iteration of `SortIntervals`: `std::sort(tmp_ + pos_[i], tmp_ + pos_[i + 1])`. -/
def SortIntervals.body (stdSort : List α → List α) (i : Nat) (e : MapSort α) :
    Except Fault (MapSort α) := do
  let lo ← load e.pos_ i
  let hi ← load e.pos_ (i + 1)
  let tmp ← sortRange stdSort e.tmp_ lo hi
  pure { e with tmp_ := tmp }

/-- Method `SortIntervals()`. -/
def SortIntervals (K : Nat) (stdSort : List α → List α) (e : MapSort α) :
    Except Fault (MapSort α) :=
  forLoop (SortIntervals.body stdSort) 0 K e

/-- The copy-back loop of `Sort`, one iteration: `src[i] = tmp_[i]`. -/
def sort.copy (e : MapSort α) (i : Nat) (src : List α) : Except Fault (List α) := do
  let x ← load e.tmp_ i
  store src i x

/-- What a call of `Sort` leaves behind: the runtime, the engine, the array. -/
structure Outcome (α : Type) where
  omp : Omp
  engine : MapSort α
  src : List α
  deriving DecidableEq

/-- Method `Sort(src, num_elems, num_threads)` (`Sort` is a reserved word of Lean). -/
def sort (K : Nat) (lt : α → α → Bool) (stdSort : List α → List α) (rand : Nat → Nat)
    (omp : Omp) (e : MapSort α) (src : List α) (num_elems : Nat) (num_threads : Int) :
    Except Fault (Outcome α) :=
  if ¬ num_elems ≤ e.max_elems_ then .error .assertion
  else
    let num_threads := if num_threads = -1 then utility.GetMaxThreads omp else num_threads
    if ¬ (1 ≤ num_threads ∧ num_threads ≤ e.max_threads_) then .error .assertion
    else
      let omp := utility.SetNumThreads omp num_threads
      if ¬ utility.GetMaxThreads omp = num_threads then .error .assertion
      else do
        let e := { e with num_threads_ := num_threads }
        let e ← ComputeRanges num_elems e
        let e ← ComputeHistogram K lt stdSort rand src num_elems e
        let e ← Scatter src e
        let e ← SortIntervals K stdSort e
        let src ← forLoop (sort.copy e) 0 num_elems src
        pure { omp := omp, engine := e, src := src }

end MapSort

/-- The free function `Sort(data, num_elems, num_threads)`, on `MapSort<Type>`
(`NumIntervals = 256`); the result is the runtime and the array. -/
def sort {α : Type} [Inhabited α] (lt : α → α → Bool) (stdSort : List α → List α)
    (rand : Nat → Nat) (omp : Omp) (data : List α) (num_elems : Nat) (num_threads : Int) :
    Except Fault (Omp × List α) := do
  let map_sort : MapSort α := MapSort.new 256
  let map_sort ← MapSort.Init 256 omp map_sort num_elems num_threads
  let r ← MapSort.sort 256 lt stdSort rand omp map_sort data num_elems num_threads
  pure (r.omp, r.src)

/-! ## Contracts and specification functions -/

/-- Strict weak ordering: what the C++ standard requires of `operator<` for
`std::sort` and `std::lower_bound`. -/
structure StrictWeakOrder {α : Type} (lt : α → α → Bool) : Prop where
  irrefl : ∀ a, lt a a = false
  trans : ∀ a b c, lt a b = true → lt b c = true → lt a c = true
  incomp_trans : ∀ a b c, lt a b = false → lt b a = false → lt b c = false →
    lt c b = false → lt a c = false ∧ lt c a = false

/-- Non-decreasing order: no element is less than an earlier one. -/
def Sorted {α : Type} (lt : α → α → Bool) (l : List α) : Prop :=
  l.Pairwise (fun a b => lt b a = false)

/-- The contract of `std::sort`: the result is a permutation of the range, in
non-decreasing order; the order of equivalent elements is not specified. -/
structure SortContract {α : Type} (lt : α → α → Bool) (stdSort : List α → List α) :
    Prop where
  perm : ∀ l, (stdSort l).Perm l
  sorted : ∀ l, Sorted lt (stdSort l)

/-- The buffers of an engine of capacity `(M, T)`: what `Init(M, T)` allocates,
with any contents. -/
structure Shaped {α : Type} (K M : Nat) (T : Int) (e : MapSort α) : Prop where
  max_elems : e.max_elems_ = M
  max_threads : e.max_threads_ = T
  tmp : e.tmp_.length = M
  rng : e.rng_.length = M
  piv : e.piv_.length = K - 1
  pos : e.pos_.length = K + 1
  histo : e.histo_.length = T.toNat
  rows : ∀ row ∈ e.histo_, row.length = K
  bgn : e.pos_bgn_.length = T.toNat
  fin : e.pos_end_.length = T.toNat

/-- The range bounds of `ComputeRanges`, without machine arithmetic: worker `j`
of `t` gets `[bound n t j, bound n t (j + 1))`. -/
def bound (n t : Nat) : Nat → Nat
  | 0 => 0
  | j + 1 => bound n t j + (n - bound n t j) / (t - j)

/-- The pivots sampled by `ComputeHistogram`, before they are sorted. -/
def samplePivots {α : Type} (K : Nat) (rand : Nat → Nat) (src : List α) (n : Nat) : List α :=
  (List.range (K - 1)).filterMap (fun i => src[rand i % n]?)

/-- The elements of `l` whose bucket id is `b`, in their order in `l`. -/
def bucket {α : Type} (lt : α → α → Bool) (piv : List α) (l : List α) (b : Nat) : List α :=
  l.filter (fun x => lower_bound lt piv x == b)

/-- The number of elements among the first `i` of `src` whose bucket id is `b`. -/
def cnt {α : Type} (lt : α → α → Bool) (piv : List α) (src : List α) (b i : Nat) : Nat :=
  (bucket lt piv (src.take i) b).length

/-- Entry `H[j][b]` of a table of rows. -/
def cell (H : List (List Nat)) (j b : Nat) : Nat := (H.getD j []).getD b 0

/-- The number of elements of `l` whose bucket id is below `b`. -/
def below {α : Type} (lt : α → α → Bool) (piv : List α) (l : List α) (b : Nat) : Nat :=
  l.countP (fun x => decide (lower_bound lt piv x < b))

/-- The array a sample sort with buckets `0, ..., K - 1` produces: the sorted
buckets, one after the other. -/
def sortedBuckets {α : Type} (K : Nat) (lt : α → α → Bool) (stdSort : List α → List α)
    (piv : List α) (l : List α) : List α :=
  (List.range K).flatMap (fun b => stdSort (bucket lt piv l b))

/-- The scratch index of source index `i` in a stable partition by bucket: the start of
the bucket of `src[i]` plus the number of earlier elements of the same bucket. -/
def slot {α : Type} (lt : α → α → Bool) (piv : List α) (src : List α) (n i : Nat) : Nat :=
  match src[i]? with
  | some x => below lt piv (src.take n) (lower_bound lt piv x)
      + cnt lt piv src (lower_bound lt piv x) i
  | none => 0

/-- The sum of the entries `H[0][b], ..., H[j - 1][b]` of a table of rows. -/
def colSum (H : List (List Nat)) (b j : Nat) : Nat :=
  ((List.range j).map (fun i => cell H i b)).sum

/-- The worker count a call works with: `-1` stands for `GetMaxThreads()`. -/
def resolved (omp : Omp) (num_threads : Int) : Int :=
  if num_threads = -1 then utility.GetMaxThreads omp else num_threads

/-- The comparison `<` of `int`. -/
def intLt (a b : Int) : Bool := decide (a < b)

/-- A sort of `int` arrays that meets the contract of `std::sort`. -/
def intSort (l : List Int) : List Int := l.insertionSort (fun a b => a ≤ b)

/-- A comparison of records by their key, the first component, only: a strict weak order
whose equivalent elements need not be equal. -/
def keyLt (a b : Nat × Nat) : Bool := decide (a.1 < b.1)

/-! ## `std::sort` of libstdc++

The sort that `g++ -fopenmp` links: `std::sort` of `bits/stl_algo.h` with the heap
functions of `bits/stl_heap.h`, on an array and indices into it. A loop of the library is
a function with a bound on its rounds; a read outside the array, which the library does
not reach when `comp` is a strict weak order, ends the loop. -/

namespace libstdcxx

variable {α : Type}

/-- The comparison `comp(a + i, a + j)`. -/
def comp (lt : α → α → Bool) (a : List α) (i j : Nat) : Bool :=
  match a[i]?, a[j]? with
  | some x, some y => lt x y
  | _, _ => false

/-- Function `std::iter_swap(a + i, a + j)`. -/
def iter_swap (a : List α) (i j : Nat) : List α :=
  match a[i]?, a[j]? with
  | some x, some y => (a.set i y).set j x
  | _, _ => a

/-- Function `std::__lg(n)`, the position of the highest bit of `n`. -/
def lg : Nat → Nat → Nat
  | 0, _ => 0
  | fuel + 1, n => if n < 2 then 0 else lg fuel (n / 2) + 1

/-- Function `std::__move_median_to_first(result, a, b, c, comp)`. -/
def move_median_to_first (lt : α → α → Bool) (arr : List α) (result a b c : Nat) : List α :=
  if comp lt arr a b then
    if comp lt arr b c then iter_swap arr result b
    else if comp lt arr a c then iter_swap arr result c
    else iter_swap arr result a
  else if comp lt arr a c then iter_swap arr result a
  else if comp lt arr b c then iter_swap arr result c
  else iter_swap arr result b

/-- The scan `while (comp(first, pivot)) ++first;`. -/
def unguarded_partition.up (lt : α → α → Bool) (arr : List α) (pivot : Nat) : Nat → Nat → Nat
  | 0, first => first
  | fuel + 1, first =>
    if comp lt arr first pivot then unguarded_partition.up lt arr pivot fuel (first + 1)
    else first

/-- The scan `while (comp(pivot, last)) --last;`. -/
def unguarded_partition.down (lt : α → α → Bool) (arr : List α) (pivot : Nat) : Nat → Nat → Nat
  | 0, last => last
  | fuel + 1, last =>
    if comp lt arr pivot last then unguarded_partition.down lt arr pivot fuel (last - 1)
    else last

/-- Function `std::__unguarded_partition(first, last, pivot, comp)`: the array and the
cut. -/
def unguarded_partition (lt : α → α → Bool) (pivot : Nat) :
    Nat → List α → Nat → Nat → List α × Nat
  | 0, arr, first, _ => (arr, first)
  | fuel + 1, arr, first, last =>
    let first := unguarded_partition.up lt arr pivot arr.length first
    let last := last - 1
    let last := unguarded_partition.down lt arr pivot arr.length last
    if ¬ first < last then (arr, first)
    else unguarded_partition lt pivot fuel (iter_swap arr first last) (first + 1) last

/-- Function `std::__unguarded_partition_pivot(first, last, comp)`. -/
def unguarded_partition_pivot (lt : α → α → Bool) (arr : List α) (first last : Nat) :
    List α × Nat :=
  let mid := first + (last - first) / 2
  let arr := move_median_to_first lt arr first (first + 1) mid (last - 1)
  unguarded_partition lt first arr.length arr (first + 1) last

/-- The loop of `std::__push_heap(first, holeIndex, topIndex, value, comp)`. -/
def push_heap (lt : α → α → Bool) (first topIndex : Nat) (value : α) :
    Nat → List α → Nat → List α
  | 0, arr, holeIndex => arr.set (first + holeIndex) value
  | fuel + 1, arr, holeIndex =>
    let parent := (holeIndex - 1) / 2
    match arr[first + parent]? with
    | some p =>
      if holeIndex > topIndex ∧ lt p value = true then
        push_heap lt first topIndex value fuel (arr.set (first + holeIndex) p) parent
      else arr.set (first + holeIndex) value
    | none => arr.set (first + holeIndex) value

/-- The first loop of `std::__adjust_heap`: the array, the hole and the second child. -/
def adjust_heap.sift (lt : α → α → Bool) (first len : Nat) :
    Nat → List α → Nat → Nat → List α × Nat × Nat
  | 0, arr, holeIndex, secondChild => (arr, holeIndex, secondChild)
  | fuel + 1, arr, holeIndex, secondChild =>
    if secondChild < (len - 1) / 2 then
      let secondChild := 2 * (secondChild + 1)
      let secondChild :=
        if comp lt arr (first + secondChild) (first + (secondChild - 1)) then secondChild - 1
        else secondChild
      match arr[first + secondChild]? with
      | some v => adjust_heap.sift lt first len fuel (arr.set (first + holeIndex) v)
          secondChild secondChild
      | none => (arr, holeIndex, secondChild)
    else (arr, holeIndex, secondChild)

/-- Function `std::__adjust_heap(first, holeIndex, len, value, comp)`. -/
def adjust_heap (lt : α → α → Bool) (arr : List α) (first holeIndex len : Nat) (value : α) :
    List α :=
  let topIndex := holeIndex
  let (arr, holeIndex, secondChild) := adjust_heap.sift lt first len len arr holeIndex holeIndex
  let (arr, holeIndex) :=
    if len % 2 = 0 ∧ secondChild = (len - 2) / 2 then
      let secondChild := 2 * (secondChild + 1)
      match arr[first + (secondChild - 1)]? with
      | some v => (arr.set (first + holeIndex) v, secondChild - 1)
      | none => (arr, holeIndex)
    else (arr, holeIndex)
  push_heap lt first topIndex value len arr holeIndex

/-- The loop of `std::__make_heap(first, last, comp)`, from `parent` down to 0. -/
def make_heap.go (lt : α → α → Bool) (first len : Nat) : Nat → List α → List α
  | 0, arr =>
    match arr[first]? with
    | some value => adjust_heap lt arr first 0 len value
    | none => arr
  | parent + 1, arr =>
    match arr[first + (parent + 1)]? with
    | some value => make_heap.go lt first len parent (adjust_heap lt arr first (parent + 1) len value)
    | none => arr

/-- Function `std::__make_heap(first, last, comp)`. -/
def make_heap (lt : α → α → Bool) (arr : List α) (first last : Nat) : List α :=
  if last - first < 2 then arr
  else make_heap.go lt first (last - first) ((last - first - 2) / 2) arr

/-- Function `std::__pop_heap(first, last, result, comp)`. -/
def pop_heap (lt : α → α → Bool) (arr : List α) (first last result : Nat) : List α :=
  match arr[result]?, arr[first]? with
  | some value, some top => adjust_heap lt (arr.set result top) first 0 (last - first) value
  | _, _ => arr

/-- Function `std::__sort_heap(first, last, comp)`. -/
def sort_heap (lt : α → α → Bool) (first : Nat) : Nat → List α → Nat → List α
  | 0, arr, _ => arr
  | fuel + 1, arr, last =>
    if last - first > 1 then
      sort_heap lt first fuel (pop_heap lt arr first (last - 1) (last - 1)) (last - 1)
    else arr

/-- The call `std::__partial_sort(first, last, last, comp)` of the sort: `__heap_select`
with an empty tail, which is `__make_heap`, then `__sort_heap`. -/
def heap_sort (lt : α → α → Bool) (arr : List α) (first last : Nat) : List α :=
  sort_heap lt first (last - first) (make_heap lt arr first last) last

/-- Function `std::__introsort_loop(first, last, depth_limit, comp)`; the next round of its
loop is the second recursive call. -/
def introsort_loop (lt : α → α → Bool) : Nat → List α → Nat → Nat → List α
  | 0, arr, first, last => if last - first > 16 then heap_sort lt arr first last else arr
  | depth_limit + 1, arr, first, last =>
    if last - first > 16 then
      let p := unguarded_partition_pivot lt arr first last
      let arr := introsort_loop lt depth_limit p.1 p.2 last
      introsort_loop lt depth_limit arr first p.2
    else arr

/-- The loop of `std::__unguarded_linear_insert(last, comp)` for the value `val`. -/
def unguarded_linear_insert.go (lt : α → α → Bool) (val : α) : Nat → List α → Nat → List α
  | 0, arr, last => arr.set last val
  | fuel + 1, arr, last =>
    match arr[last - 1]? with
    | some next =>
      if 0 < last ∧ lt val next = true then
        unguarded_linear_insert.go lt val fuel (arr.set last next) (last - 1)
      else arr.set last val
    | none => arr.set last val

/-- Function `std::__unguarded_linear_insert(last, comp)`. -/
def unguarded_linear_insert (lt : α → α → Bool) (arr : List α) (last : Nat) : List α :=
  match arr[last]? with
  | some val => unguarded_linear_insert.go lt val arr.length arr last
  | none => arr

/-- One round of the loop of `std::__insertion_sort(first, last, comp)`, for `i`. -/
def insertion_sort.step (lt : α → α → Bool) (first : Nat) (arr : List α) (i : Nat) : List α :=
  if comp lt arr i first then
    match arr[i]? with
    | some val => arr.take first ++ val :: (arr.drop first).take (i - first) ++ arr.drop (i + 1)
    | none => arr
  else unguarded_linear_insert lt arr i

/-- Function `std::__insertion_sort(first, last, comp)`. -/
def insertion_sort (lt : α → α → Bool) (arr : List α) (first last : Nat) : List α :=
  if first = last then arr
  else (List.range' (first + 1) (last - (first + 1))).foldl (insertion_sort.step lt first) arr

/-- Function `std::__unguarded_insertion_sort(first, last, comp)`. -/
def unguarded_insertion_sort (lt : α → α → Bool) (arr : List α) (first last : Nat) : List α :=
  (List.range' first (last - first)).foldl (unguarded_linear_insert lt) arr

/-- Function `std::__final_insertion_sort(first, last, comp)`. -/
def final_insertion_sort (lt : α → α → Bool) (arr : List α) (first last : Nat) : List α :=
  if last - first > 16 then
    unguarded_insertion_sort lt (insertion_sort lt arr first (first + 16)) (first + 16) last
  else insertion_sort lt arr first last

/-- Function `std::sort(first, last)` of libstdc++ on the whole array. -/
def sort (lt : α → α → Bool) (arr : List α) : List α :=
  if arr.length = 0 then arr
  else
    final_insertion_sort lt
      (introsort_loop lt (lg arr.length arr.length * 2) arr 0 arr.length) 0 arr.length

end libstdcxx

end map_sort

namespace map_sort

/-! ## Machine integers, memory and loops -/

theorem toInt_of_lt (m : Nat) (h : m < 2147483648) : toInt (m : Int) = (m : Int) := by
  unfold toInt
  omega

theorem toSize_natCast (m : Nat) (h : m < 18446744073709551616) : toSize (m : Int) = m := by
  unfold toSize
  omega

theorem load_of_lt {β : Type} (a : List β) (i : Nat) (h : i < a.length) :
    load a i = .ok a[i] := by
  simp [load, List.getElem?_eq_getElem h]

theorem load_of_getElem? {β : Type} (a : List β) (i : Nat) (v : β) (h : a[i]? = some v) :
    load a i = .ok v := by
  simp [load, h]

theorem load_of_le {β : Type} (a : List β) (i : Nat) (h : a.length ≤ i) :
    load a i = .error .outOfBounds := by
  simp [load, List.getElem?_eq_none h]

theorem store_of_lt {β : Type} (a : List β) (i : Nat) (v : β) (h : i < a.length) :
    store a i v = .ok (a.set i v) := by
  simp [store, h]

theorem loadI_natCast {β : Type} (a : List β) (k : Nat) : loadI a (k : Int) = load a k := by
  simp [loadI]

theorem storeI_natCast {β : Type} (a : List β) (k : Nat) (v : β) :
    storeI a (k : Int) v = store a k v := by
  simp [storeI]

theorem ok_bind {β γ : Type} (a : β) (f : β → Except Fault γ) :
    (Except.ok a >>= f) = f a := rfl

theorem error_bind {β γ : Type} (x : Fault) (f : β → Except Fault γ) :
    ((Except.error x : Except Fault β) >>= f) = Except.error x := rfl

theorem pure_eq_ok {β : Type} (a : β) : (pure a : Except Fault β) = Except.ok a := rfl

theorem forLoop_inv {σ : Type} (body : Nat → σ → Except Fault σ) (P : Nat → σ → Prop) :
    ∀ (cnt lo : Nat) (s : σ), P lo s →
      (∀ i s, lo ≤ i → i < lo + cnt → P i s → ∃ s', body i s = .ok s' ∧ P (i + 1) s') →
      ∃ s', forLoop body lo cnt s = .ok s' ∧ P (lo + cnt) s' := by
  intro cnt
  induction cnt with
  | zero => intro lo s h _; exact ⟨s, rfl, h⟩
  | succ c ih =>
    intro lo s h step
    obtain ⟨s1, h1, p1⟩ := step lo s (Nat.le_refl lo) (by omega) h
    obtain ⟨s2, h2, p2⟩ := ih (lo + 1) s1 p1
      (fun i s hi hlt hp => step i s (by omega) (by omega) hp)
    refine ⟨s2, ?_, ?_⟩
    · simp only [forLoop, h1, h2]
    · have : lo + (c + 1) = lo + 1 + c := by omega
      rw [this]; exact p2

theorem forLoop_fault {σ : Type} (body : Nat → σ → Except Fault σ) (P : Nat → σ → Prop)
    (f : Fault) (m : Nat) :
    ∀ (cnt lo : Nat) (s : σ), P lo s → lo ≤ m → m < lo + cnt →
      (∀ i s, lo ≤ i → i < m → P i s → ∃ s', body i s = .ok s' ∧ P (i + 1) s') →
      (∀ s, P m s → body m s = .error f) →
      forLoop body lo cnt s = .error f := by
  intro cnt
  induction cnt with
  | zero => intro lo s _ h1 h2; omega
  | succ c ih =>
    intro lo s h hlo hm step stop
    by_cases hEq : lo = m
    · subst hEq
      simp only [forLoop, stop s h]
    · obtain ⟨s1, h1, p1⟩ := step lo s (Nat.le_refl lo) (by omega) h
      have := ih (lo + 1) s1 p1 (by omega) (by omega)
        (fun i s hi hlt hp => step i s (by omega) hlt hp) stop
      simp only [forLoop, h1, this]

/-! ## Range bounds -/

theorem bound_le (n t : Nat) : ∀ j, j ≤ t → bound n t j ≤ n := by
  intro j
  induction j with
  | zero => intro _; simp [bound]
  | succ j ih =>
    intro h
    have h1 := ih (by omega)
    have h2 : (n - bound n t j) / (t - j) ≤ n - bound n t j := Nat.div_le_self _ _
    simp only [bound]
    omega

theorem bound_mono_succ (n t j : Nat) : bound n t j ≤ bound n t (j + 1) := by
  simp only [bound]; exact Nat.le_add_right _ _

theorem bound_mono (n t : Nat) {i j : Nat} (h : i ≤ j) : bound n t i ≤ bound n t j := by
  induction j with
  | zero => have : i = 0 := by omega
            subst this; exact Nat.le_refl _
  | succ j ih =>
    by_cases hEq : i = j + 1
    · subst hEq; exact Nat.le_refl _
    · exact Nat.le_trans (ih (by omega)) (bound_mono_succ n t j)

theorem bound_last (n t : Nat) (ht : 0 < t) : bound n t t = n := by
  obtain ⟨j, rfl⟩ : ∃ j, t = j + 1 := ⟨t - 1, by omega⟩
  have h1 := bound_le n (j + 1) j (by omega)
  simp only [bound]
  have : j + 1 - j = 1 := by omega
  rw [this, Nat.div_one]
  omega

end map_sort

namespace map_sort
namespace MapSort

variable {α : Type}

/-! ## `ComputeRanges` -/

theorem ComputeRanges_body_ok (e : MapSort α) (B E : List Int) (n t i : Nat)
    (hn : n < 2147483648) (ht : t < 2147483648)
    (hnt : e.num_threads_ = (t : Int)) (hi : i + 1 < t)
    (hB : B[i]? = some (bound n t i : Int))
    (hlB : i + 1 < B.length) (hlE : i < E.length) :
    ComputeRanges.body n i { e with pos_bgn_ := B, pos_end_ := E } = .ok { e with
      pos_bgn_ := B.set (i + 1) (bound n t (i + 1) : Int)
      pos_end_ := E.set i (bound n t (i + 1) : Int) } := by
  have hb := bound_le n t i (by omega)
  have hb1 := bound_le n t (i + 1) (by omega)
  have h1 : toSize (bound n t i : Int) = bound n t i := toSize_natCast _ (by omega)
  have h2 : toSize ((t : Int) - (i : Int)) = t - i := by
    have : ((t : Int) - (i : Int)) = ((t - i : Nat) : Int) := by omega
    rw [this]; exact toSize_natCast _ (by omega)
  have h3 : (n + 18446744073709551616 - bound n t i) % 18446744073709551616
      = n - bound n t i := by omega
  have h4 : (bound n t i + (n - bound n t i) / (t - i)) = bound n t (i + 1) := by
    simp only [bound]
  have h5 : bound n t (i + 1) % 18446744073709551616 = bound n t (i + 1) :=
    Nat.mod_eq_of_lt (by omega)
  simp only [ComputeRanges.body, load_of_getElem? _ _ _ hB, hnt, h1, h2, h3, h4, h5,
    toInt_of_lt _ (show bound n t (i + 1) < 2147483648 by omega),
    store_of_lt _ _ _ hlE, store_of_lt _ _ _ hlB, bind, Except.bind, pure, Except.pure]

theorem ComputeRanges_ok (e : MapSort α) (n t : Nat) (hn : n < 2147483648) (ht : 1 ≤ t)
    (ht' : t < 2147483648) (hnt : e.num_threads_ = (t : Int))
    (hlB : t ≤ e.pos_bgn_.length) (hlE : t ≤ e.pos_end_.length) :
    ∃ B E, ComputeRanges n e = .ok { e with pos_bgn_ := B, pos_end_ := E } ∧
      B.length = e.pos_bgn_.length ∧ E.length = e.pos_end_.length ∧
      ∀ j, j < t → B[j]? = some (bound n t j : Int) ∧ E[j]? = some (bound n t (j + 1) : Int) := by
  have hcnt : (e.num_threads_ - 1).toNat = t - 1 := by omega
  have h0 : store e.pos_bgn_ 0 (0 : Int) = .ok (e.pos_bgn_.set 0 0) :=
    store_of_lt _ _ _ (by omega)
  obtain ⟨s, hs, B, E, rfl, hB, hE, hBv, hEv⟩ := forLoop_inv (ComputeRanges.body n)
    (fun i s => ∃ B E, s = { e with pos_bgn_ := B, pos_end_ := E } ∧
      B.length = e.pos_bgn_.length ∧ E.length = e.pos_end_.length ∧
      (∀ j, j ≤ i → B[j]? = some (bound n t j : Int)) ∧
      (∀ j, j < i → E[j]? = some (bound n t (j + 1) : Int)))
    (t - 1) 0 { e with pos_bgn_ := e.pos_bgn_.set 0 0 }
    ⟨e.pos_bgn_.set 0 0, e.pos_end_, rfl, by simp, rfl, by
        intro j hj
        have : j = 0 := by omega
        subst this
        rw [List.getElem?_set_self (by omega)]
        simp [bound], by intro j hj; omega⟩
    (by
      rintro i s - hi ⟨B, E, rfl, hB, hE, hBv, hEv⟩
      refine ⟨_, ComputeRanges_body_ok e B E n t i hn ht' hnt (by omega)
        (hBv i (Nat.le_refl i)) (by omega) (by omega), _, _, rfl, by simp [hB],
        by simp [hE], ?_, ?_⟩
      · intro j hj
        by_cases hEq : j = i + 1
        · subst hEq
          exact List.getElem?_set_self (by omega)
        · simp only [List.getElem?_set_ne (Ne.symm hEq)]
          exact hBv j (by omega)
      · intro j hj
        by_cases hEq : j = i
        · subst hEq
          exact List.getElem?_set_self (by omega)
        · simp only [List.getElem?_set_ne (Ne.symm hEq)]
          exact hEv j (by omega))
  have hidx : ((t : Int) - 1) = ((t - 1 : Nat) : Int) := by omega
  refine ⟨B, E.set (t - 1) (n : Int), ?_, hB, by simp [hE], ?_⟩
  · simp only [ComputeRanges, h0, hcnt, bind, Except.bind, hs, pure, Except.pure]
    simp only [hnt, hidx, storeI_natCast, store_of_lt E (t - 1) _ (by omega),
      toInt_of_lt n hn]
  · intro j hj
    refine ⟨hBv j (by omega), ?_⟩
    by_cases hEq : j = t - 1
    · subst hEq
      rw [List.getElem?_set_self (by omega)]
      have : t - 1 + 1 = t := by omega
      rw [this, bound_last n t ht]
    · simp only [List.getElem?_set_ne (Ne.symm hEq)]
      exact hEv j (by omega)

end MapSort
end map_sort

namespace map_sort

variable {α : Type}

/-! ## Strict weak orders and `std::lower_bound` -/

theorem StrictWeakOrder.cotrans {lt : α → α → Bool} (h : StrictWeakOrder lt) (a b c : α)
    (hac : lt a c = true) : lt a b = true ∨ lt b c = true := by
  by_contra hcon
  simp only [not_or, Bool.not_eq_true] at hcon
  obtain ⟨hab, hbc⟩ := hcon
  have hba : lt b a = false := by
    by_contra hx
    simp only [Bool.not_eq_false] at hx
    have := h.trans b a c hx hac
    simp [hbc] at this
  have hcb : lt c b = false := by
    by_contra hx
    simp only [Bool.not_eq_false] at hx
    have := h.trans a c b hac hx
    simp [hab] at this
  have := (h.incomp_trans a b c hab hba hbc hcb).1
  simp [hac] at this

theorem Sorted.partitioned {lt : α → α → Bool} (h : StrictWeakOrder lt) {a : List α}
    (hs : Sorted lt a) (x : α) (i j : Nat) (hij : i ≤ j) (u v : α) (hi : a[i]? = some u)
    (hj : a[j]? = some v) (hv : lt v x = true) : lt u x = true := by
  by_cases hEq : i = j
  · subst hEq
    rw [hi] at hj
    cases hj
    exact hv
  · have hlt : i < j := by omega
    obtain ⟨hjl, rfl⟩ := List.getElem?_eq_some_iff.mp hj
    obtain ⟨hil, rfl⟩ := List.getElem?_eq_some_iff.mp hi
    have hsorted := List.pairwise_iff_getElem.mp hs i j hil hjl hlt
    rcases h.cotrans _ a[i] _ hv with h1 | h1
    · simp [hsorted] at h1
    · exact h1

theorem lower_bound_go_spec (lt : α → α → Bool) (a : List α) (x : α)
    (hpart : ∀ (i j : Nat) (u v : α), i ≤ j → a[i]? = some u → a[j]? = some v →
      lt v x = true → lt u x = true) :
    ∀ (fuel first len : Nat), len ≤ fuel → first + len ≤ a.length →
      (∀ (i : Nat) (v : α), i < first → a[i]? = some v → lt v x = true) →
      (∀ (i : Nat) (v : α), first + len ≤ i → a[i]? = some v → lt v x = false) →
      first ≤ lower_bound.go lt a x fuel first len ∧
      lower_bound.go lt a x fuel first len ≤ first + len ∧
      (∀ (i : Nat) (v : α), i < lower_bound.go lt a x fuel first len → a[i]? = some v →
        lt v x = true) ∧
      (∀ (i : Nat) (v : α), lower_bound.go lt a x fuel first len ≤ i → a[i]? = some v →
        lt v x = false) := by
  intro fuel
  induction fuel with
  | zero =>
    intro first len hl hb hlo hhi
    have : len = 0 := by omega
    subst this
    exact ⟨Nat.le_refl _, Nat.le_refl _, hlo, hhi⟩
  | succ fuel ih =>
    intro first len hl hb hlo hhi
    by_cases h0 : len = 0
    · subst h0
      simp only [lower_bound.go, if_true]
      exact ⟨Nat.le_refl _, Nat.le_refl _, hlo, hhi⟩
    · have hmid : first + len / 2 < a.length := by
        have : len / 2 < len := Nat.div_lt_self (by omega) (by omega)
        omega
      have hget : a[first + len / 2]? = some a[first + len / 2] :=
        List.getElem?_eq_getElem hmid
      have hhalf : len / 2 < len := Nat.div_lt_self (by omega) (by omega)
      by_cases hc : lt a[first + len / 2] x = true
      · have hgo : lower_bound.go lt a x (fuel + 1) first len
            = lower_bound.go lt a x fuel (first + len / 2 + 1) (len - len / 2 - 1) := by
          simp only [lower_bound.go, h0, if_false, hget, hc, if_true]
        rw [hgo]
        obtain ⟨r1, r2, r3, r4⟩ := ih (first + len / 2 + 1) (len - len / 2 - 1) (by omega)
          (by omega)
          (fun i v hi hv => hpart i (first + len / 2) v _ (by omega) hv hget hc)
          (fun i v hi hv => hhi i v (by omega) hv)
        exact ⟨by omega, by omega, r3, r4⟩
      · have hgo : lower_bound.go lt a x (fuel + 1) first len
            = lower_bound.go lt a x fuel first (len / 2) := by
          simp only [lower_bound.go, h0, if_false, hget, hc]
          simp
        rw [hgo]
        obtain ⟨r1, r2, r3, r4⟩ := ih first (len / 2) (by omega) (by omega) hlo
          (fun i v hi hv => by
            by_contra hx
            simp only [Bool.not_eq_false] at hx
            exact hc (hpart (first + len / 2) i _ v (by omega) hget hv hx))
        exact ⟨r1, by omega, r3, r4⟩

theorem lower_bound_go_le (lt : α → α → Bool) (a : List α) (x : α) :
    ∀ (fuel first len : Nat), lower_bound.go lt a x fuel first len ≤ first + len := by
  intro fuel
  induction fuel with
  | zero => intro first len; simp [lower_bound.go]
  | succ fuel ih =>
    intro first len
    simp only [lower_bound.go]
    split
    · omega
    · split
      · omega
      · have hhalf : len / 2 ≤ len := Nat.div_le_self _ _
        split
        · have := ih (first + len / 2 + 1) (len - len / 2 - 1)
          have : len / 2 < len := Nat.div_lt_self (by omega) (by omega)
          omega
        · have := ih first (len / 2)
          omega

/-- A bucket id is at most the number of pivots. -/
theorem lower_bound_le (lt : α → α → Bool) (a : List α) (x : α) :
    lower_bound lt a x ≤ a.length := by
  have := lower_bound_go_le lt a x a.length 0 a.length
  simpa [lower_bound] using this

/-- On sorted pivots, every pivot before the bucket id of `x` is less than `x`. -/
theorem lower_bound_before {lt : α → α → Bool} (h : StrictWeakOrder lt) {a : List α}
    (hs : Sorted lt a) (x : α) (i : Nat) (v : α) (hi : i < lower_bound lt a x)
    (hv : a[i]? = some v) : lt v x = true :=
  (lower_bound_go_spec lt a x (fun i j u v hij hu hv hlt => hs.partitioned h x i j hij u v hu hv hlt)
    a.length 0 a.length (Nat.le_refl _) (by omega) (fun i v hi _ => by omega)
    (fun i v hi hv => by
      have := (List.getElem?_eq_some_iff.mp hv).1
      omega)).2.2.1 i v hi hv

/-- On sorted pivots, no pivot from the bucket id of `x` on is less than `x`. -/
theorem lower_bound_from {lt : α → α → Bool} (h : StrictWeakOrder lt) {a : List α}
    (hs : Sorted lt a) (x : α) (i : Nat) (v : α) (hi : lower_bound lt a x ≤ i)
    (hv : a[i]? = some v) : lt v x = false :=
  (lower_bound_go_spec lt a x (fun i j u v hij hu hv hlt => hs.partitioned h x i j hij u v hu hv hlt)
    a.length 0 a.length (Nat.le_refl _) (by omega) (fun i v hi _ => by omega)
    (fun i v hi hv => by
      have := (List.getElem?_eq_some_iff.mp hv).1
      omega)).2.2.2 i v hi hv

/-- Elements of a lower bucket are not greater than elements of a higher bucket. -/
theorem bucket_order {lt : α → α → Bool} (h : StrictWeakOrder lt) {a : List α}
    (hs : Sorted lt a) (x y : α) (hxy : lower_bound lt a x < lower_bound lt a y) :
    lt y x = false := by
  have hlen := lower_bound_le lt a y
  have hk : lower_bound lt a x < a.length := by omega
  have h1 := lower_bound_from h hs x _ _ (Nat.le_refl _) (List.getElem?_eq_getElem hk)
  have h2 := lower_bound_before h hs y _ _ hxy (List.getElem?_eq_getElem hk)
  by_contra hx
  simp only [Bool.not_eq_false] at hx
  have := h.trans _ _ _ h2 hx
  simp [h1] at this

end map_sort

namespace map_sort

variable {α : Type}

/-! ## Counting bucket ids -/

theorem bucket_take_succ (lt : α → α → Bool) (piv src : List α) (b i : Nat)
    (hi : i < src.length) :
    bucket lt piv (src.take (i + 1)) b
      = bucket lt piv (src.take i) b
        ++ (if lower_bound lt piv src[i] = b then [src[i]] else []) := by
  simp only [bucket, List.take_succ, List.getElem?_eq_getElem hi, Option.toList,
    List.filter_append]
  by_cases h : lower_bound lt piv src[i] = b
  · simp [h, List.filter_cons]
  · simp [h, List.filter_cons]

theorem cnt_zero (lt : α → α → Bool) (piv src : List α) (b : Nat) :
    cnt lt piv src b 0 = 0 := by
  simp [cnt, bucket]

theorem cnt_succ (lt : α → α → Bool) (piv src : List α) (b i : Nat) (hi : i < src.length) :
    cnt lt piv src b (i + 1)
      = cnt lt piv src b i + (if lower_bound lt piv src[i] = b then 1 else 0) := by
  simp only [cnt, bucket_take_succ lt piv src b i hi, List.length_append]
  by_cases h : lower_bound lt piv src[i] = b <;> simp [h]

theorem cnt_mono (lt : α → α → Bool) (piv src : List α) (b : Nat) {i j : Nat} (h : i ≤ j) :
    cnt lt piv src b i ≤ cnt lt piv src b j := by
  have hsub : (src.take i).Sublist (src.take j) := by
    have : src.take i = (src.take j).take i := by
      rw [List.take_take, Nat.min_eq_left h]
    rw [this]
    exact List.take_sublist _ _
  exact List.Sublist.length_le (List.Sublist.filter _ hsub)

theorem below_zero (lt : α → α → Bool) (piv l : List α) : below lt piv l 0 = 0 := by
  simp [below]

theorem below_succ (lt : α → α → Bool) (piv l : List α) (b : Nat) :
    below lt piv l (b + 1) = below lt piv l b + (bucket lt piv l b).length := by
  induction l with
  | nil => simp [below, bucket]
  | cons x l ih =>
    simp only [below, bucket] at ih ⊢
    simp only [List.countP_cons, List.filter_cons, ih]
    by_cases h1 : lower_bound lt piv x < b
    · have h2 : lower_bound lt piv x < b + 1 := by omega
      have h3 : ¬ lower_bound lt piv x = b := by omega
      simp [h1, h2, h3]
      omega
    · by_cases h3 : lower_bound lt piv x = b
      · have h2 : lower_bound lt piv x < b + 1 := by omega
        simp [h1, h2, h3]
        omega
      · have h2 : ¬ lower_bound lt piv x < b + 1 := by omega
        simp [h1, h2, h3]

theorem below_mono (lt : α → α → Bool) (piv l : List α) {a b : Nat} (h : a ≤ b) :
    below lt piv l a ≤ below lt piv l b := by
  induction b with
  | zero => have : a = 0 := by omega
            subst this; exact Nat.le_refl _
  | succ b ih =>
    by_cases hEq : a = b + 1
    · subst hEq; exact Nat.le_refl _
    · have := ih (by omega)
      rw [below_succ]
      omega

theorem below_all (lt : α → α → Bool) (piv l : List α) (K : Nat) (hK : piv.length < K) :
    below lt piv l K = l.length := by
  simp only [below]
  rw [List.countP_eq_length]
  intro x _
  have := lower_bound_le lt piv x
  simp only [decide_eq_true_eq]
  omega

/-! ## Tables of rows -/

theorem cell_set (H : List (List Nat)) (j : Nat) (row : List Nat) (j' b : Nat)
    (hj : j < H.length) :
    cell (H.set j row) j' b = if j' = j then row.getD b 0 else cell H j' b := by
  by_cases h : j' = j
  · subst h
    simp [cell, List.getD_eq_getElem?_getD, List.getElem?_set_self hj]
  · simp [cell, List.getD_eq_getElem?_getD, List.getElem?_set_ne (Ne.symm h), h]

theorem getD_set (row : List Nat) (k v b : Nat) (hk : k < row.length) :
    (row.set k v).getD b 0 = if b = k then v else row.getD b 0 := by
  by_cases h : b = k
  · subst h
    simp [List.getD_eq_getElem?_getD, List.getElem?_set_self hk]
  · simp [List.getD_eq_getElem?_getD, List.getElem?_set_ne (Ne.symm h), h]

theorem getElem_eq_cell (H : List (List Nat)) (j b : Nat) (hj : j < H.length)
    (hb : b < H[j].length) : H[j][b] = cell H j b := by
  simp [cell, List.getD_eq_getElem?_getD, List.getElem?_eq_getElem hj,
    List.getElem?_eq_getElem hb]

theorem rows_set (H : List (List Nat)) (K j : Nat) (row : List Nat)
    (hrows : ∀ r ∈ H, r.length = K) (hrow : row.length = K) :
    ∀ r ∈ H.set j row, r.length = K := by
  intro r hr
  rcases List.mem_or_eq_of_mem_set hr with h | h
  · exact hrows r h
  · rw [h]; exact hrow

end map_sort

namespace map_sort

variable {α : Type}

theorem load_getD {β : Type} (a : List β) (i : Nat) (d : β) (h : i < a.length) :
    load a i = .ok (a.getD i d) := by
  simp [load, List.getD_eq_getElem?_getD, List.getElem?_eq_getElem h]

/-! ## Pivot sampling -/

theorem filterMap_range_spec (f : Nat → Option α) :
    ∀ m, (∀ i, i < m → ∃ x, f i = some x) →
      ((List.range m).filterMap f).length = m ∧
      ∀ i, i < m → ((List.range m).filterMap f)[i]? = f i := by
  intro m
  induction m with
  | zero => intro _; exact ⟨by simp, by intro i hi; omega⟩
  | succ m ih =>
    intro h
    obtain ⟨hl, hv⟩ := ih (fun i hi => h i (by omega))
    obtain ⟨x, hx⟩ := h m (by omega)
    have hsplit : (List.range (m + 1)).filterMap f = (List.range m).filterMap f ++ [x] := by
      simp [List.range_succ, List.filterMap_append, hx]
    rw [hsplit]
    refine ⟨by simp [hl], ?_⟩
    intro i hi
    by_cases hEq : i = m
    · subst hEq
      rw [List.getElem?_append_right (by omega), hl, hx]
      simp
    · rw [List.getElem?_append_left (by omega)]
      exact hv i (by omega)

theorem samplePivots_spec (K : Nat) (rand : Nat → Nat) (src : List α) (n : Nat)
    (hn : 1 ≤ n) (hsrc : n ≤ src.length) :
    (samplePivots K rand src n).length = K - 1 ∧
    ∀ i, i < K - 1 → (samplePivots K rand src n)[i]? = src[rand i % n]? := by
  apply filterMap_range_spec
  intro i _
  have : rand i % n < src.length := by
    have := Nat.mod_lt (rand i) (show 0 < n by omega)
    omega
  exact ⟨src[rand i % n], List.getElem?_eq_getElem this⟩

namespace MapSort

theorem pivots_ok (K : Nat) (rand : Nat → Nat) (src : List α) (n : Nat) (e : MapSort α)
    (hn : 1 ≤ n) (hsrc : n ≤ src.length) (hpiv : e.piv_.length = K - 1) :
    forLoop (ComputeHistogram.pivot rand src n) 0 (K - 1) e
      = .ok { e with piv_ := samplePivots K rand src n } := by
  obtain ⟨hl, hv⟩ := samplePivots_spec K rand src n hn hsrc
  obtain ⟨s, hs, P, rfl, hP, hPv⟩ := forLoop_inv (ComputeHistogram.pivot rand src n)
    (fun i s => ∃ P, s = { e with piv_ := P } ∧ P.length = K - 1 ∧
      ∀ j, j < i → P[j]? = src[rand j % n]?)
    (K - 1) 0 e ⟨e.piv_, rfl, hpiv, by intro j hj; omega⟩
    (by
      rintro i s - hi ⟨P, rfl, hP, hPv⟩
      have hr : rand i % n < src.length := by
        have := Nat.mod_lt (rand i) (show 0 < n by omega)
        omega
      have hn0 : ¬ n = 0 := by omega
      refine ⟨{ e with piv_ := P.set i src[rand i % n] }, ?_, _, rfl, by simp [hP], ?_⟩
      · simp only [ComputeHistogram.pivot]
        rw [if_neg hn0, load_of_lt src _ hr, ok_bind, store_of_lt P i _ (by omega), ok_bind,
          pure_eq_ok]
      · intro j hj
        by_cases hEq : j = i
        · subst hEq
          rw [List.getElem?_set_self (by omega), List.getElem?_eq_getElem hr]
        · rw [List.getElem?_set_ne (Ne.symm hEq)]
          exact hPv j (by omega))
  rw [hs]
  have : P = samplePivots K rand src n := by
    apply List.ext_getElem?
    intro i
    by_cases hi : i < K - 1
    · rw [hPv i (by omega), hv i hi]
    · rw [List.getElem?_eq_none (by omega), List.getElem?_eq_none (by omega)]
  rw [this]

/-! ## The local histograms -/

/-! ## The local histograms -/


theorem count_ok (K : Nat) (lt : α → α → Bool) (src : List α) (e : MapSort α)
    (R : List Nat) (H : List (List Nat)) (j i : Nat) (x : α)
    (hx : src[i]? = some x) (hR : i < R.length) (hj : j < H.length)
    (hrows : ∀ r ∈ H, r.length = K) (hK : e.piv_.length < K) (hK31 : K ≤ 2147483648) :
    ComputeHistogram.count lt src j i { e with rng_ := R, histo_ := H }
      = .ok { e with
          rng_ := R.set i (lower_bound lt e.piv_ x)
          histo_ := H.set j ((H.getD j []).set (lower_bound lt e.piv_ x)
            (cell H j (lower_bound lt e.piv_ x) + 1)) } := by
  have hk := lower_bound_le lt e.piv_ x
  generalize hkk : lower_bound lt e.piv_ x = k at hk ⊢
  have hrow : (H.getD j []).length = K := by
    apply hrows
    rw [List.getD_eq_getElem _ _ hj]
    exact List.getElem_mem hj
  have hkK : k < (H.getD j []).length := by omega
  have hc : load (H.getD j []) k = .ok (cell H j k) := by
    rw [load_getD (H.getD j []) k 0 hkK]
    simp only [cell]
  have h1 : toInt (k : Int) = (k : Int) := toInt_of_lt _ (by omega)
  have h2 : toSize (k : Int) = k := toSize_natCast _ (by omega)
  have h3 : store R i k = .ok (R.set i k) := store_of_lt R i _ hR
  have h4 : store (H.getD j []) k (cell H j k + 1)
      = .ok ((H.getD j []).set k (cell H j k + 1)) := store_of_lt _ _ _ hkK
  have h5 := load_getD H j [] hj
  simp only [ComputeHistogram.count]
  rw [load_of_getElem? _ _ _ hx]
  simp only [ok_bind]
  rw [hkk]
  simp only [h1]
  simp only [h2]
  rw [h3]
  simp only [ok_bind]
  rw [h5]
  simp only [ok_bind]
  rw [loadI_natCast, hc]
  simp only [ok_bind]
  rw [storeI_natCast, h4]
  simp only [ok_bind, pure_eq_ok]

end MapSort
end map_sort

namespace map_sort

variable {α : Type}

namespace MapSort

theorem hist_block_ok (K : Nat) (lt : α → α → Bool) (src : List α) (e : MapSort α)
    (R : List Nat) (H : List (List Nat)) (j lo hi : Nat)
    (hlo : e.pos_bgn_[j]? = some (lo : Int)) (hhi : e.pos_end_[j]? = some (hi : Int))
    (hle : lo ≤ hi) (hsrc : hi ≤ src.length) (hR : hi ≤ R.length) (h64 : hi < 2147483648)
    (hj : j < H.length) (hrows : ∀ r ∈ H, r.length = K) (hK : e.piv_.length < K)
    (hK31 : K ≤ 2147483648) :
    ∃ R' H', ComputeHistogram.block K lt src j { e with rng_ := R, histo_ := H }
        = .ok { e with rng_ := R', histo_ := H' } ∧
      R'.length = R.length ∧ H'.length = H.length ∧ (∀ r ∈ H', r.length = K) ∧
      (∀ i : Nat, (i < lo ∨ hi ≤ i) → R'[i]? = R[i]?) ∧
      (∀ (i : Nat) (x : α), lo ≤ i → i < hi → src[i]? = some x →
        R'[i]? = some (lower_bound lt e.piv_ x)) ∧
      (∀ j' b : Nat, j' ≠ j → cell H' j' b = cell H j' b) ∧
      (∀ b : Nat, b < K → cell H' j b + cnt lt e.piv_ src b lo = cnt lt e.piv_ src b hi) := by
  obtain ⟨s, hs, R', H', rfl, hR', hH', hrows', hout, hin, hother, hrow⟩ :=
    forLoop_inv (ComputeHistogram.count lt src j)
    (fun i s => ∃ R' H', s = { e with rng_ := R', histo_ := H' } ∧
      R'.length = R.length ∧ H'.length = H.length ∧ (∀ r ∈ H', r.length = K) ∧
      (∀ i' : Nat, (i' < lo ∨ i ≤ i') → R'[i']? = R[i']?) ∧
      (∀ (i' : Nat) (x : α), lo ≤ i' → i' < i → src[i']? = some x →
        R'[i']? = some (lower_bound lt e.piv_ x)) ∧
      (∀ j' b : Nat, j' ≠ j → cell H' j' b = cell H j' b) ∧
      (∀ b : Nat, b < K → cell H' j b + cnt lt e.piv_ src b lo = cnt lt e.piv_ src b i))
    (hi - lo) lo { e with rng_ := R, histo_ := H.set j (List.replicate K 0) }
    ⟨R, H.set j (List.replicate K 0), rfl, rfl, by simp,
      rows_set H K j _ hrows (by simp), fun _ _ => rfl, by intro i' x h1 h2; omega,
      by intro j' b hne; rw [cell_set H j _ j' b hj, if_neg hne],
      by
        intro b hb
        rw [cell_set H j _ j b hj, if_pos rfl]
        simp [List.getD_eq_getElem?_getD, hb]⟩
    (by
      rintro i s hi1 hi2 ⟨R', H', rfl, hR', hH', hrows', hout, hin, hother, hrow⟩
      have hil : i < src.length := by omega
      have hx : src[i]? = some src[i] := List.getElem?_eq_getElem hil
      have hk := lower_bound_le lt e.piv_ src[i]
      have hrowl : (H'.getD j []).length = K := by
        apply hrows'
        rw [List.getD_eq_getElem _ _ (by omega)]
        exact List.getElem_mem _
      refine ⟨_, count_ok K lt src e R' H' j i src[i] hx (by omega) (by omega) hrows' hK hK31,
        _, _, rfl, by simp [hR'], by simp [hH'], ?_, ?_, ?_, ?_, ?_⟩
      · exact rows_set H' K j _ hrows' (by rw [List.length_set]; exact hrowl)
      · intro i' h
        rw [List.getElem?_set_ne (by omega)]
        exact hout i' (by omega)
      · intro i' x h1 h2 hx'
        by_cases hEq : i' = i
        · subst hEq
          rw [hx] at hx'
          cases hx'
          rw [List.getElem?_set_self (by omega)]
        · rw [List.getElem?_set_ne (Ne.symm hEq)]
          exact hin i' x h1 (by omega) hx'
      · intro j' b hne
        rw [cell_set H' j _ j' b (by omega), if_neg hne]
        exact hother j' b hne
      · intro b hb
        rw [cell_set H' j _ j b (by omega), if_pos rfl, getD_set _ _ _ _ (by omega),
          cnt_succ lt e.piv_ src b i hil]
        have := hrow b hb
        by_cases hEq : b = lower_bound lt e.piv_ src[i]
        · subst hEq
          simp only [if_true]
          have : cell H' j (lower_bound lt e.piv_ src[i])
              = (H'.getD j []).getD (lower_bound lt e.piv_ src[i]) 0 := rfl
          omega
        · rw [if_neg hEq, if_neg (Ne.symm hEq)]
          have : cell H' j b = (H'.getD j []).getD b 0 := rfl
          omega)
  have hlohi : lo + (hi - lo) = hi := by omega
  rw [hlohi] at hout hin hrow
  refine ⟨R', H', ?_, hR', hH', hrows', hout, hin, hother, hrow⟩
  simp only [ComputeHistogram.block]
  rw [load_of_getElem? _ _ _ hlo]
  simp only [ok_bind]
  rw [load_of_getElem? _ _ _ hhi]
  simp only [ok_bind]
  rw [store_of_lt H j _ hj]
  simp only [ok_bind]
  rw [toSize_natCast lo (by omega), toSize_natCast hi (by omega), hs]

theorem hist_local_ok (K : Nat) (lt : α → α → Bool) (src : List α) (e : MapSort α)
    (R : List Nat) (H : List (List Nat)) (n t : Nat) (ht : 1 ≤ t)
    (hB : ∀ j, j < t → e.pos_bgn_[j]? = some (bound n t j : Int) ∧
      e.pos_end_[j]? = some (bound n t (j + 1) : Int))
    (hsrc : n ≤ src.length) (hR : n ≤ R.length) (hn : n < 2147483648)
    (hH : t ≤ H.length) (hrows : ∀ r ∈ H, r.length = K) (hK : e.piv_.length < K)
    (hK31 : K ≤ 2147483648) :
    ∃ R' H', forLoop (ComputeHistogram.block K lt src) 0 t { e with rng_ := R, histo_ := H }
        = .ok { e with rng_ := R', histo_ := H' } ∧
      R'.length = R.length ∧ H'.length = H.length ∧ (∀ r ∈ H', r.length = K) ∧
      (∀ (i : Nat) (x : α), i < n → src[i]? = some x →
        R'[i]? = some (lower_bound lt e.piv_ x)) ∧
      (∀ j b : Nat, j < t → b < K →
        cell H' j b + cnt lt e.piv_ src b (bound n t j)
          = cnt lt e.piv_ src b (bound n t (j + 1))) := by
  obtain ⟨s, hs, R', H', rfl, hR', hH', hrows', hin, hcells⟩ :=
    forLoop_inv (ComputeHistogram.block K lt src)
    (fun j s => ∃ R' H', s = { e with rng_ := R', histo_ := H' } ∧
      R'.length = R.length ∧ H'.length = H.length ∧ (∀ r ∈ H', r.length = K) ∧
      (∀ (i : Nat) (x : α), i < bound n t j → src[i]? = some x →
        R'[i]? = some (lower_bound lt e.piv_ x)) ∧
      (∀ j' b : Nat, j' < j → b < K →
        cell H' j' b + cnt lt e.piv_ src b (bound n t j')
          = cnt lt e.piv_ src b (bound n t (j' + 1))))
    t 0 { e with rng_ := R, histo_ := H }
    ⟨R, H, rfl, rfl, rfl, hrows, by intro i x h; simp [bound] at h, by intro j' b h; omega⟩
    (by
      rintro j s - hj ⟨R', H', rfl, hR', hH', hrows', hin, hcells⟩
      have hb1 := bound_le n t (j + 1) (by omega)
      obtain ⟨R2, H2, h2, hR2, hH2, hrows2, hout2, hin2, hother2, hrow2⟩ :=
        hist_block_ok K lt src e R' H' j (bound n t j) (bound n t (j + 1))
          (hB j (by omega)).1 (hB j (by omega)).2 (bound_mono_succ n t j) (by omega)
          (by omega) (by omega) (by omega) hrows' hK hK31
      refine ⟨_, h2, R2, H2, rfl, by omega, by omega, hrows2, ?_, ?_⟩
      · intro i x hi hx
        by_cases hlt : i < bound n t j
        · rw [hout2 i (Or.inl hlt)]
          exact hin i x hlt hx
        · exact hin2 i x (by omega) hi hx
      · intro j' b hj' hb
        by_cases hEq : j' = j
        · subst hEq
          exact hrow2 b hb
        · rw [hother2 j' b hEq]
          exact hcells j' b (by omega) hb)
  simp only [Nat.zero_add] at hs hin hcells
  rw [bound_last n t ht] at hin
  exact ⟨R', H', hs, hR', hH', hrows', hin, hcells⟩

end MapSort
end map_sort

namespace map_sort

variable {α : Type}

namespace MapSort

/-! ## The global histogram -/

theorem inner_ok (e : MapSort α) (Pos : List Nat) (H : List (List Nat)) (K b j s : Nat)
    (hj : j < H.length) (hrows : ∀ r ∈ H, r.length = K) (hb : b < K) :
    ComputeHistogram.inner b j ({ e with pos_ := Pos, histo_ := H }, s)
      = .ok ({ e with pos_ := Pos, histo_ := H.set j ((H.getD j []).set b s) },
          s + cell H j b) := by
  have hrow : (H.getD j []).length = K := by
    apply hrows
    rw [List.getD_eq_getElem _ _ hj]
    exact List.getElem_mem hj
  have hc : load (H.getD j []) b = .ok (cell H j b) := by
    rw [load_getD (H.getD j []) b 0 (by omega)]
    simp only [cell]
  simp only [ComputeHistogram.inner]
  rw [load_getD H j [] hj]
  simp only [ok_bind]
  rw [hc]
  simp only [ok_bind]
  rw [store_of_lt _ _ _ (by omega)]
  simp only [ok_bind, pure_eq_ok]

theorem inner_loop_ok (e : MapSort α) (Pos : List Nat) (H : List (List Nat))
    (K b t s0 : Nat) (g : Nat → Nat) (hg0 : g 0 = 0)
    (hg : ∀ j, j < t → cell H j b + g j = g (j + 1))
    (hH : t ≤ H.length) (hrows : ∀ r ∈ H, r.length = K) (hb : b < K) :
    ∃ H', forLoop (ComputeHistogram.inner b) 0 t ({ e with pos_ := Pos, histo_ := H }, s0)
        = .ok ({ e with pos_ := Pos, histo_ := H' }, s0 + g t) ∧
      H'.length = H.length ∧ (∀ r ∈ H', r.length = K) ∧
      (∀ j b' : Nat, b' ≠ b → cell H' j b' = cell H j b') ∧
      (∀ j : Nat, j < t → cell H' j b = s0 + g j) := by
  obtain ⟨st, hs, H', s, rfl, hH', hrows', hs', hother, hdone, htodo⟩ :=
    forLoop_inv (ComputeHistogram.inner (α := α) b)
    (fun j st => ∃ H' s, st = ({ e with pos_ := Pos, histo_ := H' }, s) ∧
      H'.length = H.length ∧ (∀ r ∈ H', r.length = K) ∧ s = s0 + g j ∧
      (∀ j' b' : Nat, b' ≠ b → cell H' j' b' = cell H j' b') ∧
      (∀ j' : Nat, j' < j → cell H' j' b = s0 + g j') ∧
      (∀ j' : Nat, j ≤ j' → cell H' j' b = cell H j' b))
    t 0 ({ e with pos_ := Pos, histo_ := H }, s0)
    ⟨H, s0, rfl, rfl, hrows, by omega, fun _ _ _ => rfl, by intro j' h; omega,
      fun _ _ => rfl⟩
    (by
      rintro j st - hj ⟨H', s, rfl, hH', hrows', hs', hother, hdone, htodo⟩
      have hrowl : (H'.getD j []).length = K := by
        apply hrows'
        rw [List.getD_eq_getElem _ _ (by omega)]
        exact List.getElem_mem _
      refine ⟨_, inner_ok e Pos H' K b j s (by omega) hrows' hb, _, _, rfl, by simp [hH'],
        rows_set H' K j _ hrows' (by rw [List.length_set]; exact hrowl), ?_, ?_, ?_, ?_⟩
      · rw [htodo j (Nat.le_refl j), hs']
        have := hg j (by omega)
        omega
      · intro j' b' hne
        rw [cell_set H' j _ j' b' (by omega)]
        by_cases hEq : j' = j
        · subst hEq
          rw [if_pos rfl, getD_set _ _ _ _ (by omega), if_neg hne]
          exact hother j' b' hne
        · rw [if_neg hEq]
          exact hother j' b' hne
      · intro j' hj'
        rw [cell_set H' j _ j' b (by omega)]
        by_cases hEq : j' = j
        · subst hEq
          rw [if_pos rfl, getD_set _ _ _ _ (by omega), if_pos rfl, hs']
        · rw [if_neg hEq]
          exact hdone j' (by omega)
      · intro j' hj'
        rw [cell_set H' j _ j' b (by omega), if_neg (by omega)]
        exact htodo j' (by omega))
  simp only [Nat.zero_add] at hs hs' hdone
  subst hs'
  exact ⟨H', hs, hH', hrows', hother, hdone⟩

theorem outer_ok (lt : α → α → Bool) (src : List α) (e : MapSort α) (Pos : List Nat)
    (H : List (List Nat)) (K n t b : Nat) (hnt : e.num_threads_ = (t : Int)) (ht : 1 ≤ t)
    (hcol : ∀ j, j < t → cell H j b + cnt lt e.piv_ src b (bound n t j)
      = cnt lt e.piv_ src b (bound n t (j + 1)))
    (hPos : b < Pos.length) (hH : t ≤ H.length) (hrows : ∀ r ∈ H, r.length = K)
    (hb : b < K) :
    ∃ H', ComputeHistogram.outer b
          ({ e with pos_ := Pos, histo_ := H }, below lt e.piv_ (src.take n) b)
        = .ok ({ e with pos_ := Pos.set b (below lt e.piv_ (src.take n) b), histo_ := H' },
            below lt e.piv_ (src.take n) (b + 1)) ∧
      H'.length = H.length ∧ (∀ r ∈ H', r.length = K) ∧
      (∀ j b' : Nat, b' ≠ b → cell H' j b' = cell H j b') ∧
      (∀ j : Nat, j < t → cell H' j b
        = below lt e.piv_ (src.take n) b + cnt lt e.piv_ src b (bound n t j)) := by
  obtain ⟨H', h1, h2, h3, h4, h5⟩ := inner_loop_ok e
    (Pos.set b (below lt e.piv_ (src.take n) b)) H K b t
    (below lt e.piv_ (src.take n) b) (fun j => cnt lt e.piv_ src b (bound n t j))
    (by simp only [bound]; exact cnt_zero lt e.piv_ src b) hcol hH hrows hb
  refine ⟨H', ?_, h2, h3, h4, h5⟩
  have hlast : below lt e.piv_ (src.take n) b + cnt lt e.piv_ src b (bound n t t)
      = below lt e.piv_ (src.take n) (b + 1) := by
    rw [bound_last n t ht, below_succ]
    rfl
  simp only [ComputeHistogram.outer]
  rw [store_of_lt Pos b _ hPos]
  have hcnt : e.num_threads_.toNat = t := by omega
  simp only [ok_bind, hcnt]
  rw [← hlast]
  exact h1

theorem hist_global_ok (lt : α → α → Bool) (src : List α) (e : MapSort α) (Pos : List Nat)
    (H : List (List Nat)) (K n t : Nat) (hnt : e.num_threads_ = (t : Int)) (ht : 1 ≤ t)
    (hcol : ∀ j b, j < t → b < K → cell H j b + cnt lt e.piv_ src b (bound n t j)
      = cnt lt e.piv_ src b (bound n t (j + 1)))
    (hPos : Pos.length = K + 1) (hH : t ≤ H.length) (hrows : ∀ r ∈ H, r.length = K) :
    ∃ Pos' H', forLoop ComputeHistogram.outer 0 K ({ e with pos_ := Pos, histo_ := H }, 0)
        = .ok ({ e with pos_ := Pos', histo_ := H' }, below lt e.piv_ (src.take n) K) ∧
      Pos'.length = K + 1 ∧ H'.length = H.length ∧ (∀ r ∈ H', r.length = K) ∧
      (∀ b : Nat, b < K → Pos'[b]? = some (below lt e.piv_ (src.take n) b)) ∧
      (∀ j b : Nat, j < t → b < K → cell H' j b
        = below lt e.piv_ (src.take n) b + cnt lt e.piv_ src b (bound n t j)) := by
  obtain ⟨st, hs, Pos', H', rfl, hPos', hH', hrows', hposv, hdone, htodo⟩ :=
    forLoop_inv (ComputeHistogram.outer (α := α))
    (fun b st => ∃ Pos' H',
      st = ({ e with pos_ := Pos', histo_ := H' }, below lt e.piv_ (src.take n) b) ∧
      Pos'.length = K + 1 ∧ H'.length = H.length ∧ (∀ r ∈ H', r.length = K) ∧
      (∀ b' : Nat, b' < b → Pos'[b']? = some (below lt e.piv_ (src.take n) b')) ∧
      (∀ j b' : Nat, j < t → b' < b → cell H' j b'
        = below lt e.piv_ (src.take n) b' + cnt lt e.piv_ src b' (bound n t j)) ∧
      (∀ j b' : Nat, b ≤ b' → cell H' j b' = cell H j b'))
    K 0 ({ e with pos_ := Pos, histo_ := H }, 0)
    ⟨Pos, H, by rw [below_zero], hPos, rfl, hrows, by intro b' h; omega,
      by intro j b' _ h; omega, fun _ _ _ => rfl⟩
    (by
      rintro b st - hb ⟨Pos', H', rfl, hPos', hH', hrows', hposv, hdone, htodo⟩
      obtain ⟨H2, h1, h2, h3, h4, h5⟩ := outer_ok lt src e Pos' H' K n t b hnt ht
        (by intro j hj; rw [htodo j b (Nat.le_refl b)]; exact hcol j b hj (by omega))
        (by omega) (by omega) hrows' (by omega)
      refine ⟨_, h1, _, _, rfl, by simp [hPos'], by omega, h3, ?_, ?_, ?_⟩
      · intro b' hb'
        by_cases hEq : b' = b
        · subst hEq
          rw [List.getElem?_set_self (by omega)]
        · rw [List.getElem?_set_ne (Ne.symm hEq)]
          exact hposv b' (by omega)
      · intro j b' hj hb'
        by_cases hEq : b' = b
        · subst hEq
          exact h5 j hj
        · rw [h4 j b' hEq]
          exact hdone j b' hj (by omega)
      · intro j b' hb'
        rw [h4 j b' (by omega)]
        exact htodo j b' (by omega))
  simp only [Nat.zero_add] at hs hposv hdone
  exact ⟨Pos', H', hs, hPos', hH', hrows', hposv, hdone⟩

end MapSort
end map_sort

namespace map_sort

variable {α : Type}

namespace MapSort

/-! ## `ComputeHistogram` -/

theorem ComputeHistogram_ok (K : Nat) (lt : α → α → Bool) (stdSort : List α → List α)
    (hsort : SortContract lt stdSort) (rand : Nat → Nat) (src : List α) (n t : Nat)
    (e : MapSort α) (hK : 1 ≤ K) (hK31 : K ≤ 2147483648) (hn1 : 1 ≤ n)
    (hn : n < 2147483648) (hsrc : n ≤ src.length) (ht : 1 ≤ t)
    (hnt : e.num_threads_ = (t : Int))
    (hB : ∀ j, j < t → e.pos_bgn_[j]? = some (bound n t j : Int) ∧
      e.pos_end_[j]? = some (bound n t (j + 1) : Int))
    (hpiv : e.piv_.length = K - 1) (hpos : e.pos_.length = K + 1)
    (hrng : n ≤ e.rng_.length) (hH : t ≤ e.histo_.length)
    (hrows : ∀ r ∈ e.histo_, r.length = K) :
    ∃ R' Pos' H', ComputeHistogram K lt stdSort rand src n e
        = .ok { e with piv_ := stdSort (samplePivots K rand src n), rng_ := R',
                       pos_ := Pos', histo_ := H' } ∧
      R'.length = e.rng_.length ∧ Pos'.length = K + 1 ∧ H'.length = e.histo_.length ∧
      (∀ r ∈ H', r.length = K) ∧
      (∀ (i : Nat) (x : α), i < n → src[i]? = some x →
        R'[i]? = some (lower_bound lt (stdSort (samplePivots K rand src n)) x)) ∧
      (∀ b : Nat, b ≤ K →
        Pos'[b]? = some (below lt (stdSort (samplePivots K rand src n)) (src.take n) b)) ∧
      (∀ j b : Nat, j < t → b < K → cell H' j b
        = below lt (stdSort (samplePivots K rand src n)) (src.take n) b
          + cnt lt (stdSort (samplePivots K rand src n)) src b (bound n t j)) := by
  have hpl : (stdSort (samplePivots K rand src n)).length = K - 1 := by
    rw [(hsort.perm _).length_eq]
    exact (samplePivots_spec K rand src n hn1 hsrc).1
  obtain ⟨R1, H1, h1, hR1, hH1, hrows1, htag1, hcol1⟩ := hist_local_ok K lt src
    { e with piv_ := stdSort (samplePivots K rand src n) } e.rng_ e.histo_ n t ht hB hsrc hrng
    hn hH hrows (by show (stdSort (samplePivots K rand src n)).length < K; omega) hK31
  obtain ⟨Pos2, H2, h2, hPos2, hH2, hrows2, hposv2, hcur2⟩ := hist_global_ok lt src
    { e with piv_ := stdSort (samplePivots K rand src n), rng_ := R1 } e.pos_ H1 K n t hnt ht
    hcol1 hpos (by omega) hrows1
  have hcnt : e.num_threads_.toNat = t := by omega
  have hall : below lt (stdSort (samplePivots K rand src n)) (src.take n) K = n := by
    rw [below_all lt _ _ K (by omega), List.length_take]
    omega
  refine ⟨R1, Pos2.set K n, H2, ?_, hR1, by simp [hPos2], by omega, hrows2, htag1, ?_, hcur2⟩
  · simp only [ComputeHistogram]
    rw [pivots_ok K rand src n e hn1 hsrc hpiv]
    simp only [ok_bind, hcnt]
    rw [show forLoop (ComputeHistogram.block K lt src) 0 t
        { e with piv_ := stdSort (samplePivots K rand src n) } = _ from h1]
    simp only [ok_bind]
    rw [show forLoop ComputeHistogram.outer 0 K
        ({ e with piv_ := stdSort (samplePivots K rand src n), rng_ := R1,
                  histo_ := H1 }, 0) = _ from h2]
    simp only [ok_bind]
    rw [store_of_lt Pos2 K n (by omega)]
    simp only [ok_bind, pure_eq_ok]
  · intro b hb
    by_cases hEq : b = K
    · subst hEq
      rw [List.getElem?_set_self (by omega), hall]
    · rw [List.getElem?_set_ne (Ne.symm hEq)]
      exact hposv2 b (by omega)

end MapSort
end map_sort

namespace map_sort

variable {α : Type}

/-! ## Windows of a buffer -/

theorem window_set_out (l : List α) (p a c : Nat) (v : α) (h : p < a ∨ a + c ≤ p) :
    ((l.set p v).drop a).take c = (l.drop a).take c := by
  apply List.ext_getElem?
  intro m
  simp only [List.getElem?_take, List.getElem?_drop]
  by_cases hm : m < c
  · rw [if_pos hm, if_pos hm, List.getElem?_set_ne (by omega)]
  · rw [if_neg hm, if_neg hm]

theorem window_set_end (l : List α) (a c : Nat) (v : α) (h : a + c < l.length) :
    ((l.set (a + c) v).drop a).take (c + 1) = (l.drop a).take c ++ [v] := by
  apply List.ext_getElem?
  intro m
  have hlen : ((l.drop a).take c).length = c := by
    rw [List.length_take, List.length_drop]
    omega
  simp only [List.getElem?_take, List.getElem?_drop]
  by_cases hm : m < c
  · rw [if_pos (by omega), List.getElem?_set_ne (by omega),
      List.getElem?_append_left (by omega), List.getElem?_take, if_pos hm,
      List.getElem?_drop]
  · by_cases hEq : m = c
    · subst hEq
      rw [if_pos (by omega), List.getElem?_set_self h,
        List.getElem?_append_right (by omega), hlen]
      simp
    · rw [if_neg (by omega), List.getElem?_append_right (by omega), hlen]
      rw [List.getElem?_eq_none]
      simp only [List.length_cons, List.length_nil]
      omega

namespace MapSort

/-! ## `Scatter` -/

theorem move_ok (src : List α) (e : MapSort α) (Tm : List α) (H : List (List Nat))
    (K j i k : Nat) (x : α) (hx : src[i]? = some x) (hk : e.rng_[i]? = some k)
    (hkK : k < K) (hK31 : K ≤ 2147483648) (hj : j < H.length)
    (hrows : ∀ r ∈ H, r.length = K) (hc : cell H j k < Tm.length) :
    Scatter.move src j i { e with tmp_ := Tm, histo_ := H }
      = .ok { e with
          tmp_ := Tm.set (cell H j k) x
          histo_ := H.set j ((H.getD j []).set k (cell H j k + 1)) } := by
  have hrow : (H.getD j []).length = K := by
    apply hrows
    rw [List.getD_eq_getElem _ _ hj]
    exact List.getElem_mem hj
  have hcl : load (H.getD j []) k = .ok (cell H j k) := by
    rw [load_getD (H.getD j []) k 0 (by omega)]
    simp only [cell]
  simp only [Scatter.move]
  rw [load_of_getElem? _ _ _ hk, ok_bind, load_getD H j [] hj, ok_bind,
    toInt_of_lt k (by omega), loadI_natCast, hcl, ok_bind, load_of_getElem? _ _ _ hx, ok_bind,
    store_of_lt Tm _ _ hc, ok_bind, storeI_natCast, store_of_lt _ _ _ (by omega), ok_bind,
    pure_eq_ok]

end MapSort
end map_sort

namespace map_sort

variable {α : Type}

theorem cursor_le (lt : α → α → Bool) (piv src : List α) (n b i : Nat) (hi : i ≤ n) :
    below lt piv (src.take n) b + cnt lt piv src b i ≤ below lt piv (src.take n) (b + 1) := by
  have h1 := cnt_mono lt piv src b hi
  have h2 : below lt piv (src.take n) (b + 1)
      = below lt piv (src.take n) b + cnt lt piv src b n := below_succ lt piv _ b
  omega

theorem cursor_lt (lt : α → α → Bool) (piv src : List α) (n i : Nat) (hi : i < n)
    (x : α) (hx : src[i]? = some x) :
    below lt piv (src.take n) (lower_bound lt piv x) + cnt lt piv src (lower_bound lt piv x) i
      < below lt piv (src.take n) (lower_bound lt piv x + 1) := by
  obtain ⟨hil, rfl⟩ := List.getElem?_eq_some_iff.mp hx
  have h1 := cnt_mono lt piv src (lower_bound lt piv src[i]) (show i + 1 ≤ n by omega)
  have h2 : below lt piv (src.take n) (lower_bound lt piv src[i] + 1)
      = below lt piv (src.take n) (lower_bound lt piv src[i])
        + cnt lt piv src (lower_bound lt piv src[i]) n := below_succ lt piv _ _
  have h3 := cnt_succ lt piv src (lower_bound lt piv src[i]) i hil
  rw [if_pos rfl] at h3
  omega

theorem below_le_length (lt : α → α → Bool) (piv l : List α) (b : Nat) :
    below lt piv l b ≤ l.length := by
  simp only [below]
  exact List.countP_le_length _

namespace MapSort

theorem scatter_block_ok (K : Nat) (lt : α → α → Bool) (src : List α) (e : MapSort α)
    (Tm : List α) (H : List (List Nat)) (n j lo hi : Nat)
    (hlo : e.pos_bgn_[j]? = some (lo : Int)) (hhi : e.pos_end_[j]? = some (hi : Int))
    (hle : lo ≤ hi) (hhn : hi ≤ n) (hsrc : n ≤ src.length) (hn : n < 2147483648)
    (htag : ∀ (i : Nat) (x : α), i < n → src[i]? = some x →
      e.rng_[i]? = some (lower_bound lt e.piv_ x))
    (hK : e.piv_.length < K) (hK31 : K ≤ 2147483648) (hTm : n ≤ Tm.length)
    (hj : j < H.length) (hrows : ∀ r ∈ H, r.length = K)
    (hrow : ∀ b, b < K → cell H j b
      = below lt e.piv_ (src.take n) b + cnt lt e.piv_ src b lo)
    (hwin : ∀ b, b < K → ((Tm.drop (below lt e.piv_ (src.take n) b)).take
      (cnt lt e.piv_ src b lo)) = bucket lt e.piv_ (src.take lo) b) :
    ∃ Tm' H', Scatter.block src j { e with tmp_ := Tm, histo_ := H }
        = .ok { e with tmp_ := Tm', histo_ := H' } ∧
      Tm'.length = Tm.length ∧ H'.length = H.length ∧ (∀ r ∈ H', r.length = K) ∧
      (∀ j' b : Nat, j' ≠ j → cell H' j' b = cell H j' b) ∧
      (∀ b, b < K → ((Tm'.drop (below lt e.piv_ (src.take n) b)).take
        (cnt lt e.piv_ src b hi)) = bucket lt e.piv_ (src.take hi) b) := by
  obtain ⟨s, hs, Tm', H', rfl, hTm', hH', hrows', hother, hrow', hwin'⟩ :=
    forLoop_inv (Scatter.move src j)
    (fun i s => ∃ Tm' H', s = { e with tmp_ := Tm', histo_ := H' } ∧
      Tm'.length = Tm.length ∧ H'.length = H.length ∧ (∀ r ∈ H', r.length = K) ∧
      (∀ j' b : Nat, j' ≠ j → cell H' j' b = cell H j' b) ∧
      (∀ b, b < K → cell H' j b
        = below lt e.piv_ (src.take n) b + cnt lt e.piv_ src b i) ∧
      (∀ b, b < K → ((Tm'.drop (below lt e.piv_ (src.take n) b)).take
        (cnt lt e.piv_ src b i)) = bucket lt e.piv_ (src.take i) b))
    (hi - lo) lo { e with tmp_ := Tm, histo_ := H }
    ⟨Tm, H, rfl, rfl, rfl, hrows, fun _ _ _ => rfl, hrow, hwin⟩
    (by
      rintro i s hi1 hi2 ⟨Tm', H', rfl, hTm', hH', hrows', hother, hrow', hwin'⟩
      have hil : i < src.length := by omega
      have hx : src[i]? = some src[i] := List.getElem?_eq_getElem hil
      have hk := lower_bound_le lt e.piv_ src[i]
      have hkK : lower_bound lt e.piv_ src[i] < K := by omega
      have hcell := hrow' _ hkK
      have hlt := cursor_lt lt e.piv_ src n i (by omega) src[i] hx
      have hPn : below lt e.piv_ (src.take n) (lower_bound lt e.piv_ src[i] + 1) ≤ n := by
        have := below_le_length lt e.piv_ (src.take n) (lower_bound lt e.piv_ src[i] + 1)
        rw [List.length_take] at this
        omega
      have hrowl : (H'.getD j []).length = K := by
        apply hrows'
        rw [List.getD_eq_getElem _ _ (by omega)]
        exact List.getElem_mem _
      refine ⟨_, move_ok src e Tm' H' K j i _ src[i] hx (htag i src[i] (by omega) hx) hkK
        hK31 (by omega) hrows' (by omega), _, _, rfl, by simp [hTm'], by simp [hH'],
        rows_set H' K j _ hrows' (by rw [List.length_set]; exact hrowl), ?_, ?_, ?_⟩
      · intro j' b hne
        rw [cell_set H' j _ j' b (by omega), if_neg hne]
        exact hother j' b hne
      · intro b hb
        rw [cell_set H' j _ j b (by omega), if_pos rfl, getD_set _ _ _ _ (by omega),
          cnt_succ lt e.piv_ src b i hil]
        by_cases hEq : b = lower_bound lt e.piv_ src[i]
        · subst hEq
          rw [if_pos rfl, if_pos rfl, hcell]
          omega
        · rw [if_neg hEq, if_neg (Ne.symm hEq)]
          exact hrow' b hb
      · intro b hb
        rw [cnt_succ lt e.piv_ src b i hil, bucket_take_succ lt e.piv_ src b i hil]
        by_cases hEq : lower_bound lt e.piv_ src[i] = b
        · subst hEq
          rw [if_pos rfl, if_pos rfl, hcell, window_set_end _ _ _ _ (by omega),
            hwin' _ hb]
        · rw [if_neg hEq, if_neg hEq, List.append_nil, Nat.add_zero, hcell,
            window_set_out _ _ _ _ _ ?_]
          · exact hwin' b hb
          · rcases Nat.lt_or_gt_of_ne hEq with h | h
            · left
              have := below_mono lt e.piv_ (src.take n)
                (show lower_bound lt e.piv_ src[i] + 1 ≤ b by omega)
              omega
            · right
              have h1 := cursor_le lt e.piv_ src n b i (by omega)
              have h2 := below_mono lt e.piv_ (src.take n)
                (show b + 1 ≤ lower_bound lt e.piv_ src[i] by omega)
              omega)
  have hlohi : lo + (hi - lo) = hi := by omega
  rw [hlohi] at hrow' hwin'
  refine ⟨Tm', H', ?_, hTm', hH', hrows', hother, hwin'⟩
  simp only [Scatter.block]
  rw [load_of_getElem? _ _ _ hlo, ok_bind, load_of_getElem? _ _ _ hhi, ok_bind,
    load_getD H j [] hj, ok_bind, toSize_natCast lo (by omega),
    toSize_natCast hi (by omega), hs]

theorem Scatter_ok (K : Nat) (lt : α → α → Bool) (src : List α) (e : MapSort α)
    (Tm : List α) (H : List (List Nat)) (n t : Nat) (ht : 1 ≤ t)
    (hnt : e.num_threads_ = (t : Int))
    (hB : ∀ j, j < t → e.pos_bgn_[j]? = some (bound n t j : Int) ∧
      e.pos_end_[j]? = some (bound n t (j + 1) : Int))
    (hsrc : n ≤ src.length) (hn : n < 2147483648)
    (htag : ∀ (i : Nat) (x : α), i < n → src[i]? = some x →
      e.rng_[i]? = some (lower_bound lt e.piv_ x))
    (hK : e.piv_.length < K) (hK31 : K ≤ 2147483648) (hTm : n ≤ Tm.length)
    (hH : t ≤ H.length) (hrows : ∀ r ∈ H, r.length = K)
    (hcur : ∀ j b, j < t → b < K → cell H j b
      = below lt e.piv_ (src.take n) b + cnt lt e.piv_ src b (bound n t j)) :
    ∃ Tm' H', Scatter src { e with tmp_ := Tm, histo_ := H }
        = .ok { e with tmp_ := Tm', histo_ := H' } ∧
      Tm'.length = Tm.length ∧ H'.length = H.length ∧ (∀ r ∈ H', r.length = K) ∧
      (∀ b, b < K → ((Tm'.drop (below lt e.piv_ (src.take n) b)).take
        (cnt lt e.piv_ src b n)) = bucket lt e.piv_ (src.take n) b) := by
  obtain ⟨s, hs, Tm', H', rfl, hTm', hH', hrows', hcur', hwin'⟩ :=
    forLoop_inv (Scatter.block src)
    (fun j s => ∃ Tm' H', s = { e with tmp_ := Tm', histo_ := H' } ∧
      Tm'.length = Tm.length ∧ H'.length = H.length ∧ (∀ r ∈ H', r.length = K) ∧
      (∀ j' b, j ≤ j' → j' < t → b < K → cell H' j' b
        = below lt e.piv_ (src.take n) b + cnt lt e.piv_ src b (bound n t j')) ∧
      (∀ b, b < K → ((Tm'.drop (below lt e.piv_ (src.take n) b)).take
        (cnt lt e.piv_ src b (bound n t j))) = bucket lt e.piv_ (src.take (bound n t j)) b))
    t 0 { e with tmp_ := Tm, histo_ := H }
    ⟨Tm, H, rfl, rfl, rfl, hrows, fun j' b _ h1 h2 => hcur j' b h1 h2, by
      intro b hb
      simp [bound, cnt_zero, bucket]⟩
    (by
      rintro j s - hj ⟨Tm', H', rfl, hTm', hH', hrows', hcur', hwin'⟩
      obtain ⟨Tm2, H2, h2, hTm2, hH2, hrows2, hother2, hwin2⟩ :=
        scatter_block_ok K lt src e Tm' H' n j (bound n t j) (bound n t (j + 1))
          (hB j (by omega)).1 (hB j (by omega)).2 (bound_mono_succ n t j)
          (bound_le n t (j + 1) (by omega)) hsrc hn htag hK hK31 (by omega) (by omega)
          hrows' (fun b hb => hcur' j b (Nat.le_refl j) (by omega) hb) hwin'
      refine ⟨_, h2, Tm2, H2, rfl, by omega, by omega, hrows2, ?_, hwin2⟩
      intro j' b h1 h2 hb
      rw [hother2 j' b (by omega)]
      exact hcur' j' b (by omega) h2 hb)
  simp only [Nat.zero_add] at hs hwin'
  rw [bound_last n t ht] at hwin'
  have hcnt : e.num_threads_.toNat = t := by omega
  refine ⟨Tm', H', ?_, hTm', hH', hrows', hwin'⟩
  simp only [Scatter, hcnt]
  exact hs

end MapSort
end map_sort

namespace map_sort

variable {α : Type}

/-! ## `SortIntervals` and the copy back -/

theorem copy_step (tmp src : List α) (i : Nat) (x : α) (hx : tmp[i]? = some x)
    (hs : i < src.length) :
    (tmp.take i ++ src.drop i).set i x = tmp.take (i + 1) ++ src.drop (i + 1) := by
  obtain ⟨hil, rfl⟩ := List.getElem?_eq_some_iff.mp hx
  have hl1 : (tmp.take i).length = i := by rw [List.length_take]; omega
  have hl2 : (tmp.take (i + 1)).length = i + 1 := by rw [List.length_take]; omega
  apply List.ext_getElem?
  intro m
  by_cases hm : m < i
  · rw [List.getElem?_set_ne (by omega), List.getElem?_append_left (by omega),
      List.getElem?_append_left (by omega), List.getElem?_take, List.getElem?_take,
      if_pos hm, if_pos (by omega)]
  · by_cases hEq : m = i
    · subst hEq
      rw [List.getElem?_set_self (by rw [List.length_append, hl1, List.length_drop]; omega),
        List.getElem?_append_left (by omega), List.getElem?_take, if_pos (by omega),
        List.getElem?_eq_getElem hil]
    · rw [List.getElem?_set_ne (by omega), List.getElem?_append_right (by omega),
        List.getElem?_append_right (by omega), hl1, hl2, List.getElem?_drop,
        List.getElem?_drop]
      congr 1
      omega

namespace MapSort

theorem copy_ok (e : MapSort α) (src : List α) (n : Nat) (htmp : n ≤ e.tmp_.length)
    (hsrc : n ≤ src.length) :
    forLoop (sort.copy e) 0 n src = .ok (e.tmp_.take n ++ src.drop n) := by
  obtain ⟨s, hs, rfl⟩ := forLoop_inv (sort.copy e)
    (fun i s => s = e.tmp_.take i ++ src.drop i) n 0 src (by simp)
    (by
      rintro i s - hi rfl
      have hil : i < e.tmp_.length := by omega
      refine ⟨e.tmp_.take (i + 1) ++ src.drop (i + 1), ?_, rfl⟩
      simp only [sort.copy]
      rw [load_of_lt _ _ hil, ok_bind, store_of_lt _ _ _ (by
        rw [List.length_append, List.length_take, List.length_drop]; omega),
        copy_step e.tmp_ src i e.tmp_[i] (List.getElem?_eq_getElem hil) (by omega)])
  rw [hs, Nat.zero_add]

theorem sortRange_ok (stdSort : List α → List α) (a : List α) (lo hi : Nat) (h1 : lo ≤ hi)
    (h2 : hi ≤ a.length) :
    sortRange stdSort a lo hi
      = .ok (a.take lo ++ stdSort ((a.drop lo).take (hi - lo)) ++ a.drop hi) := by
  simp only [sortRange]
  rw [if_pos ⟨h1, h2⟩]

theorem SortIntervals_ok (K : Nat) (lt : α → α → Bool) (stdSort : List α → List α)
    (hsort : SortContract lt stdSort) (e : MapSort α) (Tm : List α) (P : Nat → Nat)
    (Bk : Nat → List α) (hP0 : P 0 = 0)
    (hP : ∀ b, b < K → P (b + 1) = P b + (Bk b).length)
    (hpos : ∀ b, b ≤ K → e.pos_[b]? = some (P b)) (hTm : P K ≤ Tm.length)
    (hwin : ∀ b, b < K → (Tm.drop (P b)).take (Bk b).length = Bk b) :
    ∃ Tm', SortIntervals K stdSort { e with tmp_ := Tm } = .ok { e with tmp_ := Tm' } ∧
      Tm'.length = Tm.length ∧
      Tm'.take (P K) = (List.range K).flatMap (fun b => stdSort (Bk b)) := by
  have hmono : ∀ b, b ≤ K → P b ≤ P K := by
    intro b hb
    induction K with
    | zero => have : b = 0 := by omega
              subst this; exact Nat.le_refl _
    | succ K ih =>
      by_cases hEq : b = K + 1
      · subst hEq; exact Nat.le_refl _
      · have h1 := ih (fun b hb => hP b (by omega)) (fun b hb => hpos b (by omega))
          (by have := hP K (by omega); omega) (fun b hb => hwin b (by omega)) (by omega)
        have h2 := hP K (by omega)
        omega
  obtain ⟨s, hs, Tm', rfl, hlen, htake, hdrop⟩ := forLoop_inv (SortIntervals.body stdSort)
    (fun b s => ∃ Tm', s = { e with tmp_ := Tm' } ∧ Tm'.length = Tm.length ∧
      Tm'.take (P b) = (List.range b).flatMap (fun b => stdSort (Bk b)) ∧
      Tm'.drop (P b) = Tm.drop (P b))
    K 0 { e with tmp_ := Tm } ⟨Tm, rfl, rfl, by simp [hP0], rfl⟩
    (by
      rintro b s - hb ⟨Tm', rfl, hlen, htake, hdrop⟩
      simp only [Nat.zero_add] at hb
      have hPb := hP b hb
      have hle := hmono (b + 1) (by omega)
      have hsl : (stdSort (Bk b)).length = (Bk b).length := (hsort.perm _).length_eq
      have hseg : (Tm'.drop (P b)).take (P (b + 1) - P b) = Bk b := by
        rw [hdrop, hPb, Nat.add_sub_cancel_left]
        exact hwin b hb
      have hfl : (Tm'.take (P b)).length = P b := by
        rw [List.length_take]; omega
      have hl2 : (Tm'.take (P b) ++ stdSort (Bk b)).length = P (b + 1) := by
        rw [List.length_append, hfl, hsl, hPb]
      refine ⟨{ e with tmp_ := Tm'.take (P b) ++ stdSort (Bk b) ++ Tm'.drop (P (b + 1)) },
        ?_, _, rfl, ?_, ?_, ?_⟩
      · simp only [SortIntervals.body]
        rw [load_of_getElem? _ _ _ (hpos b (by omega)), ok_bind,
          load_of_getElem? _ _ _ (hpos (b + 1) (by omega)), ok_bind,
          sortRange_ok stdSort Tm' _ _ (by omega) (by omega), ok_bind, pure_eq_ok, hseg]
      · rw [List.length_append, hl2, List.length_drop]
        omega
      · rw [List.take_left' hl2, htake, List.range_succ, List.flatMap_append]
        simp
      · rw [List.drop_left' hl2]
        have e1 : Tm'.drop (P (b + 1)) = (Tm'.drop (P b)).drop (Bk b).length := by
          rw [List.drop_drop, hPb]
        have e2 : Tm.drop (P (b + 1)) = (Tm.drop (P b)).drop (Bk b).length := by
          rw [List.drop_drop, hPb]
        rw [e1, e2, hdrop])
  simp only [Nat.zero_add] at hs htake
  exact ⟨Tm', by simp only [SortIntervals]; exact hs, hlen, htake⟩

end MapSort
end map_sort

namespace map_sort

variable {α : Type}

namespace MapSort

/-! ## `Sort` -/

theorem sort_unfold (K : Nat) (lt : α → α → Bool) (stdSort : List α → List α)
    (rand : Nat → Nat) (omp : Omp) (e : MapSort α) (src : List α) (n : Nat) (nt : Int)
    (h1 : n ≤ e.max_elems_) (h2 : 1 ≤ resolved omp nt)
    (h3 : resolved omp nt ≤ e.max_threads_) :
    sort K lt stdSort rand omp e src n nt = (do
      let e ← ComputeRanges n { e with num_threads_ := resolved omp nt }
      let e ← ComputeHistogram K lt stdSort rand src n e
      let e ← Scatter src e
      let e ← SortIntervals K stdSort e
      let src ← forLoop (sort.copy e) 0 n src
      pure { omp := utility.SetNumThreads omp (resolved omp nt), engine := e, src := src }) := by
  simp only [sort, resolved] at h2 h3 ⊢
  have h4 : ¬¬utility.GetMaxThreads (utility.SetNumThreads omp
      (if nt = -1 then utility.GetMaxThreads omp else nt))
      = if nt = -1 then utility.GetMaxThreads omp else nt := not_not.mpr rfl
  rw [if_neg (not_not.mpr h1), if_neg (not_not.mpr ⟨h2, h3⟩), if_neg h4]

/-- The run of `Sort` on an engine of capacity `(M, T)`, for `1 ≤ n ≤ M`, `n ≤ INT_MAX`
and a worker count in `[1, T]`: it returns, and the array holds the sorted buckets. -/
theorem sort_ok (K M : Nat) (T : Int) (lt : α → α → Bool) (stdSort : List α → List α)
    (hsort : SortContract lt stdSort) (rand : Nat → Nat) (omp : Omp) (e : MapSort α)
    (src : List α) (n : Nat) (nt : Int) (hK : 1 ≤ K) (hK31 : K ≤ 2147483648)
    (he : Shaped K M T e) (hT : T ≤ 2147483647) (hn1 : 1 ≤ n) (hnM : n ≤ M)
    (hn : n < 2147483648) (hsrc : n ≤ src.length) (h1 : 1 ≤ resolved omp nt)
    (h2 : resolved omp nt ≤ T) :
    ∃ e', sort K lt stdSort rand omp e src n nt = .ok
        { omp := { nthreads := resolved omp nt }, engine := e',
          src := sortedBuckets K lt stdSort (stdSort (samplePivots K rand src n)) (src.take n)
            ++ src.drop n } ∧
      Shaped K M T e' := by
  obtain ⟨hme, hmt, htmp, hrng, hpiv, hpos, hhisto, hrows, hbgn, hfin⟩ := he
  obtain ⟨t, ht⟩ : ∃ t : Nat, resolved omp nt = (t : Int) :=
    ⟨(resolved omp nt).toNat, by omega⟩
  have ht1 : 1 ≤ t := by omega
  have htT : t ≤ T.toNat := by omega
  -- ComputeRanges
  obtain ⟨B, E, hCR, hBl, hEl, hBE⟩ := ComputeRanges_ok
    { e with num_threads_ := resolved omp nt } n t hn ht1 (by omega) ht
    (by show t ≤ e.pos_bgn_.length; omega) (by show t ≤ e.pos_end_.length; omega)
  dsimp only at hBl hEl
  -- ComputeHistogram
  obtain ⟨R1, Pos1, H1, hCH, hR1, hPos1, hH1, hrows1, htag1, hposv1, hcur1⟩ :=
    ComputeHistogram_ok K lt stdSort hsort rand src n t
      { e with num_threads_ := resolved omp nt, pos_bgn_ := B, pos_end_ := E }
      hK hK31 hn1 hn hsrc ht1 ht hBE hpiv hpos
      (by show n ≤ e.rng_.length; omega) (by show t ≤ e.histo_.length; omega) hrows
  dsimp only at hR1 hH1
  have hpl : (stdSort (samplePivots K rand src n)).length = K - 1 := by
    rw [(hsort.perm _).length_eq]
    exact (samplePivots_spec K rand src n hn1 hsrc).1
  -- Scatter
  obtain ⟨Tm2, H2, hSC, hTm2, hH2, hrows2, hwin2⟩ := Scatter_ok K lt src
    { e with num_threads_ := resolved omp nt, pos_bgn_ := B, pos_end_ := E,
             piv_ := stdSort (samplePivots K rand src n), rng_ := R1, pos_ := Pos1 }
    e.tmp_ H1 n t ht1 ht hBE hsrc hn htag1
    (by show (stdSort (samplePivots K rand src n)).length < K; omega) hK31 (by omega)
    (by omega) hrows1 hcur1
  -- SortIntervals
  have hall : below lt (stdSort (samplePivots K rand src n)) (src.take n) K = n := by
    rw [below_all lt _ _ K (by omega), List.length_take]
    omega
  obtain ⟨Tm3, hSI, hTm3, htake3⟩ := SortIntervals_ok K lt stdSort hsort
    { e with num_threads_ := resolved omp nt, pos_bgn_ := B, pos_end_ := E,
             piv_ := stdSort (samplePivots K rand src n), rng_ := R1, pos_ := Pos1,
             histo_ := H2 }
    Tm2 (below lt (stdSort (samplePivots K rand src n)) (src.take n))
    (bucket lt (stdSort (samplePivots K rand src n)) (src.take n))
    (below_zero _ _ _) (fun b _ => below_succ _ _ _ b) hposv1 (by rw [hall]; omega) hwin2
  rw [hall] at htake3
  refine ⟨
    { e with num_threads_ := resolved omp nt, pos_bgn_ := B, pos_end_ := E,
             piv_ := stdSort (samplePivots K rand src n), rng_ := R1, pos_ := Pos1,
             histo_ := H2, tmp_ := Tm3 }, ?_, ?_⟩
  · rw [sort_unfold K lt stdSort rand omp e src n nt (by omega) h1 (by omega), hCR, ok_bind,
      hCH, ok_bind]
    rw [show Scatter src
        { e with num_threads_ := resolved omp nt, pos_bgn_ := B, pos_end_ := E,
                 piv_ := stdSort (samplePivots K rand src n), rng_ := R1, pos_ := Pos1,
                 histo_ := H1 } = _ from hSC, ok_bind]
    rw [show SortIntervals K stdSort
        { e with num_threads_ := resolved omp nt, pos_bgn_ := B, pos_end_ := E,
                 piv_ := stdSort (samplePivots K rand src n), rng_ := R1, pos_ := Pos1,
                 histo_ := H2, tmp_ := Tm2 } = _ from hSI, ok_bind]
    rw [copy_ok _ src n (by show n ≤ Tm3.length; omega) hsrc, ok_bind, pure_eq_ok]
    show Except.ok (Outcome.mk _ _ (Tm3.take n ++ src.drop n)) = _
    rw [htake3]
    rfl
  · exact ⟨hme, hmt, by show Tm3.length = M; omega, by show R1.length = M; omega, hpl, hPos1,
      by show H2.length = T.toNat; omega, hrows2, by show B.length = T.toNat; omega,
      by show E.length = T.toNat; omega⟩

end MapSort
end map_sort

namespace map_sort

variable {α : Type}

/-! ## The sorted buckets are a sorted permutation -/

theorem buckets_perm (lt : α → α → Bool) (piv l : List α) :
    ∀ K, ((List.range K).flatMap (fun b => bucket lt piv l b)).Perm
      (l.filter (fun x => decide (lower_bound lt piv x < K))) := by
  intro K
  induction K with
  | zero => simp
  | succ K ih =>
    rw [List.range_succ, List.flatMap_append]
    have h1 : (List.flatMap [K] fun b => bucket lt piv l b) = bucket lt piv l K := by
      simp
    rw [h1]
    have h2 := List.filter_append_perm (fun x => decide (lower_bound lt piv x < K))
      (l.filter (fun x => decide (lower_bound lt piv x < K + 1)))
    have h3 : List.filter (fun x => decide (lower_bound lt piv x < K))
        (l.filter (fun x => decide (lower_bound lt piv x < K + 1)))
        = l.filter (fun x => decide (lower_bound lt piv x < K)) := by
      rw [List.filter_filter]
      congr 1
      funext x
      by_cases h : lower_bound lt piv x < K
      · have : lower_bound lt piv x < K + 1 := by omega
        simp [h, this]
      · simp [h]
    have h4 : List.filter (fun x => !decide (lower_bound lt piv x < K))
        (l.filter (fun x => decide (lower_bound lt piv x < K + 1)))
        = bucket lt piv l K := by
      rw [List.filter_filter]
      simp only [bucket]
      congr 1
      funext x
      by_cases h : lower_bound lt piv x = K
      · simp [h]
      · by_cases h' : lower_bound lt piv x < K
        · simp [h, h']
        · have : ¬ lower_bound lt piv x < K + 1 := by omega
          simp [h, h', this]
    rw [h3, h4] at h2
    exact (List.Perm.append_right _ ih).trans h2

/-- The sorted buckets are a permutation of the array. -/
theorem sortedBuckets_perm (K : Nat) (lt : α → α → Bool) (stdSort : List α → List α)
    (hsort : SortContract lt stdSort) (piv l : List α) (hK : piv.length < K) :
    (sortedBuckets K lt stdSort piv l).Perm l := by
  have h1 : (sortedBuckets K lt stdSort piv l).Perm
      ((List.range K).flatMap (fun b => bucket lt piv l b)) :=
    List.Perm.flatMap_left _ (fun b _ => hsort.perm _)
  have h2 : l.filter (fun x => decide (lower_bound lt piv x < K)) = l := by
    rw [List.filter_eq_self]
    intro x _
    have := lower_bound_le lt piv x
    simp only [decide_eq_true_eq]
    omega
  have h3 := buckets_perm lt piv l K
  rw [h2] at h3
  exact h1.trans h3

theorem mem_bucket (lt : α → α → Bool) (piv l : List α) (b : Nat) (x : α)
    (h : x ∈ bucket lt piv l b) : lower_bound lt piv x = b := by
  simp only [bucket, List.mem_filter, beq_iff_eq] at h
  exact h.2

/-- The sorted buckets are in non-decreasing order. -/
theorem sortedBuckets_sorted (K : Nat) (lt : α → α → Bool) (hlt : StrictWeakOrder lt)
    (stdSort : List α → List α) (hsort : SortContract lt stdSort) (piv l : List α)
    (hpiv : Sorted lt piv) : Sorted lt (sortedBuckets K lt stdSort piv l) := by
  simp only [Sorted, sortedBuckets]
  rw [List.pairwise_flatMap]
  refine ⟨fun b _ => hsort.sorted _, ?_⟩
  refine (List.pairwise_lt_range K).imp ?_
  intro a b hab x hx y hy
  have hx' := mem_bucket lt piv l a x ((hsort.perm _).mem_iff.mp hx)
  have hy' := mem_bucket lt piv l b y ((hsort.perm _).mem_iff.mp hy)
  exact bucket_order hlt hpiv x y (by omega)

end map_sort

namespace map_sort

variable {α : Type}

/-! ## Element counts above `INT_MAX` -/

theorem toSize_toInt_wrap (n : Nat) (hn : 2147483648 ≤ n) (hn' : n < 4294967296) :
    toSize (toInt (n : Int)) = n + 18446744069414584320 := by
  unfold toSize toInt
  omega

namespace MapSort

theorem ComputeRanges_one (e : MapSort α) (n : Nat) (h : e.num_threads_ = 1)
    (hB : 0 < e.pos_bgn_.length) (hE : 0 < e.pos_end_.length) :
    ComputeRanges n e = .ok { e with pos_bgn_ := e.pos_bgn_.set 0 0,
                                     pos_end_ := e.pos_end_.set 0 (toInt n) } := by
  have h0 : (e.num_threads_ - 1).toNat = 0 := by omega
  have h1 : e.num_threads_ - 1 = ((0 : Nat) : Int) := by omega
  simp only [ComputeRanges]
  rw [store_of_lt _ _ _ hB, ok_bind]
  simp only [h0, forLoop]
  rw [ok_bind]
  simp only [h1]
  rw [storeI_natCast, store_of_lt _ _ _ hE, ok_bind, pure_eq_ok]

theorem hist_block_fault (K : Nat) (lt : α → α → Bool) (src : List α) (e : MapSort α)
    (R : List Nat) (H : List (List Nat)) (j : Nat) (bI eI : Int)
    (hlo : e.pos_bgn_[j]? = some bI) (hhi : e.pos_end_[j]? = some eI)
    (hb : toSize bI ≤ src.length) (he : src.length < toSize eI)
    (hR : src.length ≤ R.length) (hj : j < H.length) (hrows : ∀ r ∈ H, r.length = K)
    (hK : e.piv_.length < K) (hK31 : K ≤ 2147483648) :
    ComputeHistogram.block K lt src j { e with rng_ := R, histo_ := H }
      = .error .outOfBounds := by
  simp only [ComputeHistogram.block]
  rw [load_of_getElem? _ _ _ hlo, ok_bind, load_of_getElem? _ _ _ hhi, ok_bind,
    store_of_lt H j _ hj, ok_bind]
  apply forLoop_fault (ComputeHistogram.count lt src j)
    (fun _ s => ∃ R' H', s = { e with rng_ := R', histo_ := H' } ∧
      R'.length = R.length ∧ H'.length = H.length ∧ (∀ r ∈ H', r.length = K))
    Fault.outOfBounds src.length
  · exact ⟨R, H.set j (List.replicate K 0), rfl, rfl, by simp,
      rows_set H K j _ hrows (by simp)⟩
  · exact hb
  · omega
  · rintro i s - hi ⟨R', H', rfl, hR', hH', hrows'⟩
    have hrowl : (H'.getD j []).length = K := by
      apply hrows'
      rw [List.getD_eq_getElem _ _ (by omega)]
      exact List.getElem_mem _
    exact ⟨_, count_ok K lt src e R' H' j i src[i] (List.getElem?_eq_getElem hi) (by omega)
      (by omega) hrows' hK hK31, _, _, rfl, by simp [hR'], by simp [hH'],
      rows_set H' K j _ hrows' (by rw [List.length_set]; exact hrowl)⟩
  · rintro s ⟨R', H', rfl, -, -, -⟩
    simp only [ComputeHistogram.count]
    rw [load_of_le src _ (Nat.le_refl _), error_bind]

/-- With one worker and `2^31 ≤ n < 2^32`, the `int` entry `pos_end_[0]` is negative and
the histogram loop of `ComputeHistogram` reads `src[n]`, past the array. -/
theorem sort_fault_one_worker (K M : Nat) (T : Int) (lt : α → α → Bool)
    (stdSort : List α → List α) (hsort : SortContract lt stdSort) (rand : Nat → Nat)
    (omp : Omp) (e : MapSort α) (src : List α) (n : Nat) (nt : Int) (hK : 1 ≤ K)
    (hK31 : K ≤ 2147483648) (he : Shaped K M T e) (hT : 1 ≤ T) (hnM : n ≤ M)
    (hn : 2147483648 ≤ n) (hn' : n < 4294967296) (hsrc : src.length = n)
    (h1 : resolved omp nt = 1) :
    sort K lt stdSort rand omp e src n nt = .error .outOfBounds := by
  obtain ⟨hme, hmt, htmp, hrng, hpiv, hpos, hhisto, hrows, hbgn, hfin⟩ := he
  have hpl : (stdSort (samplePivots K rand src n)).length = K - 1 := by
    rw [(hsort.perm _).length_eq]
    exact (samplePivots_spec K rand src n (by omega) (by omega)).1
  have hend := toSize_toInt_wrap n hn hn'
  rw [sort_unfold K lt stdSort rand omp e src n nt (by omega) (by omega) (by omega),
    ComputeRanges_one _ n h1 (by show 0 < e.pos_bgn_.length; omega)
      (by show 0 < e.pos_end_.length; omega), ok_bind]
  simp only [ComputeHistogram]
  rw [pivots_ok K rand src n
    { e with num_threads_ := resolved omp nt, pos_bgn_ := e.pos_bgn_.set 0 0,
             pos_end_ := e.pos_end_.set 0 (toInt n) }
    (by omega) (by omega) hpiv, ok_bind]
  have hzero : toSize 0 ≤ src.length := by
    unfold toSize
    omega
  have hf := hist_block_fault K lt src
    { e with num_threads_ := resolved omp nt, pos_bgn_ := e.pos_bgn_.set 0 0,
             pos_end_ := e.pos_end_.set 0 (toInt n),
             piv_ := stdSort (samplePivots K rand src n) }
    e.rng_ e.histo_ 0 0 (toInt n)
    (List.getElem?_set_self (by omega)) (List.getElem?_set_self (by omega))
    hzero (by rw [hend]; omega) (by omega) (by omega) hrows
    (by show (stdSort (samplePivots K rand src n)).length < K; omega) hK31
  dsimp only at hf
  simp only [h1] at hf
  simp only [h1, Int.toNat_one, forLoop]
  rw [hf]
  rfl

end MapSort
end map_sort

namespace map_sort

variable {α : Type}

/-! ## Concrete element types -/

theorem intLt_strictWeakOrder : StrictWeakOrder intLt := by
  refine ⟨?_, ?_, ?_⟩
  · intro a; simp [intLt]
  · intro a b c h1 h2
    simp only [intLt, decide_eq_true_eq] at h1 h2 ⊢
    omega
  · intro a b c h1 h2 h3 h4
    simp only [intLt, decide_eq_false_iff_not] at h1 h2 h3 h4 ⊢
    omega

theorem intLt_total (a b : Int) (h1 : intLt a b = false) (h2 : intLt b a = false) : a = b := by
  simp only [intLt, decide_eq_false_iff_not] at h1 h2
  omega

theorem intSort_contract : SortContract intLt intSort := by
  refine ⟨fun l => List.perm_insertionSort _ l, fun l => ?_⟩
  have h := List.sorted_insertionSort (fun a b : Int => a ≤ b) l
  refine List.Pairwise.imp ?_ h
  intro a b hab
  simp only [intLt, decide_eq_false_iff_not]
  omega

theorem keyLt_strictWeakOrder : StrictWeakOrder keyLt := by
  refine ⟨?_, ?_, ?_⟩
  · intro a; simp [keyLt]
  · intro a b c h1 h2
    simp only [keyLt, decide_eq_true_eq] at h1 h2 ⊢
    omega
  · intro a b c h1 h2 h3 h4
    simp only [keyLt, decide_eq_false_iff_not] at h1 h2 h3 h4 ⊢
    omega

theorem Sorted.sublist_filter {lt : α → α → Bool} {l : List α} (h : Sorted lt l)
    (p : α → Bool) : Sorted lt (l.filter p) :=
  List.Pairwise.sublist (List.filter_sublist l) h

theorem sorted_perm_unique (lt : α → α → Bool)
    (htot : ∀ a b, lt a b = false → lt b a = false → a = b) {l₁ l₂ : List α}
    (hp : l₁.Perm l₂) (h1 : Sorted lt l₁) (h2 : Sorted lt l₂) : l₁ = l₂ := by
  haveI : IsAntisymm α (fun a b => lt b a = false) := ⟨fun a b h1 h2 => htot a b h2 h1⟩
  exact List.eq_of_perm_of_sorted hp h1 h2

namespace MapSort

/-! ## `Init` -/

theorem Init_ok [Inhabited α] (K : Nat) (omp : Omp) (e : MapSort α) (M : Nat) (mt : Int)
    (h : 1 ≤ resolved omp mt) :
    Init K omp e M mt = .ok { e with
      max_elems_ := M
      max_threads_ := resolved omp mt
      tmp_ := List.replicate M default
      rng_ := List.replicate M 0
      histo_ := List.replicate (resolved omp mt).toNat (List.replicate K 0)
      pos_bgn_ := List.replicate (resolved omp mt).toNat 0
      pos_end_ := List.replicate (resolved omp mt).toNat 0 } := by
  simp only [Init, resolved, DeleteAll] at h ⊢
  rw [if_pos h]

theorem Init_fault [Inhabited α] (K : Nat) (omp : Omp) (e : MapSort α) (M : Nat) (mt : Int)
    (h : resolved omp mt < 1) : Init K omp e M mt = .error .assertion := by
  simp only [Init, resolved, DeleteAll] at h ⊢
  rw [if_neg (by omega)]

theorem Init_shaped [Inhabited α] (K : Nat) (omp : Omp) (e : MapSort α) (M : Nat) (mt : Int)
    (h : 1 ≤ resolved omp mt) (hpiv : e.piv_.length = K - 1) (hpos : e.pos_.length = K + 1) :
    ∃ e', Init K omp e M mt = .ok e' ∧ Shaped K M (resolved omp mt) e' := by
  refine ⟨_, Init_ok K omp e M mt h, rfl, rfl, ?_, ?_, hpiv, hpos, ?_, ?_, ?_, ?_⟩
  · exact List.length_replicate _ _
  · exact List.length_replicate _ _
  · exact List.length_replicate _ _
  · intro row hrow
    rw [List.eq_of_mem_replicate hrow]
    exact List.length_replicate _ _
  · exact List.length_replicate _ _
  · exact List.length_replicate _ _

end MapSort
end map_sort

namespace map_sort

variable {α : Type}

namespace MapSort

/-! ## What `Sort` returns -/

theorem samplePivots_sorted (K : Nat) (lt : α → α → Bool) (stdSort : List α → List α)
    (hsort : SortContract lt stdSort) (rand : Nat → Nat) (src : List α) (n : Nat) :
    Sorted lt (stdSort (samplePivots K rand src n)) := hsort.sorted _

/-- For `1 ≤ n ≤ M`, `n ≤ INT_MAX` and a worker count in `[1, T]`, `Sort` returns; the
first `n` elements are a sorted permutation of what they were, the rest of the array is
untouched, and the engine keeps its capacity. -/
theorem sort_sorted_perm (K M : Nat) (T : Int) (lt : α → α → Bool) (hlt : StrictWeakOrder lt)
    (stdSort : List α → List α) (hsort : SortContract lt stdSort) (rand : Nat → Nat)
    (omp : Omp) (e : MapSort α) (src : List α) (n : Nat) (nt : Int) (hK : 1 ≤ K)
    (hK31 : K ≤ 2147483648) (he : Shaped K M T e) (hT : T ≤ 2147483647) (hn1 : 1 ≤ n)
    (hnM : n ≤ M) (hn : n < 2147483648) (hsrc : n ≤ src.length)
    (h1 : 1 ≤ resolved omp nt) (h2 : resolved omp nt ≤ T) :
    ∃ r, sort K lt stdSort rand omp e src n nt = .ok r ∧
      r.omp = { nthreads := resolved omp nt } ∧ Shaped K M T r.engine ∧
      r.src = sortedBuckets K lt stdSort (stdSort (samplePivots K rand src n)) (src.take n)
        ++ src.drop n ∧
      Sorted lt (r.src.take n) ∧ (r.src.take n).Perm (src.take n) ∧
      r.src.drop n = src.drop n ∧ r.src.Perm src := by
  obtain ⟨e', hrun, hshape⟩ := sort_ok K M T lt stdSort hsort rand omp e src n nt hK hK31 he hT
    hn1 hnM hn hsrc h1 h2
  have hpl : (stdSort (samplePivots K rand src n)).length = K - 1 := by
    rw [(hsort.perm _).length_eq]
    exact (samplePivots_spec K rand src n hn1 hsrc).1
  have hperm := sortedBuckets_perm K lt stdSort hsort (stdSort (samplePivots K rand src n))
    (src.take n) (by omega)
  have hlen : (sortedBuckets K lt stdSort (stdSort (samplePivots K rand src n))
      (src.take n)).length = n := by
    rw [hperm.length_eq, List.length_take]
    omega
  have hsorted := sortedBuckets_sorted K lt hlt stdSort hsort
    (stdSort (samplePivots K rand src n)) (src.take n) (hsort.sorted _)
  refine ⟨_, hrun, rfl, hshape, rfl, ?_, ?_, ?_, ?_⟩
  · show Sorted lt (List.take n (_ ++ _))
    rw [List.take_left' hlen]
    exact hsorted
  · show List.Perm (List.take n (_ ++ _)) _
    rw [List.take_left' hlen]
    exact hperm
  · show List.drop n (_ ++ _) = _
    rw [List.drop_left' hlen]
  · have := List.Perm.append_right (src.drop n) hperm
    rw [List.take_append_drop] at this
    exact this

/-- Under a total order the first `n` elements end up as `std::sort` would leave them:
the result depends neither on the pivots, nor on the worker count, nor on the engine. -/
theorem sort_total (K M : Nat) (T : Int) (lt : α → α → Bool) (hlt : StrictWeakOrder lt)
    (htot : ∀ a b, lt a b = false → lt b a = false → a = b)
    (stdSort : List α → List α) (hsort : SortContract lt stdSort) (rand : Nat → Nat)
    (omp : Omp) (e : MapSort α) (src : List α) (n : Nat) (nt : Int) (hK : 1 ≤ K)
    (hK31 : K ≤ 2147483648) (he : Shaped K M T e) (hT : T ≤ 2147483647) (hn1 : 1 ≤ n)
    (hnM : n ≤ M) (hn : n < 2147483648) (hsrc : n ≤ src.length)
    (h1 : 1 ≤ resolved omp nt) (h2 : resolved omp nt ≤ T) :
    ∃ r, sort K lt stdSort rand omp e src n nt = .ok r ∧
      r.omp = { nthreads := resolved omp nt } ∧ Shaped K M T r.engine ∧
      r.src = stdSort (src.take n) ++ src.drop n := by
  obtain ⟨r, hrun, homp, hshape, hsrc', hsorted, hperm, hdrop, -⟩ :=
    sort_sorted_perm K M T lt hlt stdSort hsort rand omp e src n nt hK hK31 he hT hn1 hnM hn
      hsrc h1 h2
  refine ⟨r, hrun, homp, hshape, ?_⟩
  have h := sorted_perm_unique lt htot (hperm.trans (hsort.perm _).symm) hsorted
    (hsort.sorted _)
  rw [← List.take_append_drop n r.src, h, hdrop]

/-- The free function unfolded: a fresh engine, `Init`, `Sort`. -/
theorem sort_free_unfold [Inhabited α] (lt : α → α → Bool) (stdSort : List α → List α)
    (rand : Nat → Nat) (omp : Omp) (data : List α) (n : Nat) (nt : Int) :
    map_sort.sort lt stdSort rand omp data n nt
      = (match Init 256 omp (new 256) n nt with
        | .error f => .error f
        | .ok e =>
          match sort 256 lt stdSort rand omp e data n nt with
          | .error f => .error f
          | .ok r => .ok (r.omp, r.src)) := by
  simp only [map_sort.sort]
  cases Init 256 omp (new 256 : MapSort α) n nt with
  | error f => rfl
  | ok e =>
    rw [ok_bind]
    dsimp only
    cases sort 256 lt stdSort rand omp e data n nt with
    | error f => rfl
    | ok r => rfl

theorem new_piv_length [Inhabited α] (K : Nat) : (new K : MapSort α).piv_.length = K - 1 :=
  List.length_replicate _ _

theorem new_pos_length [Inhabited α] (K : Nat) : (new K : MapSort α).pos_.length = K + 1 :=
  List.length_replicate _ _

/-- With `n = 0` the first pivot draw divides by zero. -/
theorem sort_zero_fault (K M : Nat) (T : Int) (lt : α → α → Bool)
    (stdSort : List α → List α) (rand : Nat → Nat) (omp : Omp) (e : MapSort α)
    (src : List α) (nt : Int) (hK : 2 ≤ K) (he : Shaped K M T e) (hT : T ≤ 2147483647)
    (h1 : 1 ≤ resolved omp nt) (h2 : resolved omp nt ≤ T) :
    sort K lt stdSort rand omp e src 0 nt = .error .divisionByZero := by
  obtain ⟨hme, hmt, htmp, hrng, hpiv, hpos, hhisto, hrows, hbgn, hfin⟩ := he
  obtain ⟨t, ht⟩ : ∃ t : Nat, resolved omp nt = (t : Int) :=
    ⟨(resolved omp nt).toNat, by omega⟩
  obtain ⟨B, E, hCR, -, -, -⟩ := ComputeRanges_ok
    { e with num_threads_ := resolved omp nt } 0 t (by omega) (by omega) (by omega) ht
    (by show t ≤ e.pos_bgn_.length; omega) (by show t ≤ e.pos_end_.length; omega)
  obtain ⟨k, hk⟩ : ∃ k, K - 1 = k + 1 := ⟨K - 2, by omega⟩
  rw [sort_unfold K lt stdSort rand omp e src 0 nt (by omega) h1 (by omega), hCR, ok_bind]
  simp only [ComputeHistogram, hk, forLoop, ComputeHistogram.pivot]
  rfl

end MapSort
end map_sort

namespace map_sort

variable {α : Type}

namespace MapSort

/-! ## Range coverage and worker-count invariance below `INT_MAX` -/

/-- For `n ≤ INT_MAX` the ranges of `ComputeRanges` are contiguous and cover `[0, n)`:
`bgn[0] = 0`, `end[t - 1] = n`, `end[i] = bgn[i + 1]` and `bgn[i] ≤ end[i]`. -/
theorem ComputeRanges_coverage (e : MapSort α) (n t : Nat) (hn : n < 2147483648) (ht : 1 ≤ t)
    (ht' : t < 2147483648) (hnt : e.num_threads_ = (t : Int))
    (hlB : t ≤ e.pos_bgn_.length) (hlE : t ≤ e.pos_end_.length) :
    ∃ e', ComputeRanges n e = .ok e' ∧
      e'.pos_bgn_[0]? = some 0 ∧ e'.pos_end_[t - 1]? = some (n : Int) ∧
      (∀ i, i + 1 < t → e'.pos_end_[i]? = e'.pos_bgn_[i + 1]?) ∧
      (∀ i, i < t → ∃ b f : Int, e'.pos_bgn_[i]? = some b ∧ e'.pos_end_[i]? = some f ∧
        0 ≤ b ∧ b ≤ f ∧ f ≤ n) := by
  obtain ⟨B, E, hrun, -, -, hBE⟩ := ComputeRanges_ok e n t hn ht ht' hnt hlB hlE
  refine ⟨_, hrun, ?_, ?_, ?_, ?_⟩
  · exact (hBE 0 (by omega)).1
  · have h := (hBE (t - 1) (by omega)).2
    have h2 : t - 1 + 1 = t := by omega
    rw [h2, bound_last n t ht] at h
    exact h
  · intro i hi
    show E[i]? = B[i + 1]?
    rw [(hBE i (by omega)).2, (hBE (i + 1) hi).1]
  · intro i hi
    have h1 := bound_mono_succ n t i
    have h2 := bound_le n t (i + 1) (by omega)
    exact ⟨_, _, (hBE i hi).1, (hBE i hi).2, by omega, by omega, by omega⟩

/-- For `n ≤ INT_MAX`, two runs on the same array and pivot draw with worker counts
`t1` and `t2` in `[1, T]` return the same array, whatever the engines hold. -/
theorem sort_worker_count_invariant (K M : Nat) (T : Int) (lt : α → α → Bool)
    (hlt : StrictWeakOrder lt) (stdSort : List α → List α) (hsort : SortContract lt stdSort)
    (rand : Nat → Nat) (omp1 omp2 : Omp) (e1 e2 : MapSort α) (src : List α) (n : Nat)
    (t1 t2 : Int) (hK : 1 ≤ K) (hK31 : K ≤ 2147483648) (he1 : Shaped K M T e1)
    (he2 : Shaped K M T e2) (hT : T ≤ 2147483647) (hn1 : 1 ≤ n) (hnM : n ≤ M)
    (hn : n < 2147483648) (hsrc : n ≤ src.length) (h11 : 1 ≤ t1) (h12 : t1 ≤ T)
    (h21 : 1 ≤ t2) (h22 : t2 ≤ T) :
    ∃ r1 r2, sort K lt stdSort rand omp1 e1 src n t1 = .ok r1 ∧
      sort K lt stdSort rand omp2 e2 src n t2 = .ok r2 ∧ r1.src = r2.src := by
  have hr1 : resolved omp1 t1 = t1 := by
    simp only [resolved]; rw [if_neg (by omega)]
  have hr2 : resolved omp2 t2 = t2 := by
    simp only [resolved]; rw [if_neg (by omega)]
  obtain ⟨r1, hrun1, -, -, hs1, -⟩ := sort_sorted_perm K M T lt hlt stdSort hsort rand omp1 e1
    src n t1 hK hK31 he1 hT hn1 hnM hn hsrc (by omega) (by omega)
  obtain ⟨r2, hrun2, -, -, hs2, -⟩ := sort_sorted_perm K M T lt hlt stdSort hsort rand omp2 e2
    src n t2 hK hK31 he2 hT hn1 hnM hn hsrc (by omega) (by omega)
  exact ⟨r1, r2, hrun1, hrun2, by rw [hs1, hs2]⟩

end MapSort
end map_sort

namespace map_sort

variable {α : Type}

theorem resolved_idem (omp : Omp) (nt : Int) :
    resolved { nthreads := resolved omp nt } nt = resolved omp nt := by
  simp only [resolved, utility.GetMaxThreads]
  by_cases h : nt = -1
  · rw [if_pos h, if_pos h]
  · rw [if_neg h, if_neg h]

namespace MapSort

/-- Claim C4: `Sort` on an engine of capacity `(M, T)` stops on a failed assertion
whenever `n > M`, or the worker count, once `-1` is resolved, is below 1 or above `T`;
this holds for any state of the buffers and any array, so no phase has run. -/
theorem sort_halts_on_violated_precondition (K : Nat) (lt : α → α → Bool)
    (stdSort : List α → List α) (rand : Nat → Nat) (omp : Omp) (e : MapSort α)
    (src : List α) (n : Nat) (nt : Int)
    (h : e.max_elems_ < n ∨ resolved omp nt < 1 ∨ e.max_threads_ < resolved omp nt) :
    sort K lt stdSort rand omp e src n nt = .error .assertion := by
  simp only [sort, resolved] at h ⊢
  by_cases h1 : n ≤ e.max_elems_
  · rw [if_neg (not_not.mpr h1)]
    have h2 : ¬((1 ≤ if nt = -1 then utility.GetMaxThreads omp else nt) ∧
        (if nt = -1 then utility.GetMaxThreads omp else nt) ≤ e.max_threads_) := by
      rintro ⟨h3, h4⟩
      rcases h with h | h | h <;> omega
    rw [if_pos h2]
  · rw [if_pos h1]

/-- Instances of claim C4: too many elements, a worker count of 0, a default worker count
above the capacity. -/
theorem sort_halts_on_violated_precondition_witness :
    sort 4 intLt intSort (fun i => i) { nthreads := 1 }
        ({ (new 4 : MapSort Int) with max_elems_ := 3, max_threads_ := 2 }) [3, 1, 2, 0] 4 1
      = .error .assertion ∧
    sort 4 intLt intSort (fun i => i) { nthreads := 1 }
        ({ (new 4 : MapSort Int) with max_elems_ := 3, max_threads_ := 2 }) [3, 1, 2] 3 0
      = .error .assertion ∧
    sort 4 intLt intSort (fun i => i) { nthreads := 8 }
        ({ (new 4 : MapSort Int) with max_elems_ := 3, max_threads_ := 2 }) [3, 1, 2] 3 (-1)
      = .error .assertion :=
  ⟨sort_halts_on_violated_precondition _ _ _ _ _ _ _ _ _ (Or.inl (by decide)),
    sort_halts_on_violated_precondition _ _ _ _ _ _ _ _ _ (Or.inr (Or.inl (by decide))),
    sort_halts_on_violated_precondition _ _ _ _ _ _ _ _ _ (Or.inr (Or.inr (by decide)))⟩

/-- Claim C5: `Init(maxElements, maxWorkers)` stops on a failed assertion when the
worker count is below 1, where `-1` first becomes the default of the runtime; otherwise
it succeeds, the capacity is `M = maxElements` and `T` the resolved worker count, and
the buffers have the sizes of that capacity. -/
theorem Init_capacity [Inhabited α] (K : Nat) (omp : Omp) (e : MapSort α) (M : Nat)
    (mt : Int) :
    resolved omp (-1) = utility.GetMaxThreads omp ∧ (mt ≠ -1 → resolved omp mt = mt) ∧
    (resolved omp mt < 1 → Init K omp e M mt = .error .assertion) ∧
    (1 ≤ resolved omp mt → ∃ e', Init K omp e M mt = .ok e' ∧
      e'.max_elems_ = M ∧ e'.max_threads_ = resolved omp mt ∧
      e'.tmp_.length = M ∧ e'.rng_.length = M ∧
      e'.histo_.length = (resolved omp mt).toNat ∧ (∀ row ∈ e'.histo_, row.length = K) ∧
      e'.pos_bgn_.length = (resolved omp mt).toNat ∧
      e'.pos_end_.length = (resolved omp mt).toNat) := by
  refine ⟨rfl, ?_, Init_fault K omp e M mt, ?_⟩
  · intro h
    simp only [resolved]
    rw [if_neg h]
  · intro h
    refine ⟨_, Init_ok K omp e M mt h, rfl, rfl, ?_, ?_, ?_, ?_, ?_, ?_⟩
    · exact List.length_replicate _ _
    · exact List.length_replicate _ _
    · exact List.length_replicate _ _
    · intro row hrow
      rw [List.eq_of_mem_replicate hrow]
      exact List.length_replicate _ _
    · exact List.length_replicate _ _
    · exact List.length_replicate _ _

/-- Claim C7, amended: when `<` is a total order (equivalent elements are equal) and
`n ≤ INT_MAX`, `Sort` leaves an array that is already non-decreasing as it is, and a
second `Sort`, with any pivot draw, returns the array the first one returned. -/
theorem sort_idempotent_total_order (K M : Nat) (T : Int) (lt : α → α → Bool)
    (hlt : StrictWeakOrder lt) (htot : ∀ a b, lt a b = false → lt b a = false → a = b)
    (stdSort : List α → List α) (hsort : SortContract lt stdSort) (rand rand' : Nat → Nat)
    (omp : Omp) (e : MapSort α) (src : List α) (n : Nat) (nt : Int) (hK : 1 ≤ K)
    (hK31 : K ≤ 2147483648) (he : Shaped K M T e) (hT : T ≤ 2147483647) (hn1 : 1 ≤ n)
    (hnM : n ≤ M) (hn : n < 2147483648) (hsrc : n ≤ src.length)
    (h1 : 1 ≤ resolved omp nt) (h2 : resolved omp nt ≤ T) :
    ∃ r, sort K lt stdSort rand omp e src n nt = .ok r ∧
      (Sorted lt (src.take n) → r.src = src) ∧
      ∃ r', sort K lt stdSort rand' r.omp r.engine r.src n nt = .ok r' ∧ r'.src = r.src := by
  obtain ⟨r, hrun, homp, hshape, hres⟩ := sort_total K M T lt hlt htot stdSort hsort rand omp e
    src n nt hK hK31 he hT hn1 hnM hn hsrc h1 h2
  have hlen : (stdSort (src.take n)).length = n := by
    rw [(hsort.perm _).length_eq, List.length_take]
    omega
  have hfix : ∀ l, Sorted lt l → stdSort l = l := fun l hl =>
    sorted_perm_unique lt htot (hsort.perm l) (hsort.sorted l) hl
  refine ⟨r, hrun, ?_, ?_⟩
  · intro hs
    rw [hres, hfix _ hs, List.take_append_drop]
  · have hr : resolved r.omp nt = resolved omp nt := by
      rw [homp]
      exact resolved_idem omp nt
    have hsrc' : n ≤ r.src.length := by
      rw [hres, List.length_append, hlen]
      omega
    obtain ⟨r', hrun', -, -, hres'⟩ := sort_total K M T lt hlt htot stdSort hsort rand' r.omp
      r.engine r.src n nt hK hK31 hshape hT hn1 hnM hn hsrc' (by omega) (by omega)
    refine ⟨r', hrun', ?_⟩
    have htake : r.src.take n = stdSort (src.take n) := by
      rw [hres, List.take_left' hlen]
    rw [hres', htake, hfix _ (hsort.sorted _)]
    rw [← htake, List.take_append_drop]

/-- An instance of claim C7 as amended: four sorted integers, two workers. -/
theorem sort_idempotent_total_order_witness :
    ∃ e, Init 4 { nthreads := 4 } (new 4) 10 4 = .ok e ∧
      ∃ r, sort 4 intLt intSort (fun i => 3 * i + 1) { nthreads := 4 } e [1, 2, 2, 5] 4 2
          = .ok r ∧
        (Sorted intLt (List.take 4 [1, 2, 2, 5]) → r.src = [1, 2, 2, 5]) ∧
        ∃ r', sort 4 intLt intSort (fun i => i) r.omp r.engine r.src 4 2 = .ok r' ∧
          r'.src = r.src := by
  obtain ⟨e, hI, hS⟩ := Init_shaped (α := Int) 4 { nthreads := 4 } (new 4) 10 4 (by decide)
    (new_piv_length 4) (new_pos_length 4)
  exact ⟨e, hI, sort_idempotent_total_order 4 10 _ intLt intLt_strictWeakOrder intLt_total
    intSort intSort_contract _ _ _ e _ 4 2 (by decide) (by decide) hS (by decide) (by decide)
    (by decide) (by decide) (by decide) (by decide) (by decide)⟩

set_option maxRecDepth 100000 in
/-- Claim C7 as stated fails for a strict weak order with distinct equivalent elements:
on `MapSort<record, 2>`, with records compared by their key and `std::sort` of libstdc++,
the sorted array of the 17 records `(0, 0), ..., (0, 16)` comes back with the record
`(0, 8)` first: a sorted permutation of the input that is not the input. It fails as well for a sorted array of `2^31` elements, where the `int`
range table wraps and `Sort` reads past the array. -/
theorem sort_reorders_equivalent_elements :
    StrictWeakOrder keyLt ∧
    Sorted keyLt [(0, 0), (0, 1), (0, 2), (0, 3), (0, 4), (0, 5), (0, 6), (0, 7), (0, 8),
      (0, 9), (0, 10), (0, 11), (0, 12), (0, 13), (0, 14), (0, 15), (0, 16)] ∧
    (∃ e r, Init 2 { nthreads := 1 } (new 2) 17 1 = .ok e ∧
      sort 2 keyLt (libstdcxx.sort keyLt) (fun _ => 0) { nthreads := 1 } e
        [(0, 0), (0, 1), (0, 2), (0, 3), (0, 4), (0, 5), (0, 6), (0, 7), (0, 8),
          (0, 9), (0, 10), (0, 11), (0, 12), (0, 13), (0, 14), (0, 15), (0, 16)] 17 1
        = .ok r ∧
      r.src = [(0, 8), (0, 16), (0, 15), (0, 14), (0, 13), (0, 12), (0, 11), (0, 10), (0, 9),
        (0, 0), (0, 7), (0, 6), (0, 5), (0, 4), (0, 3), (0, 2), (0, 1)] ∧
      r.src ≠ [(0, 0), (0, 1), (0, 2), (0, 3), (0, 4), (0, 5), (0, 6), (0, 7), (0, 8),
        (0, 9), (0, 10), (0, 11), (0, 12), (0, 13), (0, 14), (0, 15), (0, 16)] ∧
      List.Perm [(0, 8), (0, 16), (0, 15), (0, 14), (0, 13), (0, 12), (0, 11), (0, 10), (0, 9),
        (0, 0), (0, 7), (0, 6), (0, 5), (0, 4), (0, 3), (0, 2), (0, 1)]
        [(0, 0), (0, 1), (0, 2), (0, 3), (0, 4), (0, 5), (0, 6), (0, 7), (0, 8),
          (0, 9), (0, 10), (0, 11), (0, 12), (0, 13), (0, 14), (0, 15), (0, 16)] ∧
      Sorted keyLt [(0, 8), (0, 16), (0, 15), (0, 14), (0, 13), (0, 12), (0, 11), (0, 10), (0, 9),
        (0, 0), (0, 7), (0, 6), (0, 5), (0, 4), (0, 3), (0, 2), (0, 1)]) ∧
    Sorted intLt (List.replicate 2147483648 (5 : Int)) ∧
    (∃ e, Init 256 { nthreads := 1 } (new 256) 2147483648 1 = .ok e ∧
      sort 256 intLt intSort (fun i => 2 * i) { nthreads := 1 } e
        (List.replicate 2147483648 (5 : Int)) 2147483648 1 = .error .outOfBounds) := by
  refine ⟨keyLt_strictWeakOrder, by simp [Sorted, keyLt], ⟨_, _, rfl, rfl, rfl, by decide, by decide, by simp [Sorted, keyLt]⟩,
    ?_, ?_⟩
  · exact List.pairwise_replicate.mpr (Or.inr (by decide))
  · obtain ⟨e, hI, hS⟩ := Init_shaped (α := Int) 256 { nthreads := 1 } (new 256) 2147483648 1
      (by decide) (new_piv_length 256) (new_pos_length 256)
    exact ⟨e, hI, sort_fault_one_worker 256 2147483648 _ intLt intSort intSort_contract _ _ e
      _ 2147483648 1 (by decide) (by decide) hS (by decide) (Nat.le_refl _) (Nat.le_refl _)
      (by decide) (List.length_replicate _ _) rfl⟩

/-- Claim C9: the free function `Sort(data, n, t)` has the outcome of a fresh engine on
which `Init(n, t)` and then `Sort(data, n, t)` are called: the same halt, or the same
final array. -/
theorem free_sort_is_engine_used_once [Inhabited α] (lt : α → α → Bool)
    (stdSort : List α → List α) (rand : Nat → Nat) (omp : Omp) (data : List α) (n : Nat)
    (nt : Int) :
    map_sort.sort lt stdSort rand omp data n nt
      = (match Init 256 omp (new 256) n nt with
        | .error f => .error f
        | .ok e =>
          match sort 256 lt stdSort rand omp e data n nt with
          | .error f => .error f
          | .ok r => .ok (r.omp, r.src)) :=
  sort_free_unfold lt stdSort rand omp data n nt

end MapSort
end map_sort

namespace map_sort

namespace MapSort

/-! ## Arrays of `2^31` elements, and the empty array -/

/-- Claim C1 at its failing input: on an engine set up by `Init(2^31, 1)`, `Sort` of an
array of `2^31` elements with one worker does not return a sorted array; the `int`
entry `pos_end_[0]` wraps to `-2^31` and the histogram loop reads `src[2^31]`. -/
theorem sort_of_two_pow_31_elements_reads_out_of_bounds :
    ∃ e, Init 256 { nthreads := 1 } (new 256) 2147483648 1 = .ok e ∧
      sort 256 intLt intSort (fun _ => 0) { nthreads := 1 } e
        (List.replicate 2147483648 (0 : Int)) 2147483648 1 = .error .outOfBounds := by
  obtain ⟨e, hI, hS⟩ := Init_shaped (α := Int) 256 { nthreads := 1 } (new 256) 2147483648 1
    (by decide) (new_piv_length 256) (new_pos_length 256)
  exact ⟨e, hI, sort_fault_one_worker 256 2147483648 _ intLt intSort intSort_contract _ _ e _
    2147483648 1 (by decide) (by decide) hS (by decide) (Nat.le_refl _) (Nat.le_refl _)
    (by decide) (List.length_replicate _ _) rfl⟩

/-- Claim C2 at its failing input: the free function on an array of `2^31` elements,
one worker, returns no array at all, so no permutation of the input. -/
theorem free_sort_of_two_pow_31_elements_returns_nothing :
    map_sort.sort intLt intSort (fun i => i) { nthreads := 1 }
      (List.replicate 2147483648 (7 : Int)) 2147483648 1 = .error .outOfBounds := by
  obtain ⟨e, hI, hS⟩ := Init_shaped (α := Int) 256 { nthreads := 1 } (new 256) 2147483648 1
    (by decide) (new_piv_length 256) (new_pos_length 256)
  rw [sort_free_unfold, hI]
  dsimp only
  rw [sort_fault_one_worker 256 2147483648 _ intLt intSort intSort_contract _ _ e _
    2147483648 1 (by decide) (by decide) hS (by decide) (Nat.le_refl _) (Nat.le_refl _)
    (by decide) (List.length_replicate _ _) rfl]

/-- Claim C3 at its failing input: with `numElements = 0` the first pivot draw computes
`rand() % 0`; `Sort` does not return normally, on an engine of capacity 0 or 5. -/
theorem sort_of_zero_elements_divides_by_zero :
    (∃ e, Init 256 { nthreads := 1 } (new 256) 0 1 = .ok e ∧
      sort 256 intLt intSort (fun i => i) { nthreads := 1 } e [] 0 1
        = .error .divisionByZero) ∧
    (∃ e, Init 256 { nthreads := 4 } (new 256) 5 (-1) = .ok e ∧
      sort 256 intLt intSort (fun i => i) { nthreads := 4 } e [3, 1, 2] 0 2
        = .error .divisionByZero) := by
  constructor
  · obtain ⟨e, hI, hS⟩ := Init_shaped (α := Int) 256 { nthreads := 1 } (new 256) 0 1
      (by decide) (new_piv_length 256) (new_pos_length 256)
    exact ⟨e, hI, sort_zero_fault 256 0 _ intLt intSort _ _ e _ 1 (by decide) hS (by decide)
      (by decide) (by decide)⟩
  · obtain ⟨e, hI, hS⟩ := Init_shaped (α := Int) 256 { nthreads := 4 } (new 256) 5 (-1)
      (by decide) (new_piv_length 256) (new_pos_length 256)
    exact ⟨e, hI, sort_zero_fault 256 5 _ intLt intSort _ _ e _ 2 (by decide) hS (by decide)
      (by decide) (by decide)⟩

/-- Claim C6 at its failing input: an engine set up by `Init(2^31, 4)` sorts five
elements with four workers, and the next `Sort`, of `2^31` elements with one worker,
reads out of bounds. -/
theorem reused_engine_reads_out_of_bounds :
    ∃ e r, Init 256 { nthreads := 4 } (new 256) 2147483648 4 = .ok e ∧
      sort 256 intLt intSort (fun i => i) { nthreads := 4 } e [-1, 2, 0, -2, 1] 5 4 = .ok r ∧
      r.src = [-2, -1, 0, 1, 2] ∧
      sort 256 intLt intSort (fun i => i) r.omp r.engine
        (List.replicate 2147483648 (0 : Int)) 2147483648 1 = .error .outOfBounds := by
  obtain ⟨e, hI, hS⟩ := Init_shaped (α := Int) 256 { nthreads := 4 } (new 256) 2147483648 4
    (by decide) (new_piv_length 256) (new_pos_length 256)
  obtain ⟨r, hrun, -, hS', hres⟩ := sort_total 256 2147483648 _ intLt intLt_strictWeakOrder
    intLt_total intSort intSort_contract (fun i => i) { nthreads := 4 } e [-1, 2, 0, -2, 1] 5 4
    (by decide) (by decide) hS (by decide) (by decide) (by decide) (by decide) (by decide)
    (by decide) (by decide)
  refine ⟨e, r, hI, hrun, ?_, ?_⟩
  · rw [hres]
    decide
  · exact sort_fault_one_worker 256 2147483648 _ intLt intSort intSort_contract _ _ r.engine _
      2147483648 1 (by decide) (by decide) hS' (by decide) (Nat.le_refl _) (Nat.le_refl _)
      (by decide) (List.length_replicate _ _) rfl

/-- Claim C8 at its failing input: on an engine of capacity `(2^31, 8)` the single-worker
run on `2^31` elements reads out of bounds and produces no sequence of values for the
other runs to equal; and for `n = 2^32 + 5` the range tables of one worker cover `[0, 5)`
only, while those of two workers end the first range at `-2147483646`. -/
theorem single_worker_run_of_two_pow_31_elements_returns_nothing :
    (∃ e, Init 256 { nthreads := 8 } (new 256) 2147483648 (-1) = .ok e ∧
      sort 256 intLt intSort (fun i => 5 * i) { nthreads := 8 } e
        (List.replicate 2147483648 (1 : Int)) 2147483648 1 = .error .outOfBounds) ∧
    (∃ e, ComputeRanges 4294967301
        { (new 256 : MapSort Int) with num_threads_ := 1, pos_bgn_ := [0, 0],
                                        pos_end_ := [0, 0] }
        = .ok e ∧ e.pos_bgn_[0]? = some 0 ∧ e.pos_end_[0]? = some 5) ∧
    (∃ e, ComputeRanges 4294967301
        { (new 256 : MapSort Int) with num_threads_ := 2, pos_bgn_ := [0, 0],
                                        pos_end_ := [0, 0] }
        = .ok e ∧ e.pos_bgn_ = [0, -2147483646] ∧ e.pos_end_ = [-2147483646, 5]) := by
  refine ⟨?_, ⟨_, rfl, rfl, rfl⟩, ⟨_, rfl, rfl, rfl⟩⟩
  obtain ⟨e, hI, hS⟩ := Init_shaped (α := Int) 256 { nthreads := 8 } (new 256) 2147483648 (-1)
    (by decide) (new_piv_length 256) (new_pos_length 256)
  exact ⟨e, hI, sort_fault_one_worker 256 2147483648 _ intLt intSort intSort_contract _ _ e _
    2147483648 1 (by decide) (by decide) hS (by decide) (Nat.le_refl _) (Nat.le_refl _)
    (by decide) (List.length_replicate _ _) rfl⟩

/-- Claim C10 at its failing input: for `n = 2^31` and one worker, `ComputeRanges`
leaves `end[0] = -2^31`, not `n`, and for two workers `end[1] = -2^31`. -/
theorem ComputeRanges_of_two_pow_31_wraps :
    (∃ e, ComputeRanges 2147483648
        { (new 256 : MapSort Int) with num_threads_ := 1, pos_bgn_ := [0], pos_end_ := [0] }
        = .ok e ∧ e.pos_bgn_ = [0] ∧ e.pos_end_ = [-2147483648]) ∧
    (∃ e, ComputeRanges 2147483648
        { (new 256 : MapSort Int) with num_threads_ := 2, pos_bgn_ := [0, 0],
                                        pos_end_ := [0, 0] }
        = .ok e ∧ e.pos_bgn_ = [0, 1073741824] ∧ e.pos_end_ = [1073741824, -2147483648]) := by
  constructor
  · exact ⟨_, rfl, rfl, rfl⟩
  · exact ⟨_, rfl, rfl, rfl⟩

end MapSort
end map_sort

namespace map_sort

variable {α : Type}

/-! ## Bucket ids -/

/-- The bucket id of `x` on sorted pivots is the one index `b` such that every pivot
before `b` is less than `x` and the pivot at `b`, if there is one, is not. -/
theorem lower_bound_eq_iff {lt : α → α → Bool} (h : StrictWeakOrder lt) {a : List α}
    (hs : Sorted lt a) (x : α) (b : Nat) :
    lower_bound lt a x = b ↔ b ≤ a.length ∧
      (∀ (i : Nat) (v : α), i < b → a[i]? = some v → lt v x = true) ∧
      (∀ v : α, a[b]? = some v → lt v x = false) := by
  constructor
  · rintro rfl
    exact ⟨lower_bound_le lt a x, fun i v hi hv => lower_bound_before h hs x i v hi hv,
      fun v hv => lower_bound_from h hs x _ v (Nat.le_refl _) hv⟩
  · rintro ⟨hb, h1, h2⟩
    have hk := lower_bound_le lt a x
    rcases Nat.lt_trichotomy (lower_bound lt a x) b with hlt | heq | hgt
    · have hv : a[lower_bound lt a x]? = some a[lower_bound lt a x] :=
        List.getElem?_eq_getElem (by omega)
      have t1 := h1 _ _ hlt hv
      have t2 := lower_bound_from h hs x _ _ (Nat.le_refl _) hv
      rw [t1] at t2
      cases t2
    · exact heq
    · have hv : a[b]? = some a[b] := List.getElem?_eq_getElem (by omega)
      have t1 := lower_bound_before h hs x b _ hgt hv
      have t2 := h2 _ hv
      rw [t1] at t2
      cases t2

/-- The bucket id of `x` is the number of pivots less than `x`. -/
theorem lower_bound_countP {lt : α → α → Bool} (h : StrictWeakOrder lt) {a : List α}
    (hs : Sorted lt a) (x : α) :
    lower_bound lt a x = a.countP (fun p => lt p x) := by
  have hk := lower_bound_le lt a x
  have h1 : (a.take (lower_bound lt a x)).countP (fun p => lt p x) = lower_bound lt a x := by
    have hl : (a.take (lower_bound lt a x)).length = lower_bound lt a x := by
      rw [List.length_take]
      omega
    have hall : ∀ v ∈ a.take (lower_bound lt a x), (fun p => lt p x) v = true := by
      intro v hv
      obtain ⟨i, hi⟩ := List.mem_iff_getElem?.mp hv
      rw [List.getElem?_take] at hi
      by_cases hlt : i < lower_bound lt a x
      · rw [if_pos hlt] at hi
        exact lower_bound_before h hs x i v hlt hi
      · rw [if_neg hlt] at hi
        cases hi
    exact (List.countP_eq_length.mpr hall).trans hl
  have h2 : (a.drop (lower_bound lt a x)).countP (fun p => lt p x) = 0 := by
    rw [List.countP_eq_zero]
    intro v hv
    obtain ⟨i, hi⟩ := List.mem_iff_getElem?.mp hv
    rw [List.getElem?_drop] at hi
    rw [lower_bound_from h hs x _ v (Nat.le_add_right _ i) hi]
    exact Bool.false_ne_true
  conv_rhs => rw [← List.take_append_drop (lower_bound lt a x) a]
  rw [List.countP_append, h1, h2, Nat.add_zero]

/-- The bucket id of `x` is the index of the first pivot that is not less than `x`, the
number of pivots when there is none. -/
theorem lower_bound_findIdx {lt : α → α → Bool} (h : StrictWeakOrder lt) {a : List α}
    (hs : Sorted lt a) (x : α) :
    lower_bound lt a x = a.findIdx (fun p => !lt p x) := by
  have hk := lower_bound_le lt a x
  symm
  by_cases hlt : lower_bound lt a x < a.length
  · rw [List.findIdx_eq hlt]
    constructor
    · rw [lower_bound_from h hs x _ _ (Nat.le_refl _) (List.getElem?_eq_getElem hlt)]
      rfl
    · intro j hj
      rw [lower_bound_before h hs x j _ hj (List.getElem?_eq_getElem (by omega))]
      rfl
  · have heq : lower_bound lt a x = a.length := by omega
    rw [heq, List.findIdx_eq_length]
    intro v hv
    obtain ⟨i, hi⟩ := List.mem_iff_getElem?.mp hv
    have hil : i < a.length := by
      by_contra hc
      rw [List.getElem?_eq_none (by omega)] at hi
      cases hi
    rw [lower_bound_before h hs x i v (by omega) hi]
    rfl

/-- Bucket `b > 0` in terms of the two pivots around it: the pivot before `b` is less
than `x`, the pivot at `b`, if there is one, is not. -/
theorem lower_bound_eq_succ_iff {lt : α → α → Bool} (h : StrictWeakOrder lt) {a : List α}
    (hs : Sorted lt a) (x : α) (b : Nat) :
    lower_bound lt a x = b + 1 ↔
      (∃ u : α, a[b]? = some u ∧ lt u x = true) ∧
      (∀ v : α, a[b + 1]? = some v → lt v x = false) := by
  rw [lower_bound_eq_iff h hs x (b + 1)]
  constructor
  · rintro ⟨hb, h1, h2⟩
    have hv : a[b]? = some a[b] := List.getElem?_eq_getElem (by omega)
    exact ⟨⟨a[b], hv, h1 b _ (by omega) hv⟩, h2⟩
  · rintro ⟨⟨u, hu, hux⟩, h2⟩
    have hb : b < a.length := by
      by_contra hc
      rw [List.getElem?_eq_none (by omega)] at hu
      cases hu
    refine ⟨by omega, ?_, h2⟩
    intro i v hi hv
    exact Sorted.partitioned h hs x i b (by omega) v u hv hu hux

namespace MapSort

/-- One iteration of the histogram loop on any engine: it records the bucket id
`lower_bound(piv_, x)` of `x = src[i]` in `rng_[i]` and leaves the pivots alone. -/
theorem count_records (K : Nat) (lt : α → α → Bool) (src : List α) (e : MapSort α)
    (my_id i : Nat) (x : α) (hx : src[i]? = some x) (hR : i < e.rng_.length)
    (hj : my_id < e.histo_.length) (hrows : ∀ r ∈ e.histo_, r.length = K)
    (hK : e.piv_.length < K) (hK31 : K ≤ 2147483648) :
    ∃ e', ComputeHistogram.count lt src my_id i e = .ok e' ∧
      e'.rng_[i]? = some (lower_bound lt e.piv_ x) ∧ e'.piv_ = e.piv_ :=
  ⟨_, count_ok K lt src e e.rng_ e.histo_ my_id i x hx hR hj hrows hK hK31,
    List.getElem?_set_self hR, rfl⟩

end MapSort
end map_sort

namespace map_sort

variable {α : Type}

/-! ## Balance of the ranges -/

/-- What is left after `j` of `t` ranges lies between `n / t` and `n / t + 1` elements
for each of the `t - j` remaining workers. -/
theorem bound_rest (n t : Nat) (ht : 0 < t) :
    ∀ j, j ≤ t → bound n t j ≤ n ∧ n / t * (t - j) ≤ n - bound n t j ∧
      n - bound n t j ≤ (n / t + 1) * (t - j) := by
  intro j
  induction j with
  | zero =>
    intro _
    refine ⟨Nat.zero_le _, ?_, ?_⟩
    · simp only [bound, Nat.sub_zero]
      exact Nat.div_mul_le_self n t
    · simp only [bound, Nat.sub_zero]
      have := Nat.lt_div_mul_add ht (a := n)
      rw [Nat.add_mul, Nat.one_mul]
      omega
  | succ j ih =>
    intro hj
    obtain ⟨h0, h1, h2⟩ := ih (by omega)
    obtain ⟨d, hd⟩ : ∃ d, t - j = d + 1 := ⟨t - j - 1, by omega⟩
    have hd' : t - (j + 1) = d := by omega
    have hdm := Nat.div_add_mod (n - bound n t j) (d + 1)
    have hml := Nat.mod_lt (n - bound n t j) (Nat.succ_pos d)
    generalize hq : n / t = q at h1 h2 ⊢
    generalize hr : n - bound n t j = r at h1 h2 hdm hml
    generalize hs : r / (d + 1) = s at hdm
    generalize hm : r % (d + 1) = m at hdm hml
    rw [hd] at h1 h2
    have hsr : s ≤ r := by
      rw [← hdm, Nat.mul_comm, Nat.mul_succ]
      omega
    have hqs : q ≤ s := by
      by_contra hc
      have : (s + 1) * (d + 1) ≤ q * (d + 1) := Nat.mul_le_mul_right _ (by omega)
      rw [Nat.add_mul, Nat.one_mul, Nat.mul_comm s] at this
      omega
    have hsq : s ≤ q + 1 := by
      by_contra hc
      have : (q + 2) * (d + 1) ≤ s * (d + 1) := Nat.mul_le_mul_right _ (by omega)
      rw [Nat.mul_comm s] at this
      have h3 : (q + 2) * (d + 1) = (q + 1) * (d + 1) + (d + 1) := by ring
      omega
    have hb : bound n t (j + 1) = bound n t j + s := by
      simp only [bound]
      rw [hr, hd, hs]
    have hrest : n - bound n t (j + 1) = r - s := by
      rw [hb]
      omega
    rw [hrest, hd']
    refine ⟨by rw [hb]; omega, ?_, ?_⟩
    · have h3 : q * d ≤ s * d := Nat.mul_le_mul_right _ hqs
      have h4 : (d + 1) * s = s * d + s := by ring
      omega
    · have h4 : (d + 1) * s = s * d + s := by ring
      rcases Nat.lt_or_ge s (q + 1) with h5 | h5
      · have h6 : s * d ≤ q * d := Nat.mul_le_mul_right _ (by omega)
        have h7 : (q + 1) * d = q * d + d := by ring
        omega
      · have h6 : s = q + 1 := by omega
        subst h6
        have h7 : (q + 1) * (d + 1) = (q + 1) * d + (q + 1) := by ring
        omega

/-- Every range has `n / t` or `n / t + 1` elements. -/
theorem bound_size (n t : Nat) (j : Nat) (hj : j < t) :
    bound n t j ≤ bound n t (j + 1) ∧ n / t ≤ bound n t (j + 1) - bound n t j ∧
      bound n t (j + 1) - bound n t j ≤ n / t + 1 := by
  obtain ⟨h0, h1, h2⟩ := bound_rest n t (by omega) j (by omega)
  have hm := bound_mono_succ n t j
  have hpos : 0 < t - j := by omega
  have hb : bound n t (j + 1) - bound n t j = (n - bound n t j) / (t - j) := by
    show bound n t j + (n - bound n t j) / (t - j) - bound n t j = _
    exact Nat.add_sub_cancel_left _ _
  rw [hb]
  refine ⟨hm, (Nat.le_div_iff_mul_le hpos).mpr h1, ?_⟩
  apply Nat.div_le_of_le_mul
  rw [Nat.mul_comm]
  exact h2

namespace MapSort

/-- For `n ≤ INT_MAX` the sizes `end[i] - bgn[i]` of the ranges of `ComputeRanges` are
`n / t` or `n / t + 1`: any two differ by at most one. -/
theorem ComputeRanges_balance (e : MapSort α) (n t : Nat) (hn : n < 2147483648) (ht : 1 ≤ t)
    (ht' : t < 2147483648) (hnt : e.num_threads_ = (t : Int))
    (hlB : t ≤ e.pos_bgn_.length) (hlE : t ≤ e.pos_end_.length) :
    ∃ e', ComputeRanges n e = .ok e' ∧
      (∀ i, i < t → ∃ b f : Int, e'.pos_bgn_[i]? = some b ∧ e'.pos_end_[i]? = some f ∧
        ((n / t : Nat) : Int) ≤ f - b ∧ f - b ≤ ((n / t : Nat) : Int) + 1) ∧
      (∀ i j, i < t → j < t → ∃ bi fi bj fj : Int,
        e'.pos_bgn_[i]? = some bi ∧ e'.pos_end_[i]? = some fi ∧
        e'.pos_bgn_[j]? = some bj ∧ e'.pos_end_[j]? = some fj ∧
        fi - bi ≤ fj - bj + 1) := by
  obtain ⟨B, E, hrun, -, -, hBE⟩ := ComputeRanges_ok e n t hn ht ht' hnt hlB hlE
  have key : ∀ i, i < t → ∃ b f : Int, B[i]? = some b ∧ E[i]? = some f ∧
      ((n / t : Nat) : Int) ≤ f - b ∧ f - b ≤ ((n / t : Nat) : Int) + 1 := by
    intro i hi
    obtain ⟨h1, h2, h3⟩ := bound_size n t i hi
    exact ⟨_, _, (hBE i hi).1, (hBE i hi).2, by omega, by omega⟩
  refine ⟨_, hrun, key, ?_⟩
  intro i j hi hj
  obtain ⟨bi, fi, h1, h2, h3, h4⟩ := key i hi
  obtain ⟨bj, fj, h5, h6, h7, h8⟩ := key j hj
  exact ⟨bi, fi, bj, fj, h1, h2, h5, h6, by omega⟩

end MapSort
end map_sort

namespace map_sort

variable {α : Type}

/-- The counts of one bucket over the first `j` ranges add up to the count over the
elements before range `j`. -/
theorem colSum_eq_cnt (lt : α → α → Bool) (piv src : List α) (H : List (List Nat))
    (m t b : Nat)
    (hcol : ∀ j, j < t → cell H j b + cnt lt piv src b (bound m t j)
      = cnt lt piv src b (bound m t (j + 1))) :
    ∀ j, j ≤ t → colSum H b j = cnt lt piv src b (bound m t j) := by
  intro j
  induction j with
  | zero =>
    intro _
    simp [colSum, bound, cnt_zero]
  | succ j ih =>
    intro hj
    have h1 := ih (by omega)
    have h2 := hcol j (by omega)
    simp only [colSum] at h1 ⊢
    rw [List.range_succ, List.map_append, List.sum_append, h1]
    simp only [List.map_cons, List.map_nil, List.sum_cons, List.sum_nil, Nat.add_zero]
    omega

namespace MapSort

/-! ## `ComputeHistogram` on ranges that end at `m` -/

/-- The run of `ComputeHistogram(src, n)` when the range tables hold the ranges of `m`
elements, `m ≤ INT_MAX`: the pivots are drawn from all `n` elements, the first `m`
elements are tagged and counted, `pos_[b]` for `b < K` is the number of those with a
bucket id below `b`, and `pos_[K] = n`. `H1` is the table of local counts, `H'` the
table of write cursors. -/
theorem ComputeHistogram_ranges (K : Nat) (lt : α → α → Bool) (stdSort : List α → List α)
    (hsort : SortContract lt stdSort) (rand : Nat → Nat) (src : List α) (n m t : Nat)
    (e : MapSort α) (hK : 1 ≤ K) (hK31 : K ≤ 2147483648) (hn1 : 1 ≤ n)
    (hsrc : n ≤ src.length) (hm : m < 2147483648) (hmsrc : m ≤ src.length) (ht : 1 ≤ t)
    (hnt : e.num_threads_ = (t : Int))
    (hB : ∀ j, j < t → e.pos_bgn_[j]? = some (bound m t j : Int) ∧
      e.pos_end_[j]? = some (bound m t (j + 1) : Int))
    (hpiv : e.piv_.length = K - 1) (hpos : e.pos_.length = K + 1)
    (hrng : m ≤ e.rng_.length) (hH : t ≤ e.histo_.length)
    (hrows : ∀ r ∈ e.histo_, r.length = K) :
    ∃ R' H1 Pos0 H',
      forLoop (ComputeHistogram.block K lt src) 0 t
          { e with piv_ := stdSort (samplePivots K rand src n) }
        = .ok { e with piv_ := stdSort (samplePivots K rand src n), rng_ := R',
                       histo_ := H1 } ∧
      forLoop ComputeHistogram.outer 0 K
          ({ e with piv_ := stdSort (samplePivots K rand src n), rng_ := R',
                    histo_ := H1 }, 0)
        = .ok ({ e with piv_ := stdSort (samplePivots K rand src n), rng_ := R',
                        pos_ := Pos0, histo_ := H' },
               below lt (stdSort (samplePivots K rand src n)) (src.take m) K) ∧
      ComputeHistogram K lt stdSort rand src n e
        = .ok { e with piv_ := stdSort (samplePivots K rand src n), rng_ := R',
                       pos_ := Pos0.set K n, histo_ := H' } ∧
      R'.length = e.rng_.length ∧ Pos0.length = K + 1 ∧ H'.length = e.histo_.length ∧
      (∀ r ∈ H', r.length = K) ∧
      (∀ (i : Nat) (x : α), i < m → src[i]? = some x →
        R'[i]? = some (lower_bound lt (stdSort (samplePivots K rand src n)) x)) ∧
      (∀ j b : Nat, j < t → b < K →
        cell H1 j b + cnt lt (stdSort (samplePivots K rand src n)) src b (bound m t j)
          = cnt lt (stdSort (samplePivots K rand src n)) src b (bound m t (j + 1))) ∧
      (∀ b : Nat, b < K →
        (Pos0.set K n)[b]?
          = some (below lt (stdSort (samplePivots K rand src n)) (src.take m) b)) ∧
      (Pos0.set K n)[K]? = some n ∧
      (∀ j b : Nat, j < t → b < K → cell H' j b
        = below lt (stdSort (samplePivots K rand src n)) (src.take m) b
          + cnt lt (stdSort (samplePivots K rand src n)) src b (bound m t j)) := by
  have hpl : (stdSort (samplePivots K rand src n)).length = K - 1 := by
    rw [(hsort.perm _).length_eq]
    exact (samplePivots_spec K rand src n hn1 hsrc).1
  obtain ⟨R1, H1, h1, hR1, hH1, hrows1, htag1, hcol1⟩ := hist_local_ok K lt src
    { e with piv_ := stdSort (samplePivots K rand src n) } e.rng_ e.histo_ m t ht hB hmsrc hrng
    hm hH hrows (by show (stdSort (samplePivots K rand src n)).length < K; omega) hK31
  obtain ⟨Pos2, H2, h2, hPos2, hH2, hrows2, hposv2, hcur2⟩ := hist_global_ok lt src
    { e with piv_ := stdSort (samplePivots K rand src n), rng_ := R1 } e.pos_ H1 K m t hnt ht
    hcol1 hpos (by omega) hrows1
  have hcnt : e.num_threads_.toNat = t := by omega
  refine ⟨R1, H1, Pos2, H2, h1, h2, ?_, hR1, hPos2, by omega, hrows2, htag1, hcol1, ?_, ?_,
    hcur2⟩
  · simp only [ComputeHistogram]
    rw [pivots_ok K rand src n e hn1 hsrc hpiv]
    simp only [ok_bind, hcnt]
    rw [show forLoop (ComputeHistogram.block K lt src) 0 t
        { e with piv_ := stdSort (samplePivots K rand src n) } = _ from h1]
    simp only [ok_bind]
    rw [show forLoop ComputeHistogram.outer 0 K
        ({ e with piv_ := stdSort (samplePivots K rand src n), rng_ := R1,
                  histo_ := H1 }, 0) = _ from h2]
    simp only [ok_bind]
    rw [store_of_lt Pos2 K n (by omega)]
    simp only [ok_bind, pure_eq_ok]
  · intro b hb
    rw [List.getElem?_set_ne (by omega)]
    exact hposv2 b hb
  · exact List.getElem?_set_self (by omega)

end MapSort
end map_sort

namespace map_sort

variable {α : Type}

/-! ## The record of the writes of `Scatter` -/

/-- A loop that carries a record along returns the state of the loop without it. -/
theorem forLoop_map_fst {σ τ : Type} (body : Nat → σ → Except Fault σ)
    (body' : Nat → σ × τ → Except Fault (σ × τ))
    (h : ∀ i s l, Except.map Prod.fst (body' i (s, l)) = body i s) :
    ∀ (cnt lo : Nat) (s : σ) (l : τ),
      Except.map Prod.fst (forLoop body' lo cnt (s, l)) = forLoop body lo cnt s := by
  intro cnt
  induction cnt with
  | zero =>
    intro lo s l
    rfl
  | succ cnt ih =>
    intro lo s l
    have h1 := h lo s l
    simp only [forLoop]
    cases h2 : body' lo (s, l) with
    | error f =>
      rw [h2] at h1
      rw [← h1]
      rfl
    | ok p =>
      rw [h2] at h1
      rw [← h1]
      exact ih (lo + 1) p.1 p.2

namespace MapSort

theorem moveLog_fst (src : List α) (my_id i : Nat) (e : MapSort α) (l : List (Nat × Nat)) :
    Except.map Prod.fst (Scatter.moveLog src my_id i (e, l)) = Scatter.move src my_id i e := by
  simp only [Scatter.moveLog, Scatter.target, Scatter.move]
  cases h1 : load e.rng_ i with
  | error f => rfl
  | ok r =>
    rw [ok_bind, ok_bind]
    cases h2 : load e.histo_ my_id with
    | error f => rfl
    | ok row =>
      rw [ok_bind, ok_bind]
      cases h3 : loadI row (toInt r) with
      | error f => rfl
      | ok c =>
        rw [ok_bind, ok_bind]
        cases h4 : load src i with
        | error f => rfl
        | ok x =>
          rw [ok_bind]
          cases h5 : store e.tmp_ c x with
          | error f => rfl
          | ok tmp =>
            rw [ok_bind]
            cases h6 : storeI row (toInt r) (c + 1) with
            | error f => rfl
            | ok row' => rfl

theorem blockLog_fst (src : List α) (my_id : Nat) (e : MapSort α) (l : List (Nat × Nat)) :
    Except.map Prod.fst (Scatter.blockLog src my_id (e, l)) = Scatter.block src my_id e := by
  simp only [Scatter.blockLog, Scatter.block]
  cases h1 : load e.pos_bgn_ my_id with
  | error f => rfl
  | ok b =>
    rw [ok_bind, ok_bind]
    cases h2 : load e.pos_end_ my_id with
    | error f => rfl
    | ok f =>
      rw [ok_bind, ok_bind]
      cases h3 : load e.histo_ my_id with
      | error f => rfl
      | ok row =>
        rw [ok_bind, ok_bind]
        exact forLoop_map_fst _ _ (moveLog_fst src my_id) _ _ e l

/-- The engine that `Scatter` with the record returns is the engine `Scatter` returns,
and one faults when the other does. -/
theorem Scatter_log_fst (src : List α) (e : MapSort α) :
    Except.map Prod.fst (Scatter.log src e) = Scatter src e :=
  forLoop_map_fst _ _ (blockLog_fst src) _ _ e []

theorem target_ok (e : MapSort α) (Tm : List α) (H : List (List Nat))
    (K j i k : Nat) (hk : e.rng_[i]? = some k)
    (hkK : k < K) (hK31 : K ≤ 2147483648) (hj : j < H.length)
    (hrows : ∀ r ∈ H, r.length = K) :
    Scatter.target j i { e with tmp_ := Tm, histo_ := H } = .ok (cell H j k) := by
  have hrow : (H.getD j []).length = K := by
    apply hrows
    rw [List.getD_eq_getElem _ _ hj]
    exact List.getElem_mem hj
  have hcl : load (H.getD j []) k = .ok (cell H j k) := by
    rw [load_getD (H.getD j []) k 0 (by omega)]
    simp only [cell]
  simp only [Scatter.target]
  rw [load_of_getElem? _ _ _ hk, ok_bind, load_getD H j [] hj, ok_bind,
    toInt_of_lt k (by omega), loadI_natCast, hcl]

end MapSort
end map_sort

namespace map_sort

variable {α : Type}

theorem slot_eq (lt : α → α → Bool) (piv src : List α) (n i : Nat) (x : α)
    (hx : src[i]? = some x) :
    slot lt piv src n i
      = below lt piv (src.take n) (lower_bound lt piv x)
        + cnt lt piv src (lower_bound lt piv x) i := by
  simp only [slot, hx]

namespace MapSort

theorem moveLog_ok (src : List α) (e : MapSort α) (Tm : List α) (H : List (List Nat))
    (L : List (Nat × Nat)) (K j i k : Nat) (x : α) (hx : src[i]? = some x)
    (hk : e.rng_[i]? = some k) (hkK : k < K) (hK31 : K ≤ 2147483648) (hj : j < H.length)
    (hrows : ∀ r ∈ H, r.length = K) (hc : cell H j k < Tm.length) :
    Scatter.moveLog src j i ({ e with tmp_ := Tm, histo_ := H }, L)
      = .ok ({ e with
          tmp_ := Tm.set (cell H j k) x
          histo_ := H.set j ((H.getD j []).set k (cell H j k + 1)) },
        L ++ [(i, cell H j k)]) := by
  simp only [Scatter.moveLog]
  rw [target_ok e Tm H K j i k hk hkK hK31 hj hrows, ok_bind,
    move_ok src e Tm H K j i k x hx hk hkK hK31 hj hrows hc, ok_bind, pure_eq_ok]

/-- The block of thread `j` writes source index `i` of its range to scratch index
`slot i`, in ascending order of `i`, and writes nothing from index `n` on. -/
theorem scatter_block_log (K : Nat) (lt : α → α → Bool) (src : List α) (e : MapSort α)
    (Tm : List α) (H : List (List Nat)) (L : List (Nat × Nat)) (n j lo hi : Nat)
    (hlo : e.pos_bgn_[j]? = some (lo : Int)) (hhi : e.pos_end_[j]? = some (hi : Int))
    (hle : lo ≤ hi) (hhn : hi ≤ n) (hsrc : n ≤ src.length) (hn : n < 2147483648)
    (htag : ∀ (i : Nat) (x : α), i < n → src[i]? = some x →
      e.rng_[i]? = some (lower_bound lt e.piv_ x))
    (hK : e.piv_.length < K) (hK31 : K ≤ 2147483648) (hTm : n ≤ Tm.length)
    (hj : j < H.length) (hrows : ∀ r ∈ H, r.length = K)
    (hrow : ∀ b, b < K → cell H j b
      = below lt e.piv_ (src.take n) b + cnt lt e.piv_ src b lo) :
    ∃ Tm' H', Scatter.blockLog src j ({ e with tmp_ := Tm, histo_ := H }, L)
        = .ok ({ e with tmp_ := Tm', histo_ := H' },
          L ++ (List.range' lo (hi - lo)).map (fun i => (i, slot lt e.piv_ src n i))) ∧
      Tm'.length = Tm.length ∧ H'.length = H.length ∧ (∀ r ∈ H', r.length = K) ∧
      (∀ j' b : Nat, j' ≠ j → cell H' j' b = cell H j' b) ∧
      (∀ p : Nat, n ≤ p → Tm'[p]? = Tm[p]?) := by
  obtain ⟨s, hs, Tm', H', rfl, hTm', hH', hrows', hother, hrow', hframe⟩ :=
    forLoop_inv (Scatter.moveLog src j)
    (fun i s => ∃ Tm' H', s = ({ e with tmp_ := Tm', histo_ := H' },
        L ++ (List.range' lo (i - lo)).map (fun i => (i, slot lt e.piv_ src n i))) ∧
      Tm'.length = Tm.length ∧ H'.length = H.length ∧ (∀ r ∈ H', r.length = K) ∧
      (∀ j' b : Nat, j' ≠ j → cell H' j' b = cell H j' b) ∧
      (∀ b, b < K → cell H' j b
        = below lt e.piv_ (src.take n) b + cnt lt e.piv_ src b i) ∧
      (∀ p : Nat, n ≤ p → Tm'[p]? = Tm[p]?))
    (hi - lo) lo ({ e with tmp_ := Tm, histo_ := H }, L)
    ⟨Tm, H, by simp, rfl, rfl, hrows, fun _ _ _ => rfl, hrow, fun _ _ => rfl⟩
    (by
      rintro i s hi1 hi2 ⟨Tm', H', rfl, hTm', hH', hrows', hother, hrow', hframe⟩
      have hil : i < src.length := by omega
      have hx : src[i]? = some src[i] := List.getElem?_eq_getElem hil
      have hk := lower_bound_le lt e.piv_ src[i]
      have hkK : lower_bound lt e.piv_ src[i] < K := by omega
      have hcell := hrow' _ hkK
      have hlt := cursor_lt lt e.piv_ src n i (by omega) src[i] hx
      have hPn : below lt e.piv_ (src.take n) (lower_bound lt e.piv_ src[i] + 1) ≤ n := by
        have := below_le_length lt e.piv_ (src.take n) (lower_bound lt e.piv_ src[i] + 1)
        rw [List.length_take] at this
        omega
      have hrowl : (H'.getD j []).length = K := by
        apply hrows'
        rw [List.getD_eq_getElem _ _ (by omega)]
        exact List.getElem_mem _
      have hstep : i + 1 - lo = (i - lo) + 1 := by omega
      have hidx : lo + 1 * (i - lo) = i := by omega
      refine ⟨_, moveLog_ok src e Tm' H' _ K j i _ src[i] hx (htag i src[i] (by omega) hx) hkK
        hK31 (by omega) hrows' (by omega),
        Tm'.set (cell H' j (lower_bound lt e.piv_ src[i])) src[i],
        H'.set j ((H'.getD j []).set (lower_bound lt e.piv_ src[i])
          (cell H' j (lower_bound lt e.piv_ src[i]) + 1)),
        ?_, by simp [hTm'], by simp [hH'],
        rows_set H' K j _ hrows' (by rw [List.length_set]; exact hrowl), ?_, ?_, ?_⟩
      · rw [hstep, List.range'_concat, List.map_append, ← List.append_assoc, hidx]
        simp only [List.map_cons, List.map_nil]
        rw [slot_eq lt e.piv_ src n i src[i] hx, hcell]
      · intro j' b hne
        rw [cell_set H' j _ j' b (by omega), if_neg hne]
        exact hother j' b hne
      · intro b hb
        rw [cell_set H' j _ j b (by omega), if_pos rfl, getD_set _ _ _ _ (by omega),
          cnt_succ lt e.piv_ src b i hil]
        by_cases hEq : b = lower_bound lt e.piv_ src[i]
        · subst hEq
          rw [if_pos rfl, if_pos rfl, hcell]
          omega
        · rw [if_neg hEq, if_neg (Ne.symm hEq)]
          exact hrow' b hb
      · intro p hp
        rw [List.getElem?_set_ne (by omega)]
        exact hframe p hp)
  have hlohi : lo + (hi - lo) = hi := by omega
  rw [hlohi] at hs
  refine ⟨Tm', H', ?_, hTm', hH', hrows', hother, hframe⟩
  simp only [Scatter.blockLog]
  rw [load_of_getElem? _ _ _ hlo, ok_bind, load_of_getElem? _ _ _ hhi, ok_bind,
    load_getD H j [] hj, ok_bind, toSize_natCast lo (by omega),
    toSize_natCast hi (by omega), hs]

/-- The record of `Scatter` on ranges that end at `n ≤ INT_MAX`: the source indices
`0, ..., n - 1` in ascending order, each with the scratch index `slot i`; no scratch
index from `n` on is written. -/
theorem Scatter_log_ok (K : Nat) (lt : α → α → Bool) (src : List α) (e : MapSort α)
    (Tm : List α) (H : List (List Nat)) (n t : Nat) (ht : 1 ≤ t)
    (hnt : e.num_threads_ = (t : Int))
    (hB : ∀ j, j < t → e.pos_bgn_[j]? = some (bound n t j : Int) ∧
      e.pos_end_[j]? = some (bound n t (j + 1) : Int))
    (hsrc : n ≤ src.length) (hn : n < 2147483648)
    (htag : ∀ (i : Nat) (x : α), i < n → src[i]? = some x →
      e.rng_[i]? = some (lower_bound lt e.piv_ x))
    (hK : e.piv_.length < K) (hK31 : K ≤ 2147483648) (hTm : n ≤ Tm.length)
    (hH : t ≤ H.length) (hrows : ∀ r ∈ H, r.length = K)
    (hcur : ∀ j b, j < t → b < K → cell H j b
      = below lt e.piv_ (src.take n) b + cnt lt e.piv_ src b (bound n t j)) :
    ∃ Tm' H', Scatter.log src { e with tmp_ := Tm, histo_ := H }
        = .ok ({ e with tmp_ := Tm', histo_ := H' },
          (List.range n).map (fun i => (i, slot lt e.piv_ src n i))) ∧
      Scatter src { e with tmp_ := Tm, histo_ := H }
        = .ok { e with tmp_ := Tm', histo_ := H' } ∧
      Tm'.length = Tm.length ∧ (∀ p : Nat, n ≤ p → Tm'[p]? = Tm[p]?) := by
  obtain ⟨s, hs, Tm', H', rfl, hTm', hH', hrows', hcur', hframe⟩ :=
    forLoop_inv (Scatter.blockLog src)
    (fun j s => ∃ Tm' H', s = ({ e with tmp_ := Tm', histo_ := H' },
        (List.range (bound n t j)).map (fun i => (i, slot lt e.piv_ src n i))) ∧
      Tm'.length = Tm.length ∧ H'.length = H.length ∧ (∀ r ∈ H', r.length = K) ∧
      (∀ j' b, j ≤ j' → j' < t → b < K → cell H' j' b
        = below lt e.piv_ (src.take n) b + cnt lt e.piv_ src b (bound n t j')) ∧
      (∀ p : Nat, n ≤ p → Tm'[p]? = Tm[p]?))
    t 0 ({ e with tmp_ := Tm, histo_ := H }, [])
    ⟨Tm, H, by simp [bound], rfl, rfl, hrows, fun j' b _ h1 h2 => hcur j' b h1 h2,
      fun _ _ => rfl⟩
    (by
      rintro j s - hj ⟨Tm', H', rfl, hTm', hH', hrows', hcur', hframe⟩
      obtain ⟨Tm2, H2, h2, hTm2, hH2, hrows2, hother2, hframe2⟩ :=
        scatter_block_log K lt src e Tm' H'
          ((List.range (bound n t j)).map (fun i => (i, slot lt e.piv_ src n i)))
          n j (bound n t j) (bound n t (j + 1))
          (hB j (by omega)).1 (hB j (by omega)).2 (bound_mono_succ n t j)
          (bound_le n t (j + 1) (by omega)) hsrc hn htag hK hK31 (by omega) (by omega)
          hrows' (fun b hb => hcur' j b (Nat.le_refl j) (by omega) hb)
      have hm := bound_mono_succ n t j
      have hsplit : (List.range (bound n t (j + 1)))
          = List.range (bound n t j)
            ++ List.range' (bound n t j) (bound n t (j + 1) - bound n t j) := by
        have h := List.range'_append 0 (bound n t j) (bound n t (j + 1) - bound n t j) 1
        rw [Nat.one_mul, Nat.zero_add] at h
        rw [List.range_eq_range', List.range_eq_range', h]
        congr 1
        omega
      refine ⟨_, h2, Tm2, H2, ?_, by omega, by omega, hrows2, ?_, ?_⟩
      · rw [hsplit, List.map_append]
      · intro j' b h1 h2 hb
        rw [hother2 j' b (by omega)]
        exact hcur' j' b (by omega) h2 hb
      · intro p hp
        rw [hframe2 p hp]
        exact hframe p hp)
  simp only [Nat.zero_add] at hs
  rw [bound_last n t ht] at hs
  have hcnt : e.num_threads_.toNat = t := by omega
  have hlog : Scatter.log src { e with tmp_ := Tm, histo_ := H }
      = .ok ({ e with tmp_ := Tm', histo_ := H' },
          (List.range n).map (fun i => (i, slot lt e.piv_ src n i))) := by
    simp only [Scatter.log, hcnt]
    exact hs
  refine ⟨Tm', H', hlog, ?_, hTm', hframe⟩
  rw [← Scatter_log_fst, hlog]
  rfl

end MapSort
end map_sort

namespace map_sort

variable {α : Type}

/-! ## The slots of a stable partition -/

theorem slot_lt (lt : α → α → Bool) (piv src : List α) (n i : Nat) (hi : i < n)
    (hsrc : n ≤ src.length) : slot lt piv src n i < n := by
  have hil : i < src.length := by omega
  have hx : src[i]? = some src[i] := List.getElem?_eq_getElem hil
  rw [slot_eq lt piv src n i _ hx]
  have h1 := cursor_lt lt piv src n i hi _ hx
  have h2 := below_le_length lt piv (src.take n) (lower_bound lt piv src[i] + 1)
  rw [List.length_take] at h2
  omega

theorem slot_lt_of_lt (lt : α → α → Bool) (piv src : List α) (n i j : Nat) (hij : i < j)
    (hj : j < n) (hsrc : n ≤ src.length) :
    slot lt piv src n i ≠ slot lt piv src n j := by
  have hil : i < src.length := by omega
  have hjl : j < src.length := by omega
  have hxi : src[i]? = some src[i] := List.getElem?_eq_getElem hil
  have hxj : src[j]? = some src[j] := List.getElem?_eq_getElem hjl
  rw [slot_eq lt piv src n i _ hxi, slot_eq lt piv src n j _ hxj]
  have h1 := cursor_lt lt piv src n i (by omega) _ hxi
  have h2 := cursor_lt lt piv src n j hj _ hxj
  rcases Nat.lt_trichotomy (lower_bound lt piv src[i]) (lower_bound lt piv src[j])
    with h | h | h
  · have := below_mono lt piv (src.take n)
      (show lower_bound lt piv src[i] + 1 ≤ lower_bound lt piv src[j] by omega)
    omega
  · have e1 : below lt piv (src.take n) (lower_bound lt piv src[i])
        = below lt piv (src.take n) (lower_bound lt piv src[j]) :=
      congrArg (below lt piv (src.take n)) h
    have e2 : cnt lt piv src (lower_bound lt piv src[i]) j
        = cnt lt piv src (lower_bound lt piv src[j]) j :=
      congrArg (fun k => cnt lt piv src k j) h
    have h3 := cnt_succ lt piv src (lower_bound lt piv src[i]) i hil
    rw [if_pos rfl] at h3
    have h4 := cnt_mono lt piv src (lower_bound lt piv src[i]) (show i + 1 ≤ j by omega)
    omega
  · have := below_mono lt piv (src.take n)
      (show lower_bound lt piv src[j] + 1 ≤ lower_bound lt piv src[i] by omega)
    omega

/-- The slots of the source indices `0, ..., n - 1` are pairwise different and are
exactly the scratch indices `0, ..., n - 1`. -/
theorem slots_perm (lt : α → α → Bool) (piv src : List α) (n : Nat) (hsrc : n ≤ src.length) :
    ((List.range n).map (slot lt piv src n)).Nodup ∧
    ((List.range n).map (slot lt piv src n)).Perm (List.range n) := by
  have hnd : ((List.range n).map (slot lt piv src n)).Nodup := by
    apply List.Nodup.map_on _ (List.nodup_range n)
    intro i hi j hj hEq
    rw [List.mem_range] at hi hj
    rcases Nat.lt_trichotomy i j with h | h | h
    · exact absurd hEq (slot_lt_of_lt lt piv src n i j h hj hsrc)
    · exact h
    · exact absurd hEq.symm (slot_lt_of_lt lt piv src n j i h hi hsrc)
  refine ⟨hnd, ?_⟩
  apply (List.subperm_of_subset hnd ?_).perm_of_length_le
  · rw [List.length_map]
  · intro c hc
    obtain ⟨i, hi, rfl⟩ := List.mem_map.mp hc
    rw [List.mem_range] at hi ⊢
    exact slot_lt lt piv src n i hi hsrc

/-- Windows that follow one another make up the front of the array. -/
theorem take_eq_flatMap (Tm : List α) (P : Nat → Nat) (Bk : Nat → List α) (hP0 : P 0 = 0) :
    ∀ K, (∀ b, b < K → P (b + 1) = P b + (Bk b).length) →
      (∀ b, b < K → (Tm.drop (P b)).take (Bk b).length = Bk b) →
      Tm.take (P K) = (List.range K).flatMap Bk := by
  intro K
  induction K with
  | zero =>
    intro _ _
    rw [hP0]
    rfl
  | succ K ih =>
    intro hP hwin
    rw [hP K (by omega), List.take_add, ih (fun b hb => hP b (by omega))
      (fun b hb => hwin b (by omega)), hwin K (by omega), List.range_succ,
      List.flatMap_append]
    simp

end map_sort

namespace map_sort

variable {α : Type}

namespace MapSort

/-! ## `ComputeHistogram` and `Scatter` on ranges that end at `m` -/

/-- The runs of `ComputeHistogram(src, n)` and `Scatter(src)` when the range tables hold
the ranges of `m ≤ INT_MAX` elements. `H1` is the table of local counts, `H2` the table
of write cursors, `Pos0` the boundaries before `pos_[K] = n` is stored. -/
theorem histogram_scatter_ranges (K : Nat) (lt : α → α → Bool) (stdSort : List α → List α)
    (hsort : SortContract lt stdSort) (rand : Nat → Nat) (src : List α) (n m t : Nat)
    (e : MapSort α) (hK : 1 ≤ K) (hK31 : K ≤ 2147483648) (hn1 : 1 ≤ n)
    (hsrc : n ≤ src.length) (hm : m < 2147483648) (hmsrc : m ≤ src.length) (ht : 1 ≤ t)
    (hnt : e.num_threads_ = (t : Int))
    (hB : ∀ j, j < t → e.pos_bgn_[j]? = some (bound m t j : Int) ∧
      e.pos_end_[j]? = some (bound m t (j + 1) : Int))
    (hpiv : e.piv_.length = K - 1) (hpos : e.pos_.length = K + 1)
    (hrng : m ≤ e.rng_.length) (htmp : m ≤ e.tmp_.length) (hH : t ≤ e.histo_.length)
    (hrows : ∀ r ∈ e.histo_, r.length = K) :
    ∃ R' H1 Pos0 H2 Tm3 H3,
      forLoop (ComputeHistogram.block K lt src) 0 t
          { e with piv_ := stdSort (samplePivots K rand src n) }
        = .ok { e with piv_ := stdSort (samplePivots K rand src n), rng_ := R',
                       histo_ := H1 } ∧
      forLoop ComputeHistogram.outer 0 K
          ({ e with piv_ := stdSort (samplePivots K rand src n), rng_ := R',
                    histo_ := H1 }, 0)
        = .ok ({ e with piv_ := stdSort (samplePivots K rand src n), rng_ := R',
                        pos_ := Pos0, histo_ := H2 },
               below lt (stdSort (samplePivots K rand src n)) (src.take m) K) ∧
      ComputeHistogram K lt stdSort rand src n e
        = .ok { e with piv_ := stdSort (samplePivots K rand src n), rng_ := R',
                       pos_ := Pos0.set K n, histo_ := H2 } ∧
      Scatter.log src { e with piv_ := stdSort (samplePivots K rand src n), rng_ := R',
                               pos_ := Pos0.set K n, histo_ := H2 }
        = .ok ({ e with piv_ := stdSort (samplePivots K rand src n), rng_ := R',
                        pos_ := Pos0.set K n, histo_ := H3, tmp_ := Tm3 },
               (List.range m).map
                 (fun i => (i, slot lt (stdSort (samplePivots K rand src n)) src m i))) ∧
      Scatter src { e with piv_ := stdSort (samplePivots K rand src n), rng_ := R',
                           pos_ := Pos0.set K n, histo_ := H2 }
        = .ok { e with piv_ := stdSort (samplePivots K rand src n), rng_ := R',
                       pos_ := Pos0.set K n, histo_ := H3, tmp_ := Tm3 } ∧
      (stdSort (samplePivots K rand src n)).length = K - 1 ∧
      (∀ (i : Nat) (x : α), i < m → src[i]? = some x →
        R'[i]? = some (lower_bound lt (stdSort (samplePivots K rand src n)) x)) ∧
      (∀ b : Nat, b < K →
        (Pos0.set K n)[b]?
          = some (below lt (stdSort (samplePivots K rand src n)) (src.take m) b)) ∧
      (Pos0.set K n)[K]? = some n ∧
      (∀ j b : Nat, j < t → b < K →
        cell H1 j b + cnt lt (stdSort (samplePivots K rand src n)) src b (bound m t j)
          = cnt lt (stdSort (samplePivots K rand src n)) src b (bound m t (j + 1))) ∧
      (∀ j b : Nat, j < t → b < K → cell H2 j b
        = below lt (stdSort (samplePivots K rand src n)) (src.take m) b
          + cnt lt (stdSort (samplePivots K rand src n)) src b (bound m t j)) ∧
      (∀ b, b < K →
        (Tm3.drop (below lt (stdSort (samplePivots K rand src n)) (src.take m) b)).take
          (bucket lt (stdSort (samplePivots K rand src n)) (src.take m) b).length
          = bucket lt (stdSort (samplePivots K rand src n)) (src.take m) b) ∧
      Tm3.length = e.tmp_.length ∧ (∀ p : Nat, m ≤ p → Tm3[p]? = e.tmp_[p]?) := by
  obtain ⟨R', H1, Pos0, H2, hL, hC, hCH, hR', hPos0, hH2, hrows2, htag, hcol, hposv, hposK,
    hcur⟩ := ComputeHistogram_ranges K lt stdSort hsort rand src n m t e hK hK31 hn1 hsrc hm
      hmsrc ht hnt hB hpiv hpos hrng hH hrows
  have hpl : (stdSort (samplePivots K rand src n)).length = K - 1 := by
    rw [(hsort.perm _).length_eq]
    exact (samplePivots_spec K rand src n hn1 hsrc).1
  obtain ⟨Tm3, H3, hSC, hTm3, hH3, hrows3, hwin⟩ := Scatter_ok K lt src
    { e with piv_ := stdSort (samplePivots K rand src n), rng_ := R', pos_ := Pos0.set K n }
    e.tmp_ H2 m t ht hnt hB hmsrc hm htag
    (by show (stdSort (samplePivots K rand src n)).length < K; omega) hK31 htmp
    (by omega) hrows2 hcur
  obtain ⟨Tm4, H4, hLog, hSC', hTm4, hframe⟩ := Scatter_log_ok K lt src
    { e with piv_ := stdSort (samplePivots K rand src n), rng_ := R', pos_ := Pos0.set K n }
    e.tmp_ H2 m t ht hnt hB hmsrc hm htag
    (by show (stdSort (samplePivots K rand src n)).length < K; omega) hK31 htmp
    (by omega) hrows2 hcur
  have hsame := hSC.symm.trans hSC'
  injection hsame with hsame
  injection hsame with _ _ hT _ _ _ hHh
  subst hT
  subst hHh
  exact ⟨R', H1, Pos0, H2, Tm3, H3, hL, hC, hCH, hLog, hSC, hpl, htag, hposv, hposK, hcol, hcur,
    hwin, hTm3, hframe⟩

end MapSort
end map_sort

namespace map_sort

variable {α : Type}

/-! ## An array of equal elements -/

theorem samplePivots_replicate (K : Nat) (rand : Nat → Nat) (c : α) (n : Nat) (hn : 1 ≤ n) :
    samplePivots K rand (List.replicate n c) n = List.replicate (K - 1) c := by
  obtain ⟨h1, h2⟩ := samplePivots_spec K rand (List.replicate n c) n hn
    (by rw [List.length_replicate])
  rw [List.eq_replicate_iff]
  refine ⟨h1, ?_⟩
  intro b hb
  obtain ⟨i, hi⟩ := List.mem_iff_getElem?.mp hb
  have hil : i < K - 1 := by
    by_contra hc
    rw [List.getElem?_eq_none (by omega)] at hi
    cases hi
  rw [h2 i hil, List.getElem?_replicate, if_pos (Nat.mod_lt _ (by omega))] at hi
  injection hi with hi
  exact hi.symm

theorem sorted_pivots_replicate (K : Nat) (lt : α → α → Bool) (stdSort : List α → List α)
    (hsort : SortContract lt stdSort) (rand : Nat → Nat) (c : α) (n : Nat) (hn : 1 ≤ n) :
    stdSort (samplePivots K rand (List.replicate n c) n) = List.replicate (K - 1) c := by
  rw [samplePivots_replicate K rand c n hn]
  exact List.perm_replicate.mp (hsort.perm _)

theorem lower_bound_go_replicate (lt : α → α → Bool) (c : α) (k : Nat)
    (hirr : lt c c = false) :
    ∀ (fuel first len : Nat), lower_bound.go lt (List.replicate k c) c fuel first len = first := by
  intro fuel
  induction fuel with
  | zero =>
    intro first len
    rfl
  | succ fuel ih =>
    intro first len
    simp only [lower_bound.go]
    by_cases h0 : len = 0
    · rw [if_pos h0]
    · rw [if_neg h0, List.getElem?_replicate]
      by_cases h1 : first + len / 2 < k
      · rw [if_pos h1]
        simp only [hirr]
        exact ih first (len / 2)
      · rw [if_neg h1]

/-- On pivots that all equal `c`, the bucket id of `c` is 0. -/
theorem lower_bound_replicate (lt : α → α → Bool) (c : α) (k : Nat) (hirr : lt c c = false) :
    lower_bound lt (List.replicate k c) c = 0 :=
  lower_bound_go_replicate lt c k hirr _ 0 _

theorem below_replicate (lt : α → α → Bool) (c : α) (k m b : Nat) (hirr : lt c c = false) :
    below lt (List.replicate k c) (List.replicate m c) b = if b = 0 then 0 else m := by
  simp only [below]
  rw [List.countP_replicate, lower_bound_replicate lt c k hirr]
  by_cases hb : b = 0
  · subst hb
    simp
  · rw [if_neg hb, if_pos]
    simp only [decide_eq_true_eq]
    omega

theorem bucket_replicate (lt : α → α → Bool) (c : α) (k m b : Nat) (hirr : lt c c = false) :
    bucket lt (List.replicate k c) (List.replicate m c) b
      = if b = 0 then List.replicate m c else [] := by
  simp only [bucket]
  rw [List.filter_replicate, lower_bound_replicate lt c k hirr]
  by_cases hb : b = 0
  · subst hb
    simp
  · rw [if_neg hb, if_neg]
    simp only [beq_iff_eq]
    omega

theorem cnt_replicate (lt : α → α → Bool) (c : α) (k n b i : Nat) (hirr : lt c c = false)
    (hi : i ≤ n) :
    cnt lt (List.replicate k c) (List.replicate n c) b i = if b = 0 then i else 0 := by
  simp only [cnt]
  rw [List.take_replicate, Nat.min_eq_left hi, bucket_replicate lt c k i b hirr]
  by_cases hb : b = 0
  · rw [if_pos hb, if_pos hb, List.length_replicate]
  · rw [if_neg hb, if_neg hb]
    rfl

theorem slot_replicate (lt : α → α → Bool) (c : α) (k n m i : Nat) (hirr : lt c c = false)
    (hi : i < m) (hm : m ≤ n) :
    slot lt (List.replicate k c) (List.replicate n c) m i = i := by
  have hx : (List.replicate n c)[i]? = some c := by
    rw [List.getElem?_replicate, if_pos (by omega)]
  rw [slot_eq lt _ _ m i c hx, lower_bound_replicate lt c k hirr, List.take_replicate,
    Nat.min_eq_left hm, below_replicate lt c k m 0 hirr, if_pos rfl,
    cnt_replicate lt c k n 0 i hirr (by omega), if_pos rfl, Nat.zero_add]

end map_sort

namespace map_sort

variable {α : Type}

namespace MapSort

/-! ## One worker, and an element count that does not fit `int` -/

/-- One worker on `n` equal elements, when the conversion of `n` to `int` gives
`0 ≤ m ≤ n`: `ComputeRanges` leaves the range `[0, m)`, `ComputeHistogram` counts the
first `m` elements only and sets `pos_[K] = n`, and `Scatter` moves the first `m`
elements only. -/
theorem one_worker_equal_elements (K M : Nat) (T : Int) (lt : α → α → Bool)
    (hirr : ∀ a, lt a a = false) (stdSort : List α → List α)
    (hsort : SortContract lt stdSort) (rand : Nat → Nat) (e : MapSort α) (c : α) (n m : Nat)
    (hK : 1 ≤ K) (hK31 : K ≤ 2147483648) (he : Shaped K M T e) (hT : 1 ≤ T)
    (hm : toInt (n : Int) = (m : Int)) (hm31 : m < 2147483648) (hmn : m ≤ n) (hn1 : 1 ≤ n)
    (hnM : n ≤ M) :
    ∃ R' H1 Pos0 H2 Tm3 H3,
      ComputeRanges n { e with num_threads_ := 1 }
        = .ok { e with num_threads_ := 1, pos_bgn_ := e.pos_bgn_.set 0 0,
                       pos_end_ := e.pos_end_.set 0 (m : Int) } ∧
      forLoop (ComputeHistogram.block K lt (List.replicate n c)) 0 1
          { e with num_threads_ := 1, pos_bgn_ := e.pos_bgn_.set 0 0,
                   pos_end_ := e.pos_end_.set 0 (m : Int),
                   piv_ := List.replicate (K - 1) c }
        = .ok { e with num_threads_ := 1, pos_bgn_ := e.pos_bgn_.set 0 0,
                       pos_end_ := e.pos_end_.set 0 (m : Int),
                       piv_ := List.replicate (K - 1) c, rng_ := R', histo_ := H1 } ∧
      forLoop ComputeHistogram.outer 0 K
          ({ e with num_threads_ := 1, pos_bgn_ := e.pos_bgn_.set 0 0,
                    pos_end_ := e.pos_end_.set 0 (m : Int),
                    piv_ := List.replicate (K - 1) c, rng_ := R', histo_ := H1 }, 0)
        = .ok ({ e with num_threads_ := 1, pos_bgn_ := e.pos_bgn_.set 0 0,
                        pos_end_ := e.pos_end_.set 0 (m : Int),
                        piv_ := List.replicate (K - 1) c, rng_ := R', pos_ := Pos0,
                        histo_ := H2 }, m) ∧
      ComputeHistogram K lt stdSort rand (List.replicate n c) n
          { e with num_threads_ := 1, pos_bgn_ := e.pos_bgn_.set 0 0,
                   pos_end_ := e.pos_end_.set 0 (m : Int) }
        = .ok { e with num_threads_ := 1, pos_bgn_ := e.pos_bgn_.set 0 0,
                       pos_end_ := e.pos_end_.set 0 (m : Int),
                       piv_ := List.replicate (K - 1) c, rng_ := R',
                       pos_ := Pos0.set K n, histo_ := H2 } ∧
      Scatter.log (List.replicate n c)
          { e with num_threads_ := 1, pos_bgn_ := e.pos_bgn_.set 0 0,
                   pos_end_ := e.pos_end_.set 0 (m : Int),
                   piv_ := List.replicate (K - 1) c, rng_ := R',
                   pos_ := Pos0.set K n, histo_ := H2 }
        = .ok ({ e with num_threads_ := 1, pos_bgn_ := e.pos_bgn_.set 0 0,
                        pos_end_ := e.pos_end_.set 0 (m : Int),
                        piv_ := List.replicate (K - 1) c, rng_ := R',
                        pos_ := Pos0.set K n, histo_ := H3, tmp_ := Tm3 },
               (List.range m).map (fun i => (i, i))) ∧
      Scatter (List.replicate n c)
          { e with num_threads_ := 1, pos_bgn_ := e.pos_bgn_.set 0 0,
                   pos_end_ := e.pos_end_.set 0 (m : Int),
                   piv_ := List.replicate (K - 1) c, rng_ := R',
                   pos_ := Pos0.set K n, histo_ := H2 }
        = .ok { e with num_threads_ := 1, pos_bgn_ := e.pos_bgn_.set 0 0,
                       pos_end_ := e.pos_end_.set 0 (m : Int),
                       piv_ := List.replicate (K - 1) c, rng_ := R',
                       pos_ := Pos0.set K n, histo_ := H3, tmp_ := Tm3 } ∧
      lower_bound lt (List.replicate (K - 1) c) c = 0 ∧
      (∀ i : Nat, i < m → R'[i]? = some 0) ∧
      (∀ b : Nat, b < K → (Pos0.set K n)[b]? = some (if b = 0 then 0 else m)) ∧
      (Pos0.set K n)[K]? = some n ∧
      (∀ b : Nat, b < K → cell H1 0 b = if b = 0 then m else 0) ∧
      (∀ b : Nat, b < K → cell H2 0 b = if b = 0 then 0 else m) ∧
      Tm3.take m = List.replicate m c ∧ Tm3.length = e.tmp_.length ∧
      (∀ p : Nat, m ≤ p → Tm3[p]? = e.tmp_[p]?) := by
  obtain ⟨hme, hmt, htmp, hrng, hpiv, hpos, hhisto, hrows, hbgn, hfin⟩ := he
  have hlen : (List.replicate n c).length = n := List.length_replicate _ _
  have hCR := ComputeRanges_one { e with num_threads_ := 1 } n rfl
    (by show 0 < e.pos_bgn_.length; omega) (by show 0 < e.pos_end_.length; omega)
  rw [hm] at hCR
  have hB : ∀ j, j < 1 →
      (e.pos_bgn_.set 0 0)[j]? = some (bound m 1 j : Int) ∧
      (e.pos_end_.set 0 (m : Int))[j]? = some (bound m 1 (j + 1) : Int) := by
    intro j hj
    have hj0 : j = 0 := by omega
    subst hj0
    rw [List.getElem?_set_self (by omega), List.getElem?_set_self (by omega)]
    simp [bound]
  obtain ⟨R', H1, Pos0, H2, Tm3, H3, hL, hC, hCH, hLog, hSC, hpl, htag, hposv, hposK, hcol,
    hcur, hwin, hTm3, hframe⟩ := histogram_scatter_ranges K lt stdSort hsort rand
      (List.replicate n c) n m 1
      { e with num_threads_ := 1, pos_bgn_ := e.pos_bgn_.set 0 0,
               pos_end_ := e.pos_end_.set 0 (m : Int) }
      hK hK31 hn1 (by omega) hm31 (by omega) (Nat.le_refl 1) rfl hB hpiv hpos
      (by show m ≤ e.rng_.length; omega) (by show m ≤ e.tmp_.length; omega)
      (by show 1 ≤ e.histo_.length; omega) hrows
  have hP := sorted_pivots_replicate K lt stdSort hsort rand c n hn1
  rw [hP] at hL hC hCH hLog hSC htag hposv hcol hcur hwin
  have htk : (List.replicate n c).take m = List.replicate m c := by
    rw [List.take_replicate, Nat.min_eq_left hmn]
  rw [htk] at hC hposv hcur hwin
  have hlb := lower_bound_replicate lt c (K - 1) (hirr c)
  have hbK : below lt (List.replicate (K - 1) c) (List.replicate m c) K = m := by
    rw [below_replicate lt c (K - 1) m K (hirr c), if_neg (by omega)]
  rw [hbK] at hC
  have hslots : (List.range m).map
      (fun i => (i, slot lt (List.replicate (K - 1) c) (List.replicate n c) m i))
      = (List.range m).map (fun i => (i, i)) := by
    apply List.map_congr_left
    intro i hi
    rw [List.mem_range] at hi
    rw [slot_replicate lt c (K - 1) n m i (hirr c) hi hmn]
  rw [hslots] at hLog
  refine ⟨R', H1, Pos0, H2, Tm3, H3, hCR, hL, hC, hCH, hLog, hSC, hlb, ?_, ?_, hposK, ?_, ?_,
    ?_, hTm3, hframe⟩
  · intro i hi
    have := htag i c hi (by rw [List.getElem?_replicate, if_pos (by omega)])
    rw [hlb] at this
    exact this
  · intro b hb
    rw [hposv b hb, below_replicate lt c (K - 1) m b (hirr c)]
  · intro b hb
    have h1 := hcol 0 b (by omega) hb
    have e0 : bound m 1 0 = 0 := rfl
    have e1 : bound m 1 (0 + 1) = m := by simp [bound]
    rw [e0, e1, cnt_replicate lt c (K - 1) n b 0 (hirr c) (by omega),
      cnt_replicate lt c (K - 1) n b m (hirr c) hmn] at h1
    by_cases hb0 : b = 0
    · rw [if_pos hb0] at h1 ⊢
      rw [if_pos hb0] at h1
      omega
    · rw [if_neg hb0] at h1 ⊢
      rw [if_neg hb0] at h1
      omega
  · intro b hb
    have h1 := hcur 0 b (by omega) hb
    have e0 : bound m 1 0 = 0 := rfl
    rw [e0, cnt_replicate lt c (K - 1) n b 0 (hirr c) (by omega),
      below_replicate lt c (K - 1) m b (hirr c)] at h1
    rw [h1]
    by_cases hb0 : b = 0
    · rw [if_pos hb0, if_pos hb0]
    · rw [if_neg hb0, if_neg hb0, Nat.add_zero]
  · have h1 := hwin 0 (by omega)
    rw [below_replicate lt c (K - 1) m 0 (hirr c), if_pos rfl,
      bucket_replicate lt c (K - 1) m 0 (hirr c), if_pos rfl, List.length_replicate,
      List.drop_zero] at h1
    exact h1

end MapSort
end map_sort

namespace map_sort

variable {α : Type}

theorem colSum_succ (H : List (List Nat)) (b j : Nat) :
    colSum H b (j + 1) = colSum H b j + cell H j b := by
  simp only [colSum]
  rw [List.range_succ, List.map_append, List.sum_append]
  simp

namespace MapSort

/-! ## The phases of `Sort` for `n ≤ INT_MAX` -/

/-- For `1 ≤ n ≤ INT_MAX`, after `ComputeRanges` and `ComputeHistogram` on an engine of
capacity `(M, T)` with `t` workers: every `rng_[i]` is the bucket id of `src[i]`,
`pos[0] = 0`, `pos[K] = n`, `pos[b] ≤ pos[b + 1]`, and `pos[b + 1] - pos[b]` is the number
of elements of `src[0..n)` whose bucket id is `b`. -/
theorem ComputeHistogram_boundaries (K M : Nat) (T : Int) (lt : α → α → Bool)
    (stdSort : List α → List α) (hsort : SortContract lt stdSort) (rand : Nat → Nat)
    (e : MapSort α) (src : List α) (n t : Nat) (hK : 1 ≤ K) (hK31 : K ≤ 2147483648)
    (he : Shaped K M T e) (hT : T ≤ 2147483647) (hn1 : 1 ≤ n) (hnM : n ≤ M)
    (hn : n < 2147483648) (hsrc : n ≤ src.length) (ht1 : 1 ≤ t) (htT : (t : Int) ≤ T) :
    ∃ e1 e2, ComputeRanges n { e with num_threads_ := (t : Int) } = .ok e1 ∧
      ComputeHistogram K lt stdSort rand src n e1 = .ok e2 ∧
      (∀ (i : Nat) (x : α), i < n → src[i]? = some x →
        e2.rng_[i]? = some (lower_bound lt e2.piv_ x)) ∧
      e2.pos_[0]? = some 0 ∧ e2.pos_[K]? = some n ∧
      (∀ b, b < K → ∃ p q, e2.pos_[b]? = some p ∧ e2.pos_[b + 1]? = some q ∧ p ≤ q ∧
        q - p = (bucket lt e2.piv_ (src.take n) b).length) := by
  obtain ⟨hme, hmt, htmp, hrng, hpiv, hpos, hhisto, hrows, hbgn, hfin⟩ := he
  obtain ⟨B, E, hCR, hBl, hEl, hBE⟩ := ComputeRanges_ok
    { e with num_threads_ := (t : Int) } n t hn ht1 (by omega) rfl
    (by show t ≤ e.pos_bgn_.length; omega) (by show t ≤ e.pos_end_.length; omega)
  obtain ⟨R', H1, Pos0, H2, Tm3, H3, hL, hC, hCH, hLog, hSC, hpl, htag, hposv, hposK, hcol,
    hcur, hwin, hTm3, hframe⟩ := histogram_scatter_ranges K lt stdSort hsort rand src n n t
      { e with num_threads_ := (t : Int), pos_bgn_ := B, pos_end_ := E }
      hK hK31 hn1 hsrc hn hsrc ht1 rfl hBE hpiv hpos
      (by show n ≤ e.rng_.length; omega) (by show n ≤ e.tmp_.length; omega)
      (by show t ≤ e.histo_.length; omega) hrows
  have hall : below lt (stdSort (samplePivots K rand src n)) (src.take n) K = n := by
    rw [below_all lt _ _ K (by omega), List.length_take]
    omega
  refine ⟨_, _, hCR, hCH, htag, ?_, hposK, ?_⟩
  · have := hposv 0 (by omega)
    rw [below_zero] at this
    exact this
  · intro b hb
    have hs := below_succ lt (stdSort (samplePivots K rand src n)) (src.take n) b
    refine ⟨_, _, hposv b hb, ?_, Nat.le.intro hs.symm, ?_⟩
    · by_cases hbK : b + 1 = K
      · rw [hbK, hall]
        exact hposK
      · exact hposv (b + 1) (by omega)
    · show _ = (bucket lt (stdSort (samplePivots K rand src n)) (src.take n) b).length
      omega

/-- For `1 ≤ n ≤ INT_MAX`: with `eL` the engine after the local histograms and `e2` the
engine after `ComputeHistogram`, the cursor of worker `j` for bucket `b` is `pos[b]` plus
the local counts of the workers before `j`; the cursors of a bucket, each with its local
count, follow one another from `pos[b]` to `pos[b + 1]`, and the intervals of two
different pairs of a worker and a bucket do not meet. -/
theorem ComputeHistogram_cursors (K M : Nat) (T : Int) (lt : α → α → Bool)
    (stdSort : List α → List α) (hsort : SortContract lt stdSort) (rand : Nat → Nat)
    (e : MapSort α) (src : List α) (n t : Nat) (hK : 1 ≤ K) (hK31 : K ≤ 2147483648)
    (he : Shaped K M T e) (hT : T ≤ 2147483647) (hn1 : 1 ≤ n) (hnM : n ≤ M)
    (hn : n < 2147483648) (hsrc : n ≤ src.length) (ht1 : 1 ≤ t) (htT : (t : Int) ≤ T) :
    ∃ e1 eL eC e2, ComputeRanges n { e with num_threads_ := (t : Int) } = .ok e1 ∧
      forLoop (ComputeHistogram.block K lt src) 0 t
        { e1 with piv_ := stdSort (samplePivots K rand src n) } = .ok eL ∧
      forLoop ComputeHistogram.outer 0 K (eL, 0) = .ok (eC, n) ∧
      ComputeHistogram K lt stdSort rand src n e1 = .ok e2 ∧ e2.histo_ = eC.histo_ ∧
      (∀ j b, j < t → b < K → ∃ p, e2.pos_[b]? = some p ∧
        cell e2.histo_ j b = p + colSum eL.histo_ b j) ∧
      (∀ b, b < K → ∃ p q, e2.pos_[b]? = some p ∧ e2.pos_[b + 1]? = some q ∧
        q = p + colSum eL.histo_ b t) ∧
      (∀ j j' b b', j < t → j' < t → b < K → b' < K → (b < b' ∨ (b = b' ∧ j < j')) →
        cell e2.histo_ j b + cell eL.histo_ j b ≤ cell e2.histo_ j' b') := by
  obtain ⟨hme, hmt, htmp, hrng, hpiv, hpos, hhisto, hrows, hbgn, hfin⟩ := he
  obtain ⟨B, E, hCR, hBl, hEl, hBE⟩ := ComputeRanges_ok
    { e with num_threads_ := (t : Int) } n t hn ht1 (by omega) rfl
    (by show t ≤ e.pos_bgn_.length; omega) (by show t ≤ e.pos_end_.length; omega)
  obtain ⟨R', H1, Pos0, H2, Tm3, H3, hL, hC, hCH, hLog, hSC, hpl, htag, hposv, hposK, hcol,
    hcur, hwin, hTm3, hframe⟩ := histogram_scatter_ranges K lt stdSort hsort rand src n n t
      { e with num_threads_ := (t : Int), pos_bgn_ := B, pos_end_ := E }
      hK hK31 hn1 hsrc hn hsrc ht1 rfl hBE hpiv hpos
      (by show n ≤ e.rng_.length; omega) (by show n ≤ e.tmp_.length; omega)
      (by show t ≤ e.histo_.length; omega) hrows
  have hall : below lt (stdSort (samplePivots K rand src n)) (src.take n) K = n := by
    rw [below_all lt _ _ K (by omega), List.length_take]
    omega
  rw [hall] at hC
  have hsum : ∀ b, b < K → ∀ j, j ≤ t →
      colSum H1 b j = cnt lt (stdSort (samplePivots K rand src n)) src b (bound n t j) :=
    fun b hb => colSum_eq_cnt lt _ src H1 n t b (fun j hj => hcol j b hj hb)
  have hcell : ∀ j b, j < t → b < K → cell H2 j b + cell H1 j b
      = below lt (stdSort (samplePivots K rand src n)) (src.take n) b
        + cnt lt (stdSort (samplePivots K rand src n)) src b (bound n t (j + 1)) := by
    intro j b hj hb
    have h1 := hcur j b hj hb
    have h2 := hcol j b hj hb
    omega
  refine ⟨_, _, _, _, hCR, hL, hC, hCH, rfl, ?_, ?_, ?_⟩
  · intro j b hj hb
    refine ⟨_, hposv b hb, ?_⟩
    show cell H2 j b = _ + colSum H1 b j
    rw [hcur j b hj hb, hsum b hb j (by omega)]
  · intro b hb
    have hs := below_succ lt (stdSort (samplePivots K rand src n)) (src.take n) b
    refine ⟨below lt (stdSort (samplePivots K rand src n)) (src.take n) b,
      below lt (stdSort (samplePivots K rand src n)) (src.take n) (b + 1),
      hposv b hb, ?_, ?_⟩
    · by_cases hbK : b + 1 = K
      · rw [hbK, hall]
        exact hposK
      · exact hposv (b + 1) (by omega)
    · show _ = _ + colSum H1 b t
      rw [hsum b hb t (Nat.le_refl t), bound_last n t ht1, hs]
      rfl
  · intro j j' b b' hj hj' hb hb' hlex
    show cell H2 j b + cell H1 j b ≤ cell H2 j' b'
    rw [hcell j b hj hb, hcur j' b' hj' hb']
    rcases hlex with h | ⟨h, h'⟩
    · have h1 := cursor_le lt (stdSort (samplePivots K rand src n)) src n b
        (bound n t (j + 1)) (bound_le n t (j + 1) (by omega))
      have h2 := below_mono lt (stdSort (samplePivots K rand src n)) (src.take n)
        (show b + 1 ≤ b' by omega)
      omega
    · subst h
      have h1 := cnt_mono lt (stdSort (samplePivots K rand src n)) src b
        (bound_mono n t (show j + 1 ≤ j' by omega))
      omega

/-- For `1 ≤ n ≤ INT_MAX`: `Scatter` writes each source index `0, ..., n - 1` once, the
scratch indices it writes are pairwise different, and they are exactly `0, ..., n - 1`,
all inside the scratch array. -/
theorem Scatter_collision_free (K M : Nat) (T : Int) (lt : α → α → Bool)
    (stdSort : List α → List α) (hsort : SortContract lt stdSort) (rand : Nat → Nat)
    (e : MapSort α) (src : List α) (n t : Nat) (hK : 1 ≤ K) (hK31 : K ≤ 2147483648)
    (he : Shaped K M T e) (hT : T ≤ 2147483647) (hn1 : 1 ≤ n) (hnM : n ≤ M)
    (hn : n < 2147483648) (hsrc : n ≤ src.length) (ht1 : 1 ≤ t) (htT : (t : Int) ≤ T) :
    ∃ e1 e2 e3 log, ComputeRanges n { e with num_threads_ := (t : Int) } = .ok e1 ∧
      ComputeHistogram K lt stdSort rand src n e1 = .ok e2 ∧
      Scatter.log src e2 = .ok (e3, log) ∧ Scatter src e2 = .ok e3 ∧
      log.map Prod.fst = List.range n ∧ (log.map Prod.snd).Nodup ∧
      (log.map Prod.snd).Perm (List.range n) ∧
      (∀ c, c ∈ log.map Prod.snd ↔ c < n) ∧ n ≤ e2.tmp_.length := by
  obtain ⟨hme, hmt, htmp, hrng, hpiv, hpos, hhisto, hrows, hbgn, hfin⟩ := he
  obtain ⟨B, E, hCR, hBl, hEl, hBE⟩ := ComputeRanges_ok
    { e with num_threads_ := (t : Int) } n t hn ht1 (by omega) rfl
    (by show t ≤ e.pos_bgn_.length; omega) (by show t ≤ e.pos_end_.length; omega)
  obtain ⟨R', H1, Pos0, H2, Tm3, H3, hL, hC, hCH, hLog, hSC, hpl, htag, hposv, hposK, hcol,
    hcur, hwin, hTm3, hframe⟩ := histogram_scatter_ranges K lt stdSort hsort rand src n n t
      { e with num_threads_ := (t : Int), pos_bgn_ := B, pos_end_ := E }
      hK hK31 hn1 hsrc hn hsrc ht1 rfl hBE hpiv hpos
      (by show n ≤ e.rng_.length; omega) (by show n ≤ e.tmp_.length; omega)
      (by show t ≤ e.histo_.length; omega) hrows
  obtain ⟨hnd, hperm⟩ := slots_perm lt (stdSort (samplePivots K rand src n)) src n hsrc
  have hsnd : ((List.range n).map
      (fun i => (i, slot lt (stdSort (samplePivots K rand src n)) src n i))).map Prod.snd
      = (List.range n).map (slot lt (stdSort (samplePivots K rand src n)) src n) := by
    rw [List.map_map]
    rfl
  have hfst : ((List.range n).map
      (fun i => (i, slot lt (stdSort (samplePivots K rand src n)) src n i))).map Prod.fst
      = List.range n := by
    rw [List.map_map]
    exact List.map_id _
  refine ⟨_, _, _, _, hCR, hCH, hLog, hSC, hfst, ?_, ?_, ?_, ?_⟩
  · rw [hsnd]
    exact hnd
  · rw [hsnd]
    exact hperm
  · intro c
    rw [hsnd, hperm.mem_iff, List.mem_range]
  · show n ≤ e.tmp_.length
    omega

/-- For `1 ≤ n ≤ INT_MAX`: after `Scatter` the span `[pos[b], pos[b + 1])` of the scratch
array holds the elements of `src[0..n)` whose bucket id is `b`, in their order in `src`,
and `tmp_[0..n)` is these subsequences for `b = 0, ..., K - 1` one after the other. -/
theorem Scatter_stable_partition (K M : Nat) (T : Int) (lt : α → α → Bool)
    (stdSort : List α → List α) (hsort : SortContract lt stdSort) (rand : Nat → Nat)
    (e : MapSort α) (src : List α) (n t : Nat) (hK : 1 ≤ K) (hK31 : K ≤ 2147483648)
    (he : Shaped K M T e) (hT : T ≤ 2147483647) (hn1 : 1 ≤ n) (hnM : n ≤ M)
    (hn : n < 2147483648) (hsrc : n ≤ src.length) (ht1 : 1 ≤ t) (htT : (t : Int) ≤ T) :
    ∃ e1 e2 e3, ComputeRanges n { e with num_threads_ := (t : Int) } = .ok e1 ∧
      ComputeHistogram K lt stdSort rand src n e1 = .ok e2 ∧ Scatter src e2 = .ok e3 ∧
      e3.piv_ = stdSort (samplePivots K rand src n) ∧
      (∀ (i : Nat) (x : α), i < n → src[i]? = some x →
        e3.rng_[i]? = some (lower_bound lt e3.piv_ x)) ∧
      (∀ b, b < K → ∃ p q, e3.pos_[b]? = some p ∧ e3.pos_[b + 1]? = some q ∧
        (e3.tmp_.drop p).take (q - p) = bucket lt e3.piv_ (src.take n) b) ∧
      e3.tmp_.take n = (List.range K).flatMap (fun b => bucket lt e3.piv_ (src.take n) b) := by
  obtain ⟨hme, hmt, htmp, hrng, hpiv, hpos, hhisto, hrows, hbgn, hfin⟩ := he
  obtain ⟨B, E, hCR, hBl, hEl, hBE⟩ := ComputeRanges_ok
    { e with num_threads_ := (t : Int) } n t hn ht1 (by omega) rfl
    (by show t ≤ e.pos_bgn_.length; omega) (by show t ≤ e.pos_end_.length; omega)
  obtain ⟨R', H1, Pos0, H2, Tm3, H3, hL, hC, hCH, hLog, hSC, hpl, htag, hposv, hposK, hcol,
    hcur, hwin, hTm3, hframe⟩ := histogram_scatter_ranges K lt stdSort hsort rand src n n t
      { e with num_threads_ := (t : Int), pos_bgn_ := B, pos_end_ := E }
      hK hK31 hn1 hsrc hn hsrc ht1 rfl hBE hpiv hpos
      (by show n ≤ e.rng_.length; omega) (by show n ≤ e.tmp_.length; omega)
      (by show t ≤ e.histo_.length; omega) hrows
  have hall : below lt (stdSort (samplePivots K rand src n)) (src.take n) K = n := by
    rw [below_all lt _ _ K (by omega), List.length_take]
    omega
  refine ⟨_, _, _, hCR, hCH, hSC, rfl, htag, ?_, ?_⟩
  · intro b hb
    have hs := below_succ lt (stdSort (samplePivots K rand src n)) (src.take n) b
    refine ⟨below lt (stdSort (samplePivots K rand src n)) (src.take n) b,
      below lt (stdSort (samplePivots K rand src n)) (src.take n) (b + 1),
      hposv b hb, ?_, ?_⟩
    · by_cases hbK : b + 1 = K
      · rw [hbK, hall]
        exact hposK
      · exact hposv (b + 1) (by omega)
    · show (Tm3.drop _).take _ = bucket lt (stdSort (samplePivots K rand src n)) _ b
      rw [hs, Nat.add_sub_cancel_left]
      exact hwin b hb
  · show Tm3.take n = (List.range K).flatMap
      (fun b => bucket lt (stdSort (samplePivots K rand src n)) (src.take n) b)
    have h := take_eq_flatMap Tm3
      (below lt (stdSort (samplePivots K rand src n)) (src.take n))
      (bucket lt (stdSort (samplePivots K rand src n)) (src.take n)) (below_zero _ _ _) K
      (fun b _ => below_succ _ _ _ b) hwin
    rw [hall] at h
    exact h

/-- For `1 ≤ n ≤ INT_MAX` and a total order, two runs of `Sort` on the same array with
the same worker count and two pivot draws return the same array. -/
theorem sort_pivot_independent (K M : Nat) (T : Int) (lt : α → α → Bool)
    (hlt : StrictWeakOrder lt) (htot : ∀ a b, lt a b = false → lt b a = false → a = b)
    (stdSort : List α → List α) (hsort : SortContract lt stdSort) (rand rand' : Nat → Nat)
    (omp : Omp) (e : MapSort α) (src : List α) (n : Nat) (nt : Int) (hK : 1 ≤ K)
    (hK31 : K ≤ 2147483648) (he : Shaped K M T e) (hT : T ≤ 2147483647) (hn1 : 1 ≤ n)
    (hnM : n ≤ M) (hn : n < 2147483648) (hsrc : n ≤ src.length)
    (h1 : 1 ≤ resolved omp nt) (h2 : resolved omp nt ≤ T) :
    ∃ r r', sort K lt stdSort rand omp e src n nt = .ok r ∧
      sort K lt stdSort rand' omp e src n nt = .ok r' ∧ r.src = r'.src := by
  obtain ⟨r, hrun, -, -, hres⟩ := sort_total K M T lt hlt htot stdSort hsort rand omp e
    src n nt hK hK31 he hT hn1 hnM hn hsrc h1 h2
  obtain ⟨r', hrun', -, -, hres'⟩ := sort_total K M T lt hlt htot stdSort hsort rand' omp e
    src n nt hK hK31 he hT hn1 hnM hn hsrc h1 h2
  exact ⟨r, r', hrun, hrun', by rw [hres, hres']⟩

end MapSort
end map_sort

namespace map_sort

variable {α : Type}

namespace MapSort

/-! ## The scratch array after `Sort`, and the order of the spans -/

/-- The run of `Sort` for `1 ≤ n ≤ INT_MAX` leaves the sorted elements in the scratch
array as well: `tmp_[0..n)` is `src[0..n)` as returned. -/
theorem sort_ok_scratch (K M : Nat) (T : Int) (lt : α → α → Bool)
    (stdSort : List α → List α) (hsort : SortContract lt stdSort) (rand : Nat → Nat)
    (omp : Omp) (e : MapSort α) (src : List α) (n : Nat) (nt : Int) (hK : 1 ≤ K)
    (hK31 : K ≤ 2147483648) (he : Shaped K M T e) (hT : T ≤ 2147483647) (hn1 : 1 ≤ n)
    (hnM : n ≤ M) (hn : n < 2147483648) (hsrc : n ≤ src.length)
    (h1 : 1 ≤ resolved omp nt) (h2 : resolved omp nt ≤ T) :
    ∃ r, sort K lt stdSort rand omp e src n nt = .ok r ∧ Shaped K M T r.engine ∧
      r.src = sortedBuckets K lt stdSort (stdSort (samplePivots K rand src n)) (src.take n)
        ++ src.drop n ∧
      r.engine.tmp_.take n
        = sortedBuckets K lt stdSort (stdSort (samplePivots K rand src n)) (src.take n) := by
  obtain ⟨hme, hmt, htmp, hrng, hpiv, hpos, hhisto, hrows, hbgn, hfin⟩ := he
  obtain ⟨t, ht⟩ : ∃ t : Nat, resolved omp nt = (t : Int) :=
    ⟨(resolved omp nt).toNat, by omega⟩
  have ht1 : 1 ≤ t := by omega
  have htT : t ≤ T.toNat := by omega
  obtain ⟨B, E, hCR, hBl, hEl, hBE⟩ := ComputeRanges_ok
    { e with num_threads_ := resolved omp nt } n t hn ht1 (by omega) ht
    (by show t ≤ e.pos_bgn_.length; omega) (by show t ≤ e.pos_end_.length; omega)
  dsimp only at hBl hEl
  obtain ⟨R1, Pos1, H1, hCH, hR1, hPos1, hH1, hrows1, htag1, hposv1, hcur1⟩ :=
    ComputeHistogram_ok K lt stdSort hsort rand src n t
      { e with num_threads_ := resolved omp nt, pos_bgn_ := B, pos_end_ := E }
      hK hK31 hn1 hn hsrc ht1 ht hBE hpiv hpos
      (by show n ≤ e.rng_.length; omega) (by show t ≤ e.histo_.length; omega) hrows
  dsimp only at hR1 hH1
  have hpl : (stdSort (samplePivots K rand src n)).length = K - 1 := by
    rw [(hsort.perm _).length_eq]
    exact (samplePivots_spec K rand src n hn1 hsrc).1
  obtain ⟨Tm2, H2, hSC, hTm2, hH2, hrows2, hwin2⟩ := Scatter_ok K lt src
    { e with num_threads_ := resolved omp nt, pos_bgn_ := B, pos_end_ := E,
             piv_ := stdSort (samplePivots K rand src n), rng_ := R1, pos_ := Pos1 }
    e.tmp_ H1 n t ht1 ht hBE hsrc hn htag1
    (by show (stdSort (samplePivots K rand src n)).length < K; omega) hK31 (by omega)
    (by omega) hrows1 hcur1
  have hall : below lt (stdSort (samplePivots K rand src n)) (src.take n) K = n := by
    rw [below_all lt _ _ K (by omega), List.length_take]
    omega
  obtain ⟨Tm3, hSI, hTm3, htake3⟩ := SortIntervals_ok K lt stdSort hsort
    { e with num_threads_ := resolved omp nt, pos_bgn_ := B, pos_end_ := E,
             piv_ := stdSort (samplePivots K rand src n), rng_ := R1, pos_ := Pos1,
             histo_ := H2 }
    Tm2 (below lt (stdSort (samplePivots K rand src n)) (src.take n))
    (bucket lt (stdSort (samplePivots K rand src n)) (src.take n))
    (below_zero _ _ _) (fun b _ => below_succ _ _ _ b) hposv1 (by rw [hall]; omega) hwin2
  rw [hall] at htake3
  refine ⟨
    { omp := { nthreads := resolved omp nt },
      engine := { e with num_threads_ := resolved omp nt, pos_bgn_ := B, pos_end_ := E,
                         piv_ := stdSort (samplePivots K rand src n), rng_ := R1,
                         pos_ := Pos1, histo_ := H2, tmp_ := Tm3 },
      src := sortedBuckets K lt stdSort (stdSort (samplePivots K rand src n)) (src.take n)
        ++ src.drop n }, ?_, ?_, rfl, htake3⟩
  · rw [sort_unfold K lt stdSort rand omp e src n nt (by omega) h1 (by omega), hCR, ok_bind,
      hCH, ok_bind]
    rw [show Scatter src
        { e with num_threads_ := resolved omp nt, pos_bgn_ := B, pos_end_ := E,
                 piv_ := stdSort (samplePivots K rand src n), rng_ := R1, pos_ := Pos1,
                 histo_ := H1 } = _ from hSC, ok_bind]
    rw [show SortIntervals K stdSort
        { e with num_threads_ := resolved omp nt, pos_bgn_ := B, pos_end_ := E,
                 piv_ := stdSort (samplePivots K rand src n), rng_ := R1, pos_ := Pos1,
                 histo_ := H2, tmp_ := Tm2 } = _ from hSI, ok_bind]
    rw [copy_ok _ src n (by show n ≤ Tm3.length; omega) hsrc, ok_bind, pure_eq_ok]
    show Except.ok (Outcome.mk _ _ (Tm3.take n ++ src.drop n)) = _
    rw [htake3]
    rfl
  · exact ⟨hme, hmt, by show Tm3.length = M; omega, by show R1.length = M; omega, hpl, hPos1,
      by show H2.length = T.toNat; omega, hrows2, by show B.length = T.toNat; omega,
      by show E.length = T.toNat; omega⟩

/-- An element inside a window that holds a bucket has the id of the bucket. -/
theorem id_of_window (lt : α → α → Bool) (piv l Tm : List α) (b p i : Nat) (x : α)
    (hwin : (Tm.drop p).take (bucket lt piv l b).length = bucket lt piv l b)
    (h1 : p ≤ i) (h2 : i < p + (bucket lt piv l b).length) (hx : Tm[i]? = some x) :
    lower_bound lt piv x = b := by
  apply mem_bucket lt piv l b x
  rw [← hwin]
  apply List.mem_iff_getElem?.mpr
  refine ⟨i - p, ?_⟩
  rw [List.getElem?_take, if_pos (by omega), List.getElem?_drop,
    show p + (i - p) = i by omega]
  exact hx

/-- For `1 ≤ n ≤ INT_MAX` and a strict weak order: after `Scatter` every value in the
span `[pos[b], pos[b + 1])` is not greater than every value in the span of a later
bucket, and after `SortIntervals` the scratch array `tmp_[0..n)` is in non-decreasing
order. -/
theorem spans_ordered (K M : Nat) (T : Int) (lt : α → α → Bool) (hlt : StrictWeakOrder lt)
    (stdSort : List α → List α) (hsort : SortContract lt stdSort) (rand : Nat → Nat)
    (e : MapSort α) (src : List α) (n t : Nat) (hK : 1 ≤ K) (hK31 : K ≤ 2147483648)
    (he : Shaped K M T e) (hT : T ≤ 2147483647) (hn1 : 1 ≤ n) (hnM : n ≤ M)
    (hn : n < 2147483648) (hsrc : n ≤ src.length) (ht1 : 1 ≤ t) (htT : (t : Int) ≤ T) :
    ∃ e1 e2 e3 e4, ComputeRanges n { e with num_threads_ := (t : Int) } = .ok e1 ∧
      ComputeHistogram K lt stdSort rand src n e1 = .ok e2 ∧ Scatter src e2 = .ok e3 ∧
      SortIntervals K stdSort e3 = .ok e4 ∧
      (∀ (b c p q p' q' i j : Nat) (x y : α), b < c → c < K →
        e3.pos_[b]? = some p → e3.pos_[b + 1]? = some q →
        e3.pos_[c]? = some p' → e3.pos_[c + 1]? = some q' →
        p ≤ i → i < q → p' ≤ j → j < q' → e3.tmp_[i]? = some x → e3.tmp_[j]? = some y →
        lt y x = false) ∧
      Sorted lt (e4.tmp_.take n) := by
  obtain ⟨hme, hmt, htmp, hrng, hpiv, hpos, hhisto, hrows, hbgn, hfin⟩ := he
  obtain ⟨B, E, hCR, hBl, hEl, hBE⟩ := ComputeRanges_ok
    { e with num_threads_ := (t : Int) } n t hn ht1 (by omega) rfl
    (by show t ≤ e.pos_bgn_.length; omega) (by show t ≤ e.pos_end_.length; omega)
  obtain ⟨R', H1, Pos0, H2, Tm3, H3, hL, hC, hCH, hLog, hSC, hpl, htag, hposv, hposK, hcol,
    hcur, hwin, hTm3, hframe⟩ := histogram_scatter_ranges K lt stdSort hsort rand src n n t
      { e with num_threads_ := (t : Int), pos_bgn_ := B, pos_end_ := E }
      hK hK31 hn1 hsrc hn hsrc ht1 rfl hBE hpiv hpos
      (by show n ≤ e.rng_.length; omega) (by show n ≤ e.tmp_.length; omega)
      (by show t ≤ e.histo_.length; omega) hrows
  have hall : below lt (stdSort (samplePivots K rand src n)) (src.take n) K = n := by
    rw [below_all lt _ _ K (by omega), List.length_take]
    omega
  have hposall : ∀ b, b ≤ K → (Pos0.set K n)[b]?
      = some (below lt (stdSort (samplePivots K rand src n)) (src.take n) b) := by
    intro b hb
    by_cases hbK : b = K
    · rw [hbK, hall]
      exact hposK
    · exact hposv b (by omega)
  have hs := samplePivots_sorted K lt stdSort hsort rand src n
  have hlen3 : n ≤ Tm3.length := by
    rw [hTm3]
    show n ≤ e.tmp_.length
    omega
  obtain ⟨Tm4, hSI, hTm4, htake4⟩ := SortIntervals_ok K lt stdSort hsort
    { e with num_threads_ := (t : Int), pos_bgn_ := B, pos_end_ := E,
             piv_ := stdSort (samplePivots K rand src n), rng_ := R', pos_ := Pos0.set K n,
             histo_ := H3 }
    Tm3 (below lt (stdSort (samplePivots K rand src n)) (src.take n))
    (bucket lt (stdSort (samplePivots K rand src n)) (src.take n))
    (below_zero _ _ _) (fun b _ => below_succ _ _ _ b) hposall (by rw [hall]; exact hlen3) hwin
  rw [hall] at htake4
  refine ⟨_, _, _, _, hCR, hCH, hSC, hSI, ?_, ?_⟩
  · intro b c p q p' q' i j x y hbc hcK hp hq hp' hq' hpi hiq hpj hjq hx hy
    have e1 := (hposall b (by omega)).symm.trans hp
    have e2 := (hposall (b + 1) (by omega)).symm.trans hq
    have e3 := (hposall c (by omega)).symm.trans hp'
    have e4 := (hposall (c + 1) (by omega)).symm.trans hq'
    injection e1 with e1
    injection e2 with e2
    injection e3 with e3
    injection e4 with e4
    have s1 := below_succ lt (stdSort (samplePivots K rand src n)) (src.take n) b
    have s2 := below_succ lt (stdSort (samplePivots K rand src n)) (src.take n) c
    have hxb := id_of_window lt _ (src.take n) Tm3 b
      (below lt (stdSort (samplePivots K rand src n)) (src.take n) b) i x
      (hwin b (by omega)) (by omega) (by omega) hx
    have hyc := id_of_window lt _ (src.take n) Tm3 c
      (below lt (stdSort (samplePivots K rand src n)) (src.take n) c) j y
      (hwin c hcK) (by omega) (by omega) hy
    apply bucket_order hlt hs x y
    rw [hxb, hyc]
    exact hbc
  · show Sorted lt (Tm4.take n)
    rw [htake4]
    exact sortedBuckets_sorted K lt hlt stdSort hsort _ _ hs

end MapSort
end map_sort

namespace map_sort

variable {α : Type}

namespace MapSort

/-- A call of `Sort` whose element count or resolved worker count is outside the
capacity of the engine stops on a failed assertion. -/
theorem sort_fault_of_capacity (K : Nat) (lt : α → α → Bool) (stdSort : List α → List α)
    (rand : Nat → Nat) (omp : Omp) (e : MapSort α) (src : List α) (n : Nat) (nt : Int)
    (h : e.max_elems_ < n ∨ ¬ (1 ≤ resolved omp nt ∧ resolved omp nt ≤ e.max_threads_)) :
    sort K lt stdSort rand omp e src n nt = .error .assertion := by
  simp only [sort, resolved] at h ⊢
  by_cases h1 : n ≤ e.max_elems_
  · rw [if_neg (not_not.mpr h1)]
    have h2 : ¬((1 ≤ if nt = -1 then utility.GetMaxThreads omp else nt) ∧
        (if nt = -1 then utility.GetMaxThreads omp else nt) ≤ e.max_threads_) := by
      rcases h with h | h
      · omega
      · exact h
    rw [if_pos h2]
  · rw [if_pos h1]

/-! ## Claims about bucket ids -/

/-- Claim C12: on any engine whose `K - 1` pivots are in ascending order, the iteration
of the histogram loop for `x = src[i]` records in `rng_[i]` the index of the first pivot
that is not less than `x` (`K - 1` when every pivot is less than `x`), which is the
number of pivots less than `x`, and is at most `K - 1`. -/
theorem recorded_bucket_id_is_first_pivot_not_less (K : Nat) (lt : α → α → Bool)
    (hlt : StrictWeakOrder lt) (src : List α) (e : MapSort α) (my_id i : Nat) (x : α)
    (hK : 1 ≤ K) (hK31 : K ≤ 2147483648) (hpiv : e.piv_.length = K - 1)
    (hs : Sorted lt e.piv_) (hx : src[i]? = some x) (hR : i < e.rng_.length)
    (hj : my_id < e.histo_.length) (hrows : ∀ r ∈ e.histo_, r.length = K) :
    ∃ e' k, ComputeHistogram.count lt src my_id i e = .ok e' ∧ e'.rng_[i]? = some k ∧
      k = e.piv_.findIdx (fun p => !lt p x) ∧
      ((∀ p ∈ e.piv_, lt p x = true) → k = K - 1) ∧
      k = e.piv_.countP (fun p => lt p x) ∧ k ≤ K - 1 := by
  obtain ⟨e', h1, h2, -⟩ := count_records K lt src e my_id i x hx hR hj hrows (by omega) hK31
  refine ⟨e', _, h1, h2, lower_bound_findIdx hlt hs x, ?_, lower_bound_countP hlt hs x, ?_⟩
  · intro hall
    rw [lower_bound_countP hlt hs x, ← hpiv]
    exact List.countP_eq_length.mpr hall
  · rw [← hpiv]
    exact lower_bound_le lt e.piv_ x

/-- An instance of claim C12: pivots `[1, 3]` (`K = 3`) and `x = 3` give bucket 1. -/
theorem recorded_bucket_id_is_first_pivot_not_less_witness :
    ∃ e' k, ComputeHistogram.count intLt [3, 1, 2] 0 0
        { max_elems_ := 3, max_threads_ := 1, tmp_ := [0, 0, 0], rng_ := [0, 0, 0],
          piv_ := [1, 3], pos_ := [0, 0, 0, 0], histo_ := [[0, 0, 0]], num_threads_ := 1,
          pos_bgn_ := [0], pos_end_ := [3] } = .ok e' ∧ e'.rng_[0]? = some k ∧
      k = List.findIdx (fun p => !intLt p 3) [1, 3] ∧
      ((∀ p ∈ [(1 : Int), 3], intLt p 3 = true) → k = 3 - 1) ∧
      k = List.countP (fun p => intLt p 3) [1, 3] ∧ k ≤ 3 - 1 :=
  recorded_bucket_id_is_first_pivot_not_less 3 intLt intLt_strictWeakOrder [3, 1, 2]
    { max_elems_ := 3, max_threads_ := 1, tmp_ := [0, 0, 0], rng_ := [0, 0, 0],
      piv_ := [1, 3], pos_ := [0, 0, 0, 0], histo_ := [[0, 0, 0]], num_threads_ := 1,
      pos_bgn_ := [0], pos_end_ := [3] } 0 0 3 (by decide) (by decide) rfl
    (by simp [Sorted, intLt]) rfl (by decide) (by decide) (by simp)

/-- Claim C13, amended: the buckets are closed on the right. On ascending pivots the
iteration for `x = src[i]` records bucket 0 exactly when `pivot[0]` is not less than `x`,
bucket `b + 1` exactly when `pivot[b] < x` and `pivot[b + 1]`, if there is one, is not
less than `x`; so an `x` that is not greater than `pivot[b]`, and an `x` equal to
`pivot[b]` in particular, gets a bucket id of at most `b`. -/
theorem recorded_bucket_id_closed_on_the_right (K : Nat) (lt : α → α → Bool)
    (hlt : StrictWeakOrder lt) (src : List α) (e : MapSort α) (my_id i : Nat) (x : α)
    (hK : 1 ≤ K) (hK31 : K ≤ 2147483648) (hpiv : e.piv_.length = K - 1)
    (hs : Sorted lt e.piv_) (hx : src[i]? = some x) (hR : i < e.rng_.length)
    (hj : my_id < e.histo_.length) (hrows : ∀ r ∈ e.histo_, r.length = K) :
    ∃ e' k, ComputeHistogram.count lt src my_id i e = .ok e' ∧ e'.rng_[i]? = some k ∧
      (k = 0 ↔ ∀ v : α, e.piv_[0]? = some v → lt v x = false) ∧
      (∀ b : Nat, k = b + 1 ↔ (∃ u : α, e.piv_[b]? = some u ∧ lt u x = true) ∧
        ∀ v : α, e.piv_[b + 1]? = some v → lt v x = false) ∧
      (∀ (b : Nat) (v : α), e.piv_[b]? = some v → lt v x = false → k ≤ b) := by
  obtain ⟨e', h1, h2, -⟩ := count_records K lt src e my_id i x hx hR hj hrows (by omega) hK31
  refine ⟨e', _, h1, h2, ?_, fun b => lower_bound_eq_succ_iff hlt hs x b, ?_⟩
  · rw [lower_bound_eq_iff hlt hs x 0]
    constructor
    · rintro ⟨-, -, h3⟩
      exact h3
    · intro h3
      exact ⟨Nat.zero_le _, fun i v hi => absurd hi (Nat.not_lt_zero i), h3⟩
  · intro b v hv hvx
    by_contra hc
    have t := lower_bound_before hlt hs x b v (by omega) hv
    rw [hvx] at t
    cases t

/-- An instance of claim C13 as amended: pivots `[1, 3]` and `x = 1`. -/
theorem recorded_bucket_id_closed_on_the_right_witness :
    ∃ e' k, ComputeHistogram.count intLt [3, 1, 2] 0 1
        { max_elems_ := 3, max_threads_ := 1, tmp_ := [0, 0, 0], rng_ := [0, 0, 0],
          piv_ := [1, 3], pos_ := [0, 0, 0, 0], histo_ := [[0, 0, 0]], num_threads_ := 1,
          pos_bgn_ := [0], pos_end_ := [3] } = .ok e' ∧ e'.rng_[1]? = some k ∧
      (k = 0 ↔ ∀ v : Int, [(1 : Int), 3][0]? = some v → intLt v 1 = false) ∧
      (∀ b : Nat, k = b + 1 ↔ (∃ u : Int, [(1 : Int), 3][b]? = some u ∧ intLt u 1 = true) ∧
        ∀ v : Int, [(1 : Int), 3][b + 1]? = some v → intLt v 1 = false) ∧
      (∀ (b : Nat) (v : Int), [(1 : Int), 3][b]? = some v → intLt v 1 = false → k ≤ b) :=
  recorded_bucket_id_closed_on_the_right 3 intLt intLt_strictWeakOrder [3, 1, 2]
    { max_elems_ := 3, max_threads_ := 1, tmp_ := [0, 0, 0], rng_ := [0, 0, 0],
      piv_ := [1, 3], pos_ := [0, 0, 0, 0], histo_ := [[0, 0, 0]], num_threads_ := 1,
      pos_bgn_ := [0], pos_end_ := [3] } 0 1 1 (by decide) (by decide) rfl
    (by simp [Sorted, intLt]) rfl (by decide) (by decide) (by simp)

/-- Claim C13 as stated fails: on `MapSort<int, 3>` with the array `[3, 1, 2]`, one
worker and the draws `0, 1`, the sorted pivots are `[1, 3]` and `ComputeHistogram`
records the bucket ids `[1, 0, 1]`. The element `1 = pivot[0]` is in bucket 0 although
it is not less than `pivot[0]`, and not in bucket 1 although `pivot[0] ≤ 1 < pivot[1]`;
the element `3 = pivot[1]` is in bucket 1, not in bucket 2. -/
theorem element_equal_to_pivot_is_in_lower_bucket :
    ∃ e0 e1 e2 : MapSort Int, Init 3 { nthreads := 1 } (new 3) 3 1 = .ok e0 ∧
      ComputeRanges 3 { e0 with num_threads_ := 1 } = .ok e1 ∧
      ComputeHistogram 3 intLt intSort (fun i => i) [3, 1, 2] 3 e1 = .ok e2 ∧
      e2.piv_ = [1, 3] ∧ e2.rng_ = [1, 0, 1] ∧
      ¬ (e2.rng_[1]? = some 0 ↔ intLt 1 1 = true) ∧
      ¬ (e2.rng_[1]? = some 1 ↔ (intLt 1 1 = false ∧ intLt 1 3 = true)) ∧
      ¬ (e2.rng_[0]? = some 2 ↔ intLt 3 3 = false) := by
  refine ⟨_, _, _, rfl, rfl, rfl, rfl, rfl, ?_, ?_, ?_⟩ <;> decide

/-- On ascending pivots, if the histogram loop records a smaller bucket id for
`x = src[i1]` than for `y = src[i2]`, then `y` is not less than `x`. Hence in any array
every element of a bucket is not greater than every element of a later bucket, and the
buckets, each sorted by `std::sort` and put one after the other, are in non-decreasing
order. -/
theorem bucket_ids_order_the_values (K : Nat) (lt : α → α → Bool)
    (hlt : StrictWeakOrder lt) (stdSort : List α → List α) (hsort : SortContract lt stdSort)
    (src : List α) (e : MapSort α) (my_id i1 i2 : Nat) (x y : α)
    (hK : 1 ≤ K) (hK31 : K ≤ 2147483648) (hpiv : e.piv_.length = K - 1)
    (hs : Sorted lt e.piv_) (hx : src[i1]? = some x) (hy : src[i2]? = some y)
    (hR1 : i1 < e.rng_.length) (hR2 : i2 < e.rng_.length)
    (hj : my_id < e.histo_.length) (hrows : ∀ r ∈ e.histo_, r.length = K) :
    (∃ e1 e2 k1 k2, ComputeHistogram.count lt src my_id i1 e = .ok e1 ∧
      e1.rng_[i1]? = some k1 ∧ ComputeHistogram.count lt src my_id i2 e = .ok e2 ∧
      e2.rng_[i2]? = some k2 ∧ (k1 < k2 → lt y x = false)) ∧
    (∀ (l : List α) (b c : Nat), b < c → ∀ u ∈ bucket lt e.piv_ l b,
      ∀ v ∈ bucket lt e.piv_ l c, lt v u = false) ∧
    (∀ l : List α, Sorted lt (sortedBuckets K lt stdSort e.piv_ l)) := by
  obtain ⟨e1, h1, h2, -⟩ := count_records K lt src e my_id i1 x hx hR1 hj hrows (by omega) hK31
  obtain ⟨e2, h3, h4, -⟩ := count_records K lt src e my_id i2 y hy hR2 hj hrows (by omega) hK31
  refine ⟨⟨e1, e2, _, _, h1, h2, h3, h4, fun hlt' => bucket_order hlt hs x y hlt'⟩, ?_, ?_⟩
  · intro l b c hbc u hu v hv
    apply bucket_order hlt hs u v
    rw [mem_bucket lt e.piv_ l b u hu, mem_bucket lt e.piv_ l c v hv]
    exact hbc
  · intro l
    exact sortedBuckets_sorted K lt hlt stdSort hsort e.piv_ l hs

/-! ## An engine that was never initialised -/

/-- Claim C20: a constructed engine has the capacity `M = 0`, `T = 0`, and every call of
`Sort` on it stops on a failed assertion: for `n ≥ 1` the check `n ≤ M` fails, and for
every worker count the check `1 ≤ t ≤ T` fails. The buffers are null, so an access to
one of them would be an out-of-bounds fault, not this one. The same holds for an engine
that `DeleteAll` has emptied. -/
theorem sort_on_constructed_engine_halts [Inhabited α] (K : Nat) (lt : α → α → Bool)
    (stdSort : List α → List α) (rand : Nat → Nat) (omp : Omp) (e : MapSort α)
    (src : List α) (n : Nat) (nt : Int) :
    (new K : MapSort α).max_elems_ = 0 ∧ (new K : MapSort α).max_threads_ = 0 ∧
    (new K : MapSort α).tmp_ = [] ∧ (new K : MapSort α).rng_ = [] ∧
    (new K : MapSort α).histo_ = [] ∧ (new K : MapSort α).pos_bgn_ = [] ∧
    (new K : MapSort α).pos_end_ = [] ∧
    (1 ≤ n → ¬ n ≤ (new K : MapSort α).max_elems_) ∧
    ¬ (1 ≤ resolved omp nt ∧ resolved omp nt ≤ (new K : MapSort α).max_threads_) ∧
    sort K lt stdSort rand omp (new K) src n nt = .error .assertion ∧
    sort K lt stdSort rand omp (DeleteAll e) src n nt = .error .assertion := by
  have h0 : ¬ (1 ≤ resolved omp nt ∧ resolved omp nt ≤ (0 : Int)) := by omega
  refine ⟨rfl, rfl, rfl, rfl, rfl, rfl, rfl, ?_, h0, ?_, ?_⟩
  · intro h1 h2
    have : n ≤ 0 := h2
    omega
  · exact sort_fault_of_capacity K lt stdSort rand omp (new K) src n nt (Or.inr h0)
  · exact sort_fault_of_capacity K lt stdSort rand omp (DeleteAll e) src n nt (Or.inr h0)

end MapSort
end map_sort

namespace map_sort

namespace MapSort

/-! ## Element counts above `INT_MAX` in the phases of `Sort` -/

/-- Claim C11 at its failing input: for `n = 3000000000` and three workers
`ComputeRanges` leaves `bgn = [0, 10^9, 2 * 10^9]` and
`end = [10^9, 2 * 10^9, -1294967296]`; the sizes `end[i] - bgn[i]` are `10^9`, `10^9`
and `-3294967296`. -/
theorem ComputeRanges_of_three_billion_elements_is_unbalanced :
    ∃ e, ComputeRanges 3000000000
        { (new 256 : MapSort Int) with max_threads_ := 3, num_threads_ := 3,
                                        pos_bgn_ := [0, 0, 0], pos_end_ := [0, 0, 0] }
        = .ok e ∧ e.pos_bgn_ = [0, 1000000000, 2000000000] ∧
      e.pos_end_ = [1000000000, 2000000000, -1294967296] ∧
      ((1000000000 : Int) - 0 = 1000000000 ∧
        (-1294967296 : Int) - 2000000000 = -3294967296) :=
  ⟨_, rfl, rfl, rfl, by decide, by decide⟩

theorem toInt_two_pow_32_plus_5 : toInt ((4294967301 : Nat) : Int) = ((5 : Nat) : Int) := by
  decide

/-- Claim C14 at its failing input: `n = 2^32 + 5` elements, all equal to 7, one worker,
on an engine set up by `Init(n, 1)`. `ComputeRanges` leaves the range `[0, 5)`, and after
`ComputeHistogram` `pos[0] = 0`, `pos[1] = pos[255] = 5` and `pos[256] = n`, while all `n`
elements of the array have the bucket id 0. -/
theorem ComputeHistogram_of_two_pow_32_plus_5_elements_counts_five :
    ∃ e e1 e2, Init 256 { nthreads := 1 } (new 256) 4294967301 1 = .ok e ∧
      ComputeRanges 4294967301 { e with num_threads_ := 1 } = .ok e1 ∧
      ComputeHistogram 256 intLt intSort (fun i => i)
        (List.replicate 4294967301 (7 : Int)) 4294967301 e1 = .ok e2 ∧
      e1.pos_bgn_[0]? = some 0 ∧ e1.pos_end_[0]? = some 5 ∧
      lower_bound intLt e2.piv_ 7 = 0 ∧
      (bucket intLt e2.piv_ (List.replicate 4294967301 (7 : Int)) 0).length = 4294967301 ∧
      (bucket intLt e2.piv_ (List.replicate 4294967301 (7 : Int)) 255).length = 0 ∧
      e2.pos_[0]? = some 0 ∧ e2.pos_[1]? = some 5 ∧ e2.pos_[255]? = some 5 ∧
      e2.pos_[256]? = some 4294967301 := by
  obtain ⟨e, hI, hS⟩ := Init_shaped (α := Int) 256 { nthreads := 1 } (new 256) 4294967301 1
    (by decide) (new_piv_length 256) (new_pos_length 256)
  obtain ⟨R', H1, Pos0, H2, Tm3, H3, hCR, hL, hC, hCH, hLog, hSC, hlb, htag, hposv, hposK,
    hc1, hc2, htake, hTm3, hframe⟩ := one_worker_equal_elements 256 4294967301 _ intLt
      intLt_strictWeakOrder.irrefl intSort intSort_contract (fun i => i) e 7 4294967301 5
      (by decide) (by decide) hS (by decide) toInt_two_pow_32_plus_5 (by decide) (by decide)
      (by decide) (Nat.le_refl _)
  have hB := hS.bgn
  have hE := hS.fin
  refine ⟨e, _, _, hI, hCR, hCH, ?_, ?_, hlb, ?_, ?_, hposv 0 (by decide),
    hposv 1 (by decide), hposv 255 (by decide), hposK⟩
  · exact List.getElem?_set_self (by rw [hB]; decide)
  · exact List.getElem?_set_self (by rw [hE]; decide)
  · show (bucket intLt (List.replicate (256 - 1) 7) _ 0).length = _
    rw [bucket_replicate intLt 7 _ _ 0 (intLt_strictWeakOrder.irrefl 7), if_pos rfl,
      List.length_replicate]
  · show (bucket intLt (List.replicate (256 - 1) 7) _ 255).length = _
    rw [bucket_replicate intLt 7 _ _ 255 (intLt_strictWeakOrder.irrefl 7),
      if_neg (by decide)]
    rfl

/-- Claim C15 at its failing input: `n = 2^32 + 5` elements, all equal to 7, one worker.
After the local histogram the count of bucket 255 is 0; after the combination the cursor
of worker 0 for bucket 255 is 5 and the running total is 5, and `ComputeHistogram` leaves
`pos[255] = 5` and `pos[256] = n`: the only interval of bucket 255 is `[5, 5)`, its span
is `[5, n)`. -/
theorem cursors_of_two_pow_32_plus_5_elements_leave_the_last_span :
    ∃ e e1 eL eC e2 s, Init 256 { nthreads := 1 } (new 256) 4294967301 1 = .ok e ∧
      ComputeRanges 4294967301 { e with num_threads_ := 1 } = .ok e1 ∧
      forLoop (ComputeHistogram.block 256 intLt (List.replicate 4294967301 (7 : Int))) 0 1
        { e1 with piv_ := intSort (samplePivots 256 (fun i => i)
            (List.replicate 4294967301 (7 : Int)) 4294967301) } = .ok eL ∧
      forLoop ComputeHistogram.outer 0 256 (eL, 0) = .ok (eC, s) ∧
      ComputeHistogram 256 intLt intSort (fun i => i)
        (List.replicate 4294967301 (7 : Int)) 4294967301 e1 = .ok e2 ∧
      e2.histo_ = eC.histo_ ∧ s = 5 ∧
      cell eL.histo_ 0 0 = 5 ∧ cell eL.histo_ 0 255 = 0 ∧
      cell e2.histo_ 0 0 = 0 ∧ cell e2.histo_ 0 255 = 5 ∧
      e2.pos_[255]? = some 5 ∧ e2.pos_[256]? = some 4294967301 := by
  obtain ⟨e, hI, hS⟩ := Init_shaped (α := Int) 256 { nthreads := 1 } (new 256) 4294967301 1
    (by decide) (new_piv_length 256) (new_pos_length 256)
  obtain ⟨R', H1, Pos0, H2, Tm3, H3, hCR, hL, hC, hCH, hLog, hSC, hlb, htag, hposv, hposK,
    hc1, hc2, htake, hTm3, hframe⟩ := one_worker_equal_elements 256 4294967301 _ intLt
      intLt_strictWeakOrder.irrefl intSort intSort_contract (fun i => i) e 7 4294967301 5
      (by decide) (by decide) hS (by decide) toInt_two_pow_32_plus_5 (by decide) (by decide)
      (by decide) (Nat.le_refl _)
  have hP := sorted_pivots_replicate 256 intLt intSort intSort_contract (fun i => i)
    (7 : Int) 4294967301 (by decide)
  refine ⟨e, _, _, _, _, _, hI, hCR, ?_, hC, hCH, rfl, rfl, hc1 0 (by decide),
    hc1 255 (by decide), hc2 0 (by decide), hc2 255 (by decide), hposv 255 (by decide), hposK⟩
  rw [hP]
  exact hL

/-- Claim C16 at its failing input: `n = 2^32 + 5` elements, all equal to 7, one worker.
`Scatter` writes the source indices 0 to 4 to the scratch indices 0 to 4 and nothing
else: source index 5 is not moved and scratch index 5 is not written. -/
theorem Scatter_of_two_pow_32_plus_5_elements_moves_five :
    ∃ e e1 e2 e3 log, Init 256 { nthreads := 1 } (new 256) 4294967301 1 = .ok e ∧
      ComputeRanges 4294967301 { e with num_threads_ := 1 } = .ok e1 ∧
      ComputeHistogram 256 intLt intSort (fun i => i)
        (List.replicate 4294967301 (7 : Int)) 4294967301 e1 = .ok e2 ∧
      Scatter.log (List.replicate 4294967301 (7 : Int)) e2 = .ok (e3, log) ∧
      Scatter (List.replicate 4294967301 (7 : Int)) e2 = .ok e3 ∧
      log = [(0, 0), (1, 1), (2, 2), (3, 3), (4, 4)] ∧
      5 ∉ log.map Prod.fst ∧ 5 ∉ log.map Prod.snd := by
  obtain ⟨e, hI, hS⟩ := Init_shaped (α := Int) 256 { nthreads := 1 } (new 256) 4294967301 1
    (by decide) (new_piv_length 256) (new_pos_length 256)
  obtain ⟨R', H1, Pos0, H2, Tm3, H3, hCR, hL, hC, hCH, hLog, hSC, hlb, htag, hposv, hposK,
    hc1, hc2, htake, hTm3, hframe⟩ := one_worker_equal_elements 256 4294967301 _ intLt
      intLt_strictWeakOrder.irrefl intSort intSort_contract (fun i => i) e 7 4294967301 5
      (by decide) (by decide) hS (by decide) toInt_two_pow_32_plus_5 (by decide) (by decide)
      (by decide) (Nat.le_refl _)
  exact ⟨e, _, _, _, _, hI, hCR, hCH, hLog, hSC, rfl, by decide, by decide⟩

/-- Claim C17 at its failing input: `n = 2^32 + 5` elements, all equal to 7, one worker.
After `Scatter` the span `[pos[0], pos[1]) = [0, 5)` of bucket 0 holds five elements,
while the array has `n` elements with the bucket id 0, and the scratch array from index 5
on is what it was before the call. -/
theorem scratch_of_two_pow_32_plus_5_elements_holds_five :
    ∃ e e1 e2 e3, Init 256 { nthreads := 1 } (new 256) 4294967301 1 = .ok e ∧
      ComputeRanges 4294967301 { e with num_threads_ := 1 } = .ok e1 ∧
      ComputeHistogram 256 intLt intSort (fun i => i)
        (List.replicate 4294967301 (7 : Int)) 4294967301 e1 = .ok e2 ∧
      Scatter (List.replicate 4294967301 (7 : Int)) e2 = .ok e3 ∧
      e3.pos_[0]? = some 0 ∧ e3.pos_[1]? = some 5 ∧
      (e3.tmp_.drop 0).take (5 - 0) = [7, 7, 7, 7, 7] ∧
      (bucket intLt e3.piv_ (List.replicate 4294967301 (7 : Int)) 0).length = 4294967301 ∧
      (∀ p : Nat, 5 ≤ p → e3.tmp_[p]? = e.tmp_[p]?) := by
  obtain ⟨e, hI, hS⟩ := Init_shaped (α := Int) 256 { nthreads := 1 } (new 256) 4294967301 1
    (by decide) (new_piv_length 256) (new_pos_length 256)
  obtain ⟨R', H1, Pos0, H2, Tm3, H3, hCR, hL, hC, hCH, hLog, hSC, hlb, htag, hposv, hposK,
    hc1, hc2, htake, hTm3, hframe⟩ := one_worker_equal_elements 256 4294967301 _ intLt
      intLt_strictWeakOrder.irrefl intSort intSort_contract (fun i => i) e 7 4294967301 5
      (by decide) (by decide) hS (by decide) toInt_two_pow_32_plus_5 (by decide) (by decide)
      (by decide) (Nat.le_refl _)
  refine ⟨e, _, _, _, hI, hCR, hCH, hSC, hposv 0 (by decide), hposv 1 (by decide), htake, ?_,
    hframe⟩
  show (bucket intLt (List.replicate (256 - 1) 7) _ 0).length = _
  rw [bucket_replicate intLt 7 _ _ 0 (intLt_strictWeakOrder.irrefl 7), if_pos rfl,
    List.length_replicate]

/-- Claim C18 at its failing input: an engine set up by `Init(n, 1)` for `n = 2^32 + 5`
first sorts six zeros, which leaves `tmp_[5] = 0`, and is then given `n` elements, all
equal to 7, with one worker. After `Scatter` the span `[pos[0], pos[1]) = [0, 5)` of
bucket 0 holds 7 at index 4 and the span `[pos[255], pos[256]) = [5, n)` of bucket 255
holds 0 at index 5: a value of a later span is less than a value of an earlier one. -/
theorem spans_of_two_pow_32_plus_5_elements_are_out_of_order :
    ∃ e r e1 e2 e3, Init 256 { nthreads := 1 } (new 256) 4294967301 1 = .ok e ∧
      sort 256 intLt intSort (fun i => i) { nthreads := 1 } e [0, 0, 0, 0, 0, 0] 6 1 = .ok r ∧
      r.src = [0, 0, 0, 0, 0, 0] ∧
      ComputeRanges 4294967301 { r.engine with num_threads_ := 1 } = .ok e1 ∧
      ComputeHistogram 256 intLt intSort (fun i => i)
        (List.replicate 4294967301 (7 : Int)) 4294967301 e1 = .ok e2 ∧
      Scatter (List.replicate 4294967301 (7 : Int)) e2 = .ok e3 ∧
      e3.pos_[0]? = some 0 ∧ e3.pos_[1]? = some 5 ∧ e3.pos_[255]? = some 5 ∧
      e3.pos_[256]? = some 4294967301 ∧
      e3.tmp_[4]? = some 7 ∧ e3.tmp_[5]? = some 0 ∧ intLt 0 7 = true := by
  obtain ⟨e, hI, hS⟩ := Init_shaped (α := Int) 256 { nthreads := 1 } (new 256) 4294967301 1
    (by decide) (new_piv_length 256) (new_pos_length 256)
  obtain ⟨r, hrun, hS', hres, htmp⟩ := sort_ok_scratch 256 4294967301 _ intLt intSort
    intSort_contract (fun i => i) { nthreads := 1 } e [0, 0, 0, 0, 0, 0] 6 1 (by decide)
    (by decide) hS (by decide) (by decide) (by decide) (by decide) (by decide) (by decide)
    (by decide)
  have hpl : (intSort (samplePivots 256 (fun i => i) [(0 : Int), 0, 0, 0, 0, 0] 6)).length
      < 256 := by
    rw [(intSort_contract.perm _).length_eq,
      (samplePivots_spec 256 (fun i => i) [(0 : Int), 0, 0, 0, 0, 0] 6 (by decide)
        (by decide)).1]
    decide
  have hz : sortedBuckets 256 intLt intSort
      (intSort (samplePivots 256 (fun i => i) [(0 : Int), 0, 0, 0, 0, 0] 6))
      (List.take 6 [(0 : Int), 0, 0, 0, 0, 0]) = List.replicate 6 0 :=
    List.perm_replicate.mp
      (sortedBuckets_perm 256 intLt intSort intSort_contract _ _ hpl)
  rw [hz] at hres htmp
  obtain ⟨R', H1, Pos0, H2, Tm3, H3, hCR, hL, hC, hCH, hLog, hSC, hlb, htag, hposv, hposK,
    hc1, hc2, htake, hTm3, hframe⟩ := one_worker_equal_elements 256 4294967301 _ intLt
      intLt_strictWeakOrder.irrefl intSort intSort_contract (fun i => i) r.engine 7
      4294967301 5 (by decide) (by decide) hS' (by decide) toInt_two_pow_32_plus_5
      (by decide) (by decide) (by decide) (Nat.le_refl _)
  have h4 : Tm3[4]? = some 7 := by
    have h := congrArg (fun l => l[4]?) htake
    simp only [List.getElem?_take] at h
    rw [if_pos (by decide)] at h
    rw [h]
    rfl
  have h5 : r.engine.tmp_[5]? = some 0 := by
    have h := congrArg (fun l => l[5]?) htmp
    simp only [List.getElem?_take] at h
    rw [if_pos (by decide)] at h
    rw [h]
    rfl
  refine ⟨e, r, _, _, _, hI, hrun, hres, hCR, hCH, hSC, hposv 0 (by decide),
    hposv 1 (by decide), hposv 255 (by decide), hposK, h4, ?_, by decide⟩
  show Tm3[5]? = some 0
  rw [hframe 5 (Nat.le_refl 5)]
  exact h5

/-- Claim C19 at its failing input: on an engine set up by `Init(2^31, 1)`, `Sort` of
`2^31` elements with one worker reads `src[2^31]` whatever the pivot draw is, here for
the draws `0, 0, ...` and `0, 1, 2, ...`; neither run returns a final array. -/
theorem sort_of_two_pow_31_elements_returns_nothing_for_any_draw :
    ∃ e, Init 256 { nthreads := 1 } (new 256) 2147483648 1 = .ok e ∧
      sort 256 intLt intSort (fun _ => 0) { nthreads := 1 } e
        (List.replicate 2147483648 (3 : Int)) 2147483648 1 = .error .outOfBounds ∧
      sort 256 intLt intSort (fun i => i) { nthreads := 1 } e
        (List.replicate 2147483648 (3 : Int)) 2147483648 1 = .error .outOfBounds := by
  obtain ⟨e, hI, hS⟩ := Init_shaped (α := Int) 256 { nthreads := 1 } (new 256) 2147483648 1
    (by decide) (new_piv_length 256) (new_pos_length 256)
  exact ⟨e, hI,
    sort_fault_one_worker 256 2147483648 _ intLt intSort intSort_contract _ _ e _
      2147483648 1 (by decide) (by decide) hS (by decide) (Nat.le_refl _) (Nat.le_refl _)
      (by decide) (List.length_replicate _ _) rfl,
    sort_fault_one_worker 256 2147483648 _ intLt intSort intSort_contract _ _ e _
      2147483648 1 (by decide) (by decide) hS (by decide) (Nat.le_refl _) (Nat.le_refl _)
      (by decide) (List.length_replicate _ _) rfl⟩

end MapSort
end map_sort
